import Mathlib

/-!
Brain-Wallet: Base58 / Base58Check, SHA-256, WIF and elliptic-curve arithmetic.

A shallow embedding of the C sources `base58/base58_example.c`, `sha256/sha256.c`,
`ecc/ecc.c`, of `generate_strpublickey` of `customutil/customutil.c` and of `hex2bin`,
`private_key_to_wif`, `wif_to_private_key`, `hash160`, `base58check_encode`,
`public_key_to_address` and the secp256k1 constants of `Brain.c`, together with
machine-checked statements about them. The functions declared in `base58/base58.h` and
`bech32/bech32.h` whose bodies are not among the sources are modelled from sections 4.5 and
4.6 of the specification.

Modelling conventions.

* A byte (`unsigned char`, `uint8_t`) is a `Fin 256`; a store of an `int` into a byte is
  the explicit truncation `toByte`. A `uint32_t` is a natural number below `2 ^ 32`, every
  arithmetic result being reduced by `u32`.
* A C string is the `List Char` of its characters before the terminating NUL, a byte
  buffer together with its length is a `List Byte`.
* `size_t` / `int` lengths and indices are natural numbers: the embedded functions agree
  with the C code as long as the lengths stay below the C integer limits (the source
  states this assumption itself for the index `j` of `base58_decode`).
* `malloc` / `calloc` are assumed to succeed, also for a request of zero bytes; a `NULL`
  result is `none`.
* A fixed-size buffer is not represented: the data written to it is a list, and the
  statements about a function that fills one carry the bound the source assumes (the
  decoded public key fits the 100 bytes of `pub_bin`).
* `mpz_t` values are `Int`; the GMP calls `mpz_mod`, `mpz_invert`, `mpz_sizeinbase` and
  `mpz_tstbit` are modelled after the GMP manual. A division by a zero modulus, on which
  GMP stops the process, is not represented (`mpz_mod n 0` is `n` here): a statement that
  asserts a result of the curve operations for an arbitrary curve carries `p ≠ 0` or
  `0 < p`.
* A function that writes its result through a pointer returns that result; a function
  that reports failure by `-1`, `0` or `NULL` returns `none`. The output object is distinct
  from the input objects, as in every call of the repository (`point_doubling`,
  `point_addition` and `scalar_multiplication` write `*R` before their last read of `*P`).
* The file has two parts: the definitions, then the theorems.
-/

namespace BrainWallet

/-! ## Bytes -/

/-- One `unsigned char`. -/
abbrev Byte := Fin 256

/-- Conversion of an `int` to `unsigned char` (reduction modulo 256). -/
def toByte (n : Nat) : Byte := ⟨n % 256, Nat.mod_lt n (by decide)⟩

/-! ## base58/base58_example.c -/

/-- The Base58 alphabet of Bitcoin, `BASE58_ALPHABET`. -/
def BASE58_ALPHABET : List Char :=
  "123456789ABCDEFGHJKLMNPQRSTUVWXYZabcdefghijkmnopqrstuvwxyz".toList

/-- The character `BASE58_ALPHABET[i]`. -/
def alphabetAt (i : Nat) : Char := BASE58_ALPHABET.getD i (Char.ofNat 0)

/-- The call `strchr(BASE58_ALPHABET, c)` for a character `c` of the string, as the offset
`p - BASE58_ALPHABET`, or `none` when the result is `NULL`. -/
def strchr_alphabet (c : Char) : Option Nat :=
  let i := BASE58_ALPHABET.indexOf c
  if i < BASE58_ALPHABET.length then some i else none

/-- The inner `for` loop of `base58_encode`: one division of the big-endian number held in
`buffer[start..]` by 58, run with the incoming `remainder`; returns the new buffer
contents and the final remainder. -/
def divmod58 : Nat → List Byte → List Byte × Nat
  | remainder, [] => ([], remainder)
  | remainder, b :: bs =>
    let num := remainder * 256 + b.val
    let r := divmod58 (num % 58) bs
    (toByte (num / 58) :: r.1, r.2)

/-- The outer `while (start < data_len)` loop of `base58_encode`. `buf` is
`buffer[start..data_len)`, `b58` the characters written so far; the first argument bounds
the number of iterations. -/
def encode_loop : Nat → List Byte → List Char → List Char
  | 0, _, b58 => b58
  | fuel + 1, buf, b58 =>
    if buf = [] then b58
    else
      let r := divmod58 0 buf
      encode_loop fuel (r.1.dropWhile (fun x => x = 0)) (b58 ++ [alphabetAt r.2])

/-- The function `base58_encode`. The loop bound `2 * data_len` is never reached
(`encode_loop_fuel`). -/
def base58_encode (data : List Byte) : List Char :=
  let zeros := (data.takeWhile (fun x => x = 0)).length
  let b58 := encode_loop (2 * data.length) (data.drop zeros) []
  (b58 ++ List.replicate zeros (alphabetAt 0)).reverse

/-- The inner `for (j = size - 1; j >= 0; j--)` loop of `base58_decode`: `bin = bin * 58 +
digit` on the big-endian buffer `bin`; returns the new buffer and the final `carry`. -/
def mul58add : List Byte → Nat → List Byte × Nat
  | [], carry => ([], carry)
  | b :: bs, digit =>
    let r := mul58add bs digit
    let carry := r.2 + 58 * b.val
    (toByte carry :: r.1, carry / 256)

/-- The `for (i = 0; i < b58_len; i++)` loop of `base58_decode`; `none` is the `return
NULL` of an illegal character or of an overflow. -/
def decode_loop : List Char → List Byte → Option (List Byte)
  | [], bin => some bin
  | c :: cs, bin =>
    match strchr_alphabet c with
    | none => none
    | some digit =>
      let r := mul58add bin digit
      if r.2 ≠ 0 then none else decode_loop cs r.1

/-- The function `base58_decode`; the result carries its length (`*result_len`). -/
def base58_decode (b58 : List Char) : Option (List Byte) :=
  let b58 := b58.dropWhile (fun c => c = ' ')
  let b58_len := b58.length
  let zeros := (b58.takeWhile (fun c => c = alphabetAt 0)).length
  let size := b58_len * 733 / 1000 + 1
  match decode_loop b58 (List.replicate size 0) with
  | none => none
  | some bin => some (List.replicate zeros 0 ++ bin.dropWhile (fun x => x = 0))

/-- The macro `SHA256_DIGEST_LENGTH`. -/
def SHA256_DIGEST_LENGTH : Nat := 32

/-- The function `base58_encode_check`, over the hash function `SHA256`. -/
def base58_encode_check (SHA256 : List Byte → List Byte) (data : List Byte) : List Char :=
  let hash1 := SHA256 data
  let hash2 := SHA256 hash1
  base58_encode (data ++ hash2.take 4)

/-- The function `base58_decode_check`, over the hash function `SHA256`. -/
def base58_decode_check (SHA256 : List Byte → List Byte) (b58 : List Char) :
    Option (List Byte) :=
  match base58_decode b58 with
  | none => none
  | some bin =>
    if bin.length < 4 then none
    else
      let payload_len := bin.length - 4
      let payload := bin.take payload_len
      let hash1 := SHA256 payload
      let hash2 := SHA256 hash1
      if hash2.take 4 ≠ (bin.drop payload_len).take 4 then none
      else some payload

/-! ## sha256/sha256.c -/

/-- The table `sha256_initial_h`, one source line per row. -/
def sha256_initial_h : List Nat :=
  [0x6a09e667, 0xbb67ae85, 0x3c6ef372, 0xa54ff53a] ++
  [0x510e527f, 0x9b05688c, 0x1f83d9ab, 0x5be0cd19]

/-- The table `sha256_round_k`, one source line per row. -/
def sha256_round_k : List Nat :=
  [0x428a2f98, 0x71374491, 0xb5c0fbcf, 0xe9b5dba5] ++
  [0x3956c25b, 0x59f111f1, 0x923f82a4, 0xab1c5ed5] ++
  [0xd807aa98, 0x12835b01, 0x243185be, 0x550c7dc3] ++
  [0x72be5d74, 0x80deb1fe, 0x9bdc06a7, 0xc19bf174] ++
  [0xe49b69c1, 0xefbe4786, 0x0fc19dc6, 0x240ca1cc] ++
  [0x2de92c6f, 0x4a7484aa, 0x5cb0a9dc, 0x76f988da] ++
  [0x983e5152, 0xa831c66d, 0xb00327c8, 0xbf597fc7] ++
  [0xc6e00bf3, 0xd5a79147, 0x06ca6351, 0x14292967] ++
  [0x27b70a85, 0x2e1b2138, 0x4d2c6dfc, 0x53380d13] ++
  [0x650a7354, 0x766a0abb, 0x81c2c92e, 0x92722c85] ++
  [0xa2bfe8a1, 0xa81a664b, 0xc24b8b70, 0xc76c51a3] ++
  [0xd192e819, 0xd6990624, 0xf40e3585, 0x106aa070] ++
  [0x19a4c116, 0x1e376c08, 0x2748774c, 0x34b0bcb5] ++
  [0x391c0cb3, 0x4ed8aa4a, 0x5b9cca4f, 0x682e6ff3] ++
  [0x748f82ee, 0x78a5636f, 0x84c87814, 0x8cc70208] ++
  [0x90befffa, 0xa4506ceb, 0xbef9a3f7, 0xc67178f2]

/-- Reduction of an arithmetic result to `uint32_t`. -/
def u32 (n : Nat) : Nat := n % 2 ^ 32

/-- The function `sha256_ror` on `uint32_t` values. -/
def sha256_ror (input n : Nat) : Nat := u32 ((input >>> n) ||| (input <<< (32 - n)))

/-- The function `sha256_endian_read32`, reading the first four bytes of `input`. -/
def sha256_endian_read32 (input : List Byte) : Nat :=
  ((input.getD 0 0).val <<< 24) ||| ((input.getD 1 0).val <<< 16) |||
    ((input.getD 2 0).val <<< 8) ||| (input.getD 3 0).val

/-- The function `sha256_endian_reverse32`, as the four bytes written. -/
def sha256_endian_reverse32 (input : Nat) : List Byte :=
  [toByte (input >>> 24), toByte (input >>> 16), toByte (input >>> 8), toByte input]

/-- The function `sha256_endian_reverse64`, as the eight bytes written. -/
def sha256_endian_reverse64 (input : Nat) : List Byte :=
  [toByte (input >>> 56), toByte (input >>> 48), toByte (input >>> 40), toByte (input >>> 32),
   toByte (input >>> 24), toByte (input >>> 16), toByte (input >>> 8), toByte input]

/-- One step of the message-schedule loop of `sha256`: computes `w[i]` from the `i` words
already in `w` and appends it. -/
def sha256_schedule_step (w : List Nat) (i : Nat) : List Nat :=
  let s0 := sha256_ror (w.getD (i - 15) 0) 7 ^^^ sha256_ror (w.getD (i - 15) 0) 18 ^^^
    (w.getD (i - 15) 0 >>> 3)
  let s1 := sha256_ror (w.getD (i - 2) 0) 17 ^^^ sha256_ror (w.getD (i - 2) 0) 19 ^^^
    (w.getD (i - 2) 0 >>> 10)
  w ++ [u32 (w.getD (i - 16) 0 + s0 + w.getD (i - 7) 0 + s1)]

/-- The message schedule `w[0..63]` of one 64-byte block. -/
def sha256_schedule (block : List Byte) : List Nat :=
  let w := (List.range 16).map (fun i => sha256_endian_read32 (block.drop (i * 4)))
  (List.range 48).foldl (fun w j => sha256_schedule_step w (j + 16)) w

/-- The eight `uint32_t` working variables `a … hh`, also used for the hash state
`h[0..7]`. -/
structure Sha256State where
  a : Nat
  b : Nat
  c : Nat
  d : Nat
  e : Nat
  f : Nat
  g : Nat
  hh : Nat
  deriving DecidableEq, Repr

/-- One iteration of the main compression loop of `sha256`, with `k = sha256_round_k[i]`
and `w = w[i]`. -/
def sha256_round (s : Sha256State) (k w : Nat) : Sha256State :=
  let S1 := sha256_ror s.e 6 ^^^ sha256_ror s.e 11 ^^^ sha256_ror s.e 25
  let ch := (s.e &&& s.f) ^^^ ((s.e ^^^ 0xFFFFFFFF) &&& s.g)
  let temp1 := u32 (s.hh + S1 + ch + k + w)
  let S0 := sha256_ror s.a 2 ^^^ sha256_ror s.a 13 ^^^ sha256_ror s.a 22
  let maj := (s.a &&& s.b) ^^^ (s.a &&& s.c) ^^^ (s.b &&& s.c)
  let temp2 := u32 (S0 + maj)
  { a := u32 (temp1 + temp2), b := s.a, c := s.b, d := s.c, e := u32 (s.d + temp1),
    f := s.e, g := s.f, hh := s.g }

/-- The body of the block loop of `sha256`: the new hash state after one 64-byte block. -/
def sha256_compress (h : Sha256State) (block : List Byte) : Sha256State :=
  let w := sha256_schedule block
  let s := (List.range 64).foldl
    (fun s i => sha256_round s (sha256_round_k.getD i 0) (w.getD i 0)) h
  { a := u32 (h.a + s.a), b := u32 (h.b + s.b), c := u32 (h.c + s.c), d := u32 (h.d + s.d),
    e := u32 (h.e + s.e), f := u32 (h.f + s.f), g := u32 (h.g + s.g),
    hh := u32 (h.hh + s.hh) }

/-- The block loop of `sha256` over the remaining blocks of the padded message; the first
argument is the number of blocks left. -/
def sha256_blocks : Nat → List Byte → Sha256State → Sha256State
  | 0, _, h => h
  | n + 1, padded, h => sha256_blocks n (padded.drop 64) (sha256_compress h (padded.take 64))

/-- The function `sha256`, as the 32 bytes written to `output`; `len` is the length of
`data` and the bit length is reduced to `uint64_t`. -/
def sha256 (data : List Byte) : List Byte :=
  let len := data.length
  let padded_len := (len + 9 + 63) / 64 * 64
  let bits_len := len * 8 % 2 ^ 64
  let padded := data ++ [0x80] ++ List.replicate (padded_len - len - 9) 0 ++
    sha256_endian_reverse64 bits_len
  let h := sha256_blocks (padded_len / 64) padded
    { a := sha256_initial_h.getD 0 0, b := sha256_initial_h.getD 1 0,
      c := sha256_initial_h.getD 2 0, d := sha256_initial_h.getD 3 0,
      e := sha256_initial_h.getD 4 0, f := sha256_initial_h.getD 5 0,
      g := sha256_initial_h.getD 6 0, hh := sha256_initial_h.getD 7 0 }
  sha256_endian_reverse32 h.a ++ sha256_endian_reverse32 h.b ++ sha256_endian_reverse32 h.c ++
    sha256_endian_reverse32 h.d ++ sha256_endian_reverse32 h.e ++ sha256_endian_reverse32 h.f ++
    sha256_endian_reverse32 h.g ++ sha256_endian_reverse32 h.hh

/-! ## GMP primitives used by ecc/ecc.c -/

/-- The call `mpz_mod(r, n, d)`: the residue of `n` modulo `d`, which is never negative. -/
def mpz_mod (n d : Int) : Int := n % d

/-- Extended Euclid modulo `n` on the remainders `r0`, `r1`, carrying the coefficients
`s0`, `s1` of the operand reduced modulo `n`; returns the last non-zero remainder and its
coefficient. The first argument bounds the number of division steps. -/
def xgcd_loop (n : Nat) : Nat → Nat → Nat → Nat → Nat → Nat × Nat
  | 0, r0, _, s0, _ => (r0, s0)
  | fuel + 1, r0, r1, s0, s1 =>
    if r1 = 0 then (r0, s0)
    else xgcd_loop n fuel r1 (r0 % r1) s1 ((s0 + (n - r0 / r1 * s1 % n)) % n)

/-- The call `mpz_invert(rop, op1, op2)`: the new value of `rop` and the return value. When
`op1` has an inverse modulo `op2` the return value is non-zero and `rop` is the inverse in
`[0, |op2|)`; otherwise the return value is zero and GMP leaves `rop` as it was. -/
def mpz_invert (rop op1 op2 : Int) : Int × Bool :=
  let n : Nat := op2.natAbs
  let r := xgcd_loop n n n (op1 % (n : Int)).toNat 0 1
  if r.1 = 1 then (((r.2 % n : Nat) : Int), true) else (rop, false)

/-- Number of binary digits of `n`; the first argument bounds the number of halvings. -/
def bit_length : Nat → Nat → Nat
  | 0, _ => 0
  | fuel + 1, n => if n = 0 then 0 else bit_length fuel (n / 2) + 1

/-- The call `mpz_sizeinbase(m, 2)`: the number of bits of `|m|`, and 1 for `m = 0`. -/
def mpz_sizeinbase2 (m : Int) : Nat :=
  if m = 0 then 1 else bit_length m.natAbs m.natAbs

/-- The call `mpz_tstbit(m, i)`. -/
def mpz_tstbit (m : Int) (i : Nat) : Bool := Int.testBit m i

/-! ## ecc/ecc.h, ecc/ecc.c -/

/-- The type `struct Point`; `infinity` is the C flag (0 an ordinary point, 1 the point at
infinity). -/
structure Point where
  x : Int
  y : Int
  infinity : Bool
  deriving DecidableEq, Repr

/-- The type `struct Elliptic_Curve`. -/
structure EllipticCurve where
  p : Int
  a : Int
  b : Int
  n : Int
  deriving DecidableEq, Repr

/-- The function `point_set_infinity`, as the value written to `*P`. -/
def point_set_infinity : Point := { x := 0, y := 0, infinity := true }

/-- The function `point_copy`, as the value written to `*dest`. -/
def point_copy (src : Point) : Point := { x := src.x, y := src.y, infinity := src.infinity }

/-- The function `point_is_infinity`. -/
def point_is_infinity (P : Point) : Bool := P.infinity

/-- The function `point_doubling`, as the value written to `*R`. The return value of
`mpz_invert` is ignored, as in the source. -/
def point_doubling (EC : EllipticCurve) (P : Point) : Point :=
  if point_is_infinity P then point_set_infinity
  else if P.y = 0 then point_set_infinity
  else
    let temp := P.x * P.x
    let temp := temp * 3
    let temp := temp + EC.a
    let inv := P.y * 2
    let inv := (mpz_invert inv inv EC.p).1
    let slope := temp * inv
    let slope := mpz_mod slope EC.p
    let Rx := slope * slope
    let Rx := Rx - P.x * 2
    let Rx := mpz_mod Rx EC.p
    let temp := P.x - Rx
    let Ry := slope * temp
    let Ry := Ry - P.y
    let Ry := mpz_mod Ry EC.p
    { x := Rx, y := Ry, infinity := false }

/-- The function `point_addition`, as the value written to `*R`. The return value of
`mpz_invert` is ignored, as in the source. -/
def point_addition (EC : EllipticCurve) (P Q : Point) : Point :=
  if point_is_infinity P then point_copy Q
  else if point_is_infinity Q then point_copy P
  else if P.x = Q.x then
    let temp := P.y + Q.y
    let temp := mpz_mod temp EC.p
    if temp = 0 then point_set_infinity
    else point_doubling EC P
  else
    let temp := Q.y - P.y
    let inv := Q.x - P.x
    let inv := (mpz_invert inv inv EC.p).1
    let slope := temp * inv
    let slope := mpz_mod slope EC.p
    let Rx := slope * slope
    let Rx := Rx - P.x
    let Rx := Rx - Q.x
    let Rx := mpz_mod Rx EC.p
    let temp := P.x - Rx
    let Ry := slope * temp
    let Ry := Ry - P.y
    let Ry := mpz_mod Ry EC.p
    { x := Rx, y := Ry, infinity := false }

/-- The `for (i = nbits - 1; i >= 0; i--)` loop of `scalar_multiplication`: the first
argument is `i + 1`, the number of bits still to process, `Q` the copy of `P`, `R` the
accumulator. -/
def scalar_multiplication_loop (EC : EllipticCurve) (Q : Point) (m : Int) :
    Nat → Point → Point
  | 0, R => R
  | i + 1, R =>
    let R := if !point_is_infinity R then point_copy (point_doubling EC R) else R
    let R :=
      if mpz_tstbit m i then
        if point_is_infinity R then point_copy Q
        else point_copy (point_addition EC R Q)
      else R
    scalar_multiplication_loop EC Q m i R

/-- The function `scalar_multiplication`, as the value written to `*R`. -/
def scalar_multiplication (EC : EllipticCurve) (P : Point) (m : Int) : Point :=
  let Q := point_copy P
  let nbits := mpz_sizeinbase2 m
  scalar_multiplication_loop EC Q m nbits point_set_infinity

/-- The function `point_negation`, as the value written to `*R`. -/
def point_negation (EC : EllipticCurve) (P : Point) : Point :=
  if point_is_infinity P then point_set_infinity
  else
    let R := point_copy P
    { x := R.x, y := EC.p - R.y, infinity := false }

/-! ## Brain.c: the secp256k1 constants -/

/-- The constant `EC_constant_N`, read in base 16. -/
def EC_constant_N : Int :=
  0xFFFFFFFFFFFFFFFFFFFFFFFFFFFFFFFEBAAEDCE6AF48A03BBFD25E8CD0364141

/-- The constant `EC_constant_P`, read in base 16. -/
def EC_constant_P : Int :=
  0xfffffffffffffffffffffffffffffffffffffffffffffffffffffffefffffc2f

/-- The constant `EC_constant_Gx`, read in base 16. -/
def EC_constant_Gx : Int :=
  0x79be667ef9dcbbac55a06295ce870b07029bfcdb2dce28d959f2815b16f81798

/-- The constant `EC_constant_Gy`, read in base 16. -/
def EC_constant_Gy : Int :=
  0x483ada7726a3c4655da4fbfc0e1108a8fd17b448a68554199c47d08ffb10d4b8

/-- The curve `EC` set up in `main`: `p`, `a = 0`, `b = 7`, `n`. -/
def secp256k1 : EllipticCurve :=
  { p := EC_constant_P, a := 0, b := 7, n := EC_constant_N }

/-- The generator `G` set up in `main`. -/
def secp256k1_G : Point := { x := EC_constant_Gx, y := EC_constant_Gy, infinity := false }

/-! ## Notions used in the statements about Base58 -/

/-- The unsigned integer a byte string denotes, most significant byte first. -/
def beVal (bs : List Byte) : Nat := Nat.ofDigits 256 (bs.reverse.map (fun x => x.val))

/-- The integer denoted by base-58 digits given most significant first, on top of the
already accumulated value `v`. -/
def accum58 (v : Nat) (ds : List Nat) : Nat := ds.foldl (fun a d => a * 58 + d) v

/-- A byte string without a leading zero byte. -/
def NoLeadingZero (bs : List Byte) : Prop := ∀ x ∈ bs.head?, x ≠ 0

/-- Number of leading zero bytes of a byte string. -/
def leadingZeros (bs : List Byte) : Nat := (bs.takeWhile (fun x => x = 0)).length

/-! ## base58/base58.h: `b58enc` and `b58tobin` -/

/-- Modelled from the spec: the Base58 `encode` of section 4.5, which stands for the
encoding done by `b58enc` (declared in base58.h; its body is not among the sources). The
input is read as a big-endian unsigned integer and divided by 58 repeatedly until it is
zero, each remainder giving a symbol; the symbols are reversed and one `1` is prepended
for every leading zero byte. -/
def spec_base58_encode (bytes : List Byte) : List Char :=
  List.replicate (leadingZeros bytes) '1' ++
    (Nat.digits 58 (beVal bytes)).reverse.map alphabetAt

/-- The alphabet indices of the characters of a string, `none` when one of them is not in
the alphabet. -/
def symbol_indices : List Char → Option (List Nat)
  | [] => some []
  | c :: cs =>
    match strchr_alphabet c, symbol_indices cs with
    | some d, some ds => some (d :: ds)
    | _, _ => none

/-- Modelled from the spec: the Base58 `decode` of section 4.5, which stands for the
decoding done by `b58tobin` (declared in base58.h; its body is not among the sources). The
leading `1` symbols are counted as `zeros`; the remainder accumulates
`value = value * 58 + symbolIndex`, unknown characters being rejected; the value is
written as a big-endian byte string without leading zero bytes, and `zeros` zero bytes are
prepended. -/
def spec_base58_decode (s : List Char) : Option (List Byte) :=
  let zeros := (s.takeWhile (fun c => c = '1')).length
  match symbol_indices (s.drop zeros) with
  | none => none
  | some ds =>
    some (List.replicate zeros 0 ++ (Nat.digits 256 (accum58 0 ds)).reverse.map toByte)

/-- Modelled from the spec: the function `b58enc` of base58.h, whose body is not among the
sources. `b58len` is the size of the output buffer; the call fails (returns 0) when the
encoded string with its terminating NUL does not fit, and otherwise stores the encoding
of section 4.5. -/
def b58enc (b58len : Nat) (bin : List Byte) : Option (List Char) :=
  let b58 := spec_base58_encode bin
  if b58.length < b58len then some b58 else none

/-- Modelled from the spec: the function `b58tobin` of base58.h, whose body is not among
the sources. `binlen` is the size of the output buffer; the call fails (returns 0) on a
decoding error or when the decoded bytes do not fit, and otherwise stores the bytes of
the decoding of section 4.5 from the start of the buffer, with their number in
`*binlen`. -/
def b58tobin (binlen : Nat) (b58 : List Char) : Option (List Byte) :=
  match spec_base58_decode b58 with
  | none => none
  | some bin => if bin.length ≤ binlen then some bin else none

/-! ## Brain.c: `hex2bin` and the WIF conversions -/

/-- The C function `isspace` in the "C" locale. -/
def isspace (c : Char) : Bool :=
  c = ' ' || c = '\t' || c = '\n' || c = Char.ofNat 11 || c = Char.ofNat 12 || c = '\r'

/-- The value of a hexadecimal digit, `none` for any other character. -/
def hexval (c : Char) : Option Nat :=
  if 48 ≤ c.toNat ∧ c.toNat ≤ 57 then some (c.toNat - 48)
  else if 97 ≤ c.toNat ∧ c.toNat ≤ 102 then some (c.toNat - 97 + 10)
  else if 65 ≤ c.toNat ∧ c.toNat ≤ 70 then some (c.toNat - 65 + 10)
  else none

/-- The call `sscanf(s, "%02x", &byte)`: the value stored in `byte` when the call returns
1, `none` otherwise. White space is skipped; then at most two characters are read: an
optional sign, an optional `0x` prefix, hexadecimal digits. A negative number is stored as
its `unsigned int` value; a lone `0x` is read as 0, as glibc does. -/
def sscanf_02x (s : List Char) : Option Nat :=
  match s.dropWhile isspace with
  | [] => none
  | c0 :: rest =>
    if c0 = '+' ∨ c0 = '-' then
      match rest with
      | [] => none
      | c1 :: _ =>
        match hexval c1 with
        | none => none
        | some d => some (if c0 = '-' then (2 ^ 32 - d) % 2 ^ 32 else d)
    else
      match hexval c0 with
      | none => none
      | some d0 =>
        match rest with
        | [] => some d0
        | c1 :: _ =>
          if c0 = '0' ∧ (c1 = 'x' ∨ c1 = 'X') then some 0
          else
            match hexval c1 with
            | none => some d0
            | some d1 => some (16 * d0 + d1)

/-- The `for` loop of `hex2bin` from index `i` on, with `n` bytes left to convert; `none`
is the `return -1`. -/
def hex2bin_loop (hex : List Char) : Nat → Nat → Option (List Byte)
  | 0, _ => some []
  | n + 1, i =>
    match sscanf_02x (hex.drop (2 * i)) with
    | none => none
    | some byte =>
      match hex2bin_loop hex n (i + 1) with
      | none => none
      | some bin => some (toByte byte :: bin)

/-- The function `hex2bin`: the `bin_len` bytes written to `bin` when it returns 0, `none`
when it returns -1. -/
def hex2bin (hex : List Char) (bin_len : Nat) : Option (List Byte) :=
  if hex.length ≠ bin_len * 2 then none else hex2bin_loop hex bin_len 0

/-- The call `sprintf(dst, "%02x", b)` for a byte `b`: the two lowercase hexadecimal digits
written. -/
def sprintf_02x (b : Byte) : List Char :=
  ["0123456789abcdef".toList.getD (b.val / 16) '0',
   "0123456789abcdef".toList.getD (b.val % 16) '0']

/-- The function `private_key_to_wif`: the string written to `wif` when it returns 0,
`none` when it returns -1. -/
def private_key_to_wif (priv_hex : List Char) (compressed : Bool) (wif_len : Nat) :
    Option (List Char) :=
  match hex2bin priv_hex 32 with
  | none => none
  | some priv_bin =>
    let payload := (0x80 : Byte) :: priv_bin
    let payload := if compressed then payload ++ [0x01] else payload
    let hash1 := sha256 payload
    let hash2 := sha256 hash1
    let full := payload ++ hash2.take 4
    b58enc wif_len full

/-- The function `wif_to_private_key`: the string written to `priv_hex` and the value of
`*compressed` when it returns 0, `none` when it returns -1. -/
def wif_to_private_key (wif : List Char) (hex_len : Nat) : Option (List Char × Bool) :=
  match b58tobin 100 wif with
  | none => none
  | some decoded =>
    let decoded_len := decoded.length
    if decoded_len ≠ 37 ∧ decoded_len ≠ 38 then none
    else
      let compressed := decide (decoded_len = 38)
      if decoded.getD 0 0 ≠ 0x80 then none
      else
        let hash1 := sha256 (decoded.take (decoded_len - 4))
        let hash2 := sha256 hash1
        if hash2.take 4 ≠ decoded.drop (decoded_len - 4) then none
        else if hex_len < 65 then none
        else some (((decoded.drop 1).take 32).flatMap sprintf_02x, compressed)

/-- A string of 64 hexadecimal digits used to instantiate the statements on WIF. -/
def toyPrivHex : List Char :=
  "0c28fca386c7a227600b2fe50b7cae11ec86d3bf1fbe471be89827e19d72aa1d".toList

/-! ## Notions used in the statements about ecc.c -/

/-- Both coordinates of `P` lie in `[0, p)`. -/
abbrev InField (EC : EllipticCurve) (P : Point) : Prop :=
  0 ≤ P.x ∧ P.x < EC.p ∧ 0 ≤ P.y ∧ P.y < EC.p

/-- The coordinates of `P` satisfy `y² ≡ x³ + a·x + b (mod p)`. -/
abbrev OnCurve (EC : EllipticCurve) (P : Point) : Prop :=
  P.y ^ 2 ≡ P.x ^ 3 + EC.a * P.x + EC.b [ZMOD EC.p]

/-- Equality of points, where points at infinity are equal whatever coordinates they
store. -/
abbrev SamePoint (P Q : Point) : Prop :=
  (P.infinity = true ∧ Q.infinity = true) ∨ P = Q

/-- The group multiple `k·P` by repeated addition: `0·P` is the point at infinity and
`(j+1)·P = point_addition(j·P, P)`. -/
def multiple (EC : EllipticCurve) (P : Point) : Nat → Point
  | 0 => point_set_infinity
  | j + 1 => point_addition EC (multiple EC P j) P

/-- The short Weierstrass curve `y² = x³ + a·x + b` over `ZMod p`. -/
def curve (p : Nat) (a b : Int) : WeierstrassCurve.Affine (ZMod p) :=
  { a₁ := 0, a₂ := 0, a₃ := 0, a₄ := (a : ZMod p), a₆ := (b : ZMod p) }

/-- The C point `P` represents the point `P'` of the curve over `ZMod p`: both are the
point at infinity, or `P` has coordinates in `[0, p)` that reduce to those of `P'`. -/
def Rep (p : Nat) (a b : Int) (P : Point) (P' : (curve p a b).Point) : Prop :=
  match P' with
  | .zero => P.infinity = true
  | @WeierstrassCurve.Affine.Point.some _ _ _ X Y _ =>
    P.infinity = false ∧ 0 ≤ P.x ∧ P.x < p ∧ 0 ≤ P.y ∧ P.y < p ∧
      (P.x : ZMod p) = X ∧ (P.y : ZMod p) = Y

/-! ## A small curve on which the statements are instantiated -/

/-- The curve `y² = x³ + 2x + 2` over `ZMod 17`, whose group has order 19. -/
def toyCurve : EllipticCurve := { p := (17 : Nat), a := 2, b := 2, n := 19 }

/-- The point `(5, 1)` of `toyCurve`. -/
def toyP : Point := { x := 5, y := 1, infinity := false }

/-- The point `(6, 3) = 2·(5, 1)` of `toyCurve`. -/
def toyQ : Point := { x := 6, y := 3, infinity := false }

/-- The hash function that returns 32 zero bytes, a stand-in with the length of a SHA-256
digest. -/
def zeroHash (_ : List Byte) : List Byte := List.replicate 32 0

/-! ## Evaluation with supplied modular inverses

The kernel evaluates the curve arithmetic on 256-bit numbers much faster when the modular
inverses are given and only checked. The functions below mirror `point_doubling`,
`point_addition` and `scalar_multiplication` with the inverse of each step supplied as a
hint; they are proved to agree with the originals whenever they return a point. -/

/-- The check that `h` is the inverse of `x` modulo `p` in `[0, p)`. -/
def is_inverse (x h p : Int) : Bool := decide (0 ≤ h ∧ h < p ∧ (x * h) % p = 1)

/-- The function `point_doubling` with the inverse of `2·y` supplied as `h`. -/
def point_doubling_hint (EC : EllipticCurve) (P : Point) (h : Int) : Option Point :=
  if point_is_infinity P then some point_set_infinity
  else if P.y = 0 then some point_set_infinity
  else if is_inverse (P.y * 2) h EC.p then
    let temp := P.x * P.x
    let temp := temp * 3
    let temp := temp + EC.a
    let slope := temp * h
    let slope := mpz_mod slope EC.p
    let Rx := slope * slope
    let Rx := Rx - P.x * 2
    let Rx := mpz_mod Rx EC.p
    let temp := P.x - Rx
    let Ry := slope * temp
    let Ry := Ry - P.y
    let Ry := mpz_mod Ry EC.p
    some { x := Rx, y := Ry, infinity := false }
  else none

/-- The function `point_addition` with the inverse of `2·y` or of `x_Q − x_P` supplied as
`h`. -/
def point_addition_hint (EC : EllipticCurve) (P Q : Point) (h : Int) : Option Point :=
  if point_is_infinity P then some (point_copy Q)
  else if point_is_infinity Q then some (point_copy P)
  else if P.x = Q.x then
    let temp := P.y + Q.y
    let temp := mpz_mod temp EC.p
    if temp = 0 then some point_set_infinity
    else point_doubling_hint EC P h
  else if is_inverse (Q.x - P.x) h EC.p then
    let temp := Q.y - P.y
    let slope := temp * h
    let slope := mpz_mod slope EC.p
    let Rx := slope * slope
    let Rx := Rx - P.x
    let Rx := Rx - Q.x
    let Rx := mpz_mod Rx EC.p
    let temp := P.x - Rx
    let Ry := slope * temp
    let Ry := Ry - P.y
    let Ry := mpz_mod Ry EC.p
    some { x := Rx, y := Ry, infinity := false }
  else none

/-- The loop of `scalar_multiplication` with one pair of hints per bit: the inverse for the
doubling and the inverse for the addition (0 where the step needs none). -/
def scalar_multiplication_loop_hint (EC : EllipticCurve) (Q : Point) (m : Int) :
    Nat → Point → List (Int × Int) → Option Point
  | 0, R, _ => some R
  | _ + 1, _, [] => none
  | i + 1, R, h :: hs =>
    match (if !point_is_infinity R then point_doubling_hint EC R h.1 else some R) with
    | none => none
    | some R =>
      match (if mpz_tstbit m i then
          if point_is_infinity R then some (point_copy Q)
          else point_addition_hint EC R Q h.2
        else some R) with
      | none => none
      | some R => scalar_multiplication_loop_hint EC Q m i R hs

/-- The function `scalar_multiplication` with the inverses supplied. -/
def scalar_multiplication_hint (EC : EllipticCurve) (P : Point) (m : Int)
    (hints : List (Int × Int)) : Option Point :=
  scalar_multiplication_loop_hint EC (point_copy P) m (mpz_sizeinbase2 m) point_set_infinity
    hints


/-! ## Primality certificates

The two 256-bit constants `EC_constant_P` and `EC_constant_N` are shown prime by Lucas
certificates: a witness `a` of order `q − 1` modulo `q` and the prime factorisation of
`q − 1`, whose prime factors are certified in turn or found prime by trial division. -/

/-- The power `a ^ e mod m` by repeated squaring; the first argument bounds the number of
halvings of `e`. -/
def powmod (a m : Nat) : Nat → Nat → Nat
  | 0, _ => 1 % m
  | fuel + 1, e =>
    if e = 0 then 1 % m
    else
      let h := powmod a m fuel (e / 2)
      if e % 2 = 1 then h * h % m * a % m else h * h % m

/-- Trial division: `n` has no divisor `k ≥ d` with `k * k ≤ n`; the first argument bounds
the number of candidates tried. -/
def no_divisor_from (n : Nat) : Nat → Nat → Bool
  | 0, d => decide (n < d * d)
  | fuel + 1, d =>
    if n < d * d then true
    else if n % d = 0 then false
    else no_divisor_from n fuel (d + 1)

/-- Primality by trial division. -/
def is_small_prime (n : Nat) : Bool := decide (2 ≤ n) && no_divisor_from n n 2

/-- A Lucas certificate for `q`: the witness `a` and the factorisation of `q − 1` as
prime powers `(r, e)`. -/
structure LucasEntry where
  q : Nat
  a : Nat
  factors : List (Nat × Nat)

/-- The check of one certificate, given the numbers already certified prime. -/
def lucas_entry_ok (known : List Nat) (c : LucasEntry) : Bool :=
  decide (2 ≤ c.q) &&
    decide ((c.factors.map (fun f => f.1 ^ f.2)).prod = c.q - 1) &&
    decide (powmod c.a c.q (c.q - 1) (c.q - 1) = 1) &&
    c.factors.all (fun f =>
      (known.contains f.1 || is_small_prime f.1) &&
        decide (powmod c.a c.q (c.q - 1) ((c.q - 1) / f.1) ≠ 1))

/-- The check of a list of certificates, each of which may rely on the earlier ones. -/
def lucas_chain_ok : List Nat → List LucasEntry → Bool
  | _, [] => true
  | known, c :: cs => lucas_entry_ok known c && lucas_chain_ok (c.q :: known) cs


/-- Lucas certificates for `EC_constant_P`, `EC_constant_N` and the large prime factors
they rely on, in increasing order. -/
def secp256k1_prime_certificates : List LucasEntry := [
  ⟨120233, 3,
    [(2, 3), (7, 1), (19, 1), (113, 1)]⟩,
  ⟨305873, 3,
    [(2, 4), (7, 1), (2731, 1)]⟩,
  ⟨1206781, 10,
    [(2, 2), (3, 1), (5, 1), (20113, 1)]⟩,
  ⟨1627771, 3,
    [(2, 1), (3, 1), (5, 1), (29, 1), (1871, 1)]⟩,
  ⟨4681609, 23,
    [(2, 3), (3, 1), (97, 1), (2011, 1)]⟩,
  ⟨7240687, 3,
    [(2, 1), (3, 1), (1206781, 1)]⟩,
  ⟨13331831, 13,
    [(2, 1), (5, 1), (971, 1), (1373, 1)]⟩,
  ⟨44706919, 6,
    [(2, 1), (3, 1), (797, 1), (9349, 1)]⟩,
  ⟨107590001, 3,
    [(2, 4), (5, 4), (7, 1), (29, 1), (53, 1)]⟩,
  ⟨545358713, 5,
    [(2, 3), (41, 1), (59, 1), (28181, 1)]⟩,
  ⟨297159362677, 2,
    [(2, 2), (3, 2), (11, 1), (461, 1), (1627771, 1)]⟩,
  ⟨107361793816595537, 3,
    [(2, 4), (16699, 1), (85831, 1), (4681609, 1)]⟩,
  ⟨173378833005251801, 6,
    [(2, 3), (5, 2), (2621, 1), (24809, 1), (13331831, 1)]⟩,
  ⟨174723607534414371449, 3,
    [(2, 3), (17, 1), (59, 1), (4051, 1), (120233, 1), (44706919, 1)]⟩,
  ⟨22149492674086928081353, 5,
    [(2, 3), (3, 1), (5323, 1), (173378833005251801, 1)]⟩,
  ⟨132896956044521568488119, 6,
    [(2, 1), (3, 1), (22149492674086928081353, 1)]⟩,
  ⟨29047611873442575647497758179, 2,
    [(2, 1), (293, 1), (305873, 1), (545358713, 1), (297159362677, 1)]⟩,
  ⟨341948486974166000522343609283189, 2,
    [(2, 2), (3, 3), (109, 1), (29047611873442575647497758179, 1)]⟩,
  ⟨255515944373312847190720520512484175977, 3,
    [(2, 3), (7, 2), (11, 1), (1627, 1), (2657, 1), (4423, 1), (41201, 1), (96557, 1), (7240687, 1), (107590001, 1)]⟩,
  ⟨205115282021455665897114700593932402728804164701536103180137503955397371, 10,
    [(2, 1), (3, 1), (5, 1), (29, 2), (31, 1), (7723, 1), (132896956044521568488119, 1), (255515944373312847190720520512484175977, 1)]⟩,
  ⟨115792089237316195423570985008687907852837564279074904382605163141518161494337, 7,
    [(2, 6), (3, 1), (149, 1), (631, 1), (107361793816595537, 1), (174723607534414371449, 1), (341948486974166000522343609283189, 1)]⟩,
  ⟨115792089237316195423570985008687907853269984665640564039457584007908834671663, 3,
    [(2, 1), (3, 1), (7, 1), (13441, 1), (205115282021455665897114700593932402728804164701536103180137503955397371, 1)]⟩]

/-- The inverses used by `scalar_multiplication(EC, G, n)` on secp256k1, one pair per bit of
`EC_constant_N` from the most significant one. -/
def secp256k1_order_hints : List (Int × Int) := [
  (0, 0),
  (83174505189910067536517124096019359197644205712500122884473429251812128958118, 37732016455592228448156445462498416408852156224504820822700452822953572406827),
  (9353868060111872221654086834948535914619495738340840677382925020160633793107, 29674822334021181273991182927079649595429069259578300730925882756396423714529),
  (20039789448416557584259861277369825914705815058492502793360560444963269206399, 10464606811927168450269177742698359003875668665547057887775726258014988875902),
  (93676827357127998828687195341580718392291471665897177168977920581899185748320, 3397239027358226963286116004203880226359184554687381843327028181146112478277),
  (107658401526453324935936541926573726232266163370999459473309833038043931883535, 64749682845803010026194133173232988235575912066342951860845470111537770304261),
  (30599262521010969342255855719690738059407997315524977451947004181587033650642, 98128259031005676907257161657167324842853881451597191432778960334655544190368),
  (75119108495272772209561077266104032693151128029193519228412019538766052357147, 70813282219650389655567702615475284221021131341896180358001370536024790059638),
  (33510176351969146018165398992387453675676320193974207554055021892474906349138, 83523474118756562881315191899852917631733354706798606963135956351198466628853),
  (33188433948510501797120606076268882469581504894292415275115053628472017314192, 63897008963346604450537136141494522482055811691177418854558107759691422033681),
  (41040676310784575356215213874829361375128292577433492426408364774805007256312, 10240166739724099893456225684120736151941117598628378672568916017835960100036),
  (16320292969028621210893198643318041117364829478188336295377142025394144234676, 16877549583872777017528731925429670928883495828299181210105488069847068906491),
  (46595242976881410890003806650242453160373435809472819706475015586815187490301, 66060479479176594900244688933150597244022814245309485949129398717301121099044),
  (44981277565070520492795612598964762543456063807281350054685477953410197829530, 9953015350212424833833613084655614678629472009679163519338285271205742131987),
  (85731849155897953662441191115159649105514100695232843538328619470136534859856, 102687342147444947721443856638740534039218192769180217787590834541113480852877),
  (89203164736788245679758402033069044586660900344832569301852492952994819273656, 53864091828610423708865134040902784578034693070790202448529067510966484200854),
  (104288027662835619315206135951959866299378684578330848688238049413483142437100, 46116342529843080285913810154700585416200168465334719785795681294874863696492),
  (29041678898170915229896907594571157533406967580688711800530836146410709952389, 82425389039133407375641944800253538261357704357816709068448949136839640461217),
  (47712814845490733870788946422053597314800679078790301716067033847952639766973, 5947215414097420276320026157589731903074286888067036275931279370257228149784),
  (62891269560334068996146874685456110286304144359925647753469131346668979926207, 9734067126388176177378240788060367341171292101761068636641861994792615215778),
  (91658523592254913926968107875605233463842046010148833667726409085885840882213, 77168840736615041290274467440445484464957303896091592591548437962392628116270),
  (75412461919549996751534840607513177584010379713387441949860346139246820598206, 41674573921527622660506228662681522337950058602734853984318498617994479262985),
  (114970506737067728822969461918981109512782292210241730653395369642702694966759, 31752441110758532549016765173220874913055741429559391340739381297319259182916),
  (108270634262633009375622359872774119185445409266322848280345946222389006482434, 75479532872274634876309718936353515368886646748461282849511569764771992145142),
  (26182708531905877427260507538215861623130373458261745642594139277942197540713, 108581605755862807194807893311723669371965999132279564204631878076304956396727),
  (103045851376847980671343451301932436828425002709501020735615087866734037104446, 54058808732636642158889342274531955774901232815188628057089673427197947679542),
  (97561478266846951436097594205915118945393311107228781857039970284614578834839, 103716477731603722101878586877323459893828504661676544948837106998543827580307),
  (47311063404028837943853228783396779881636629811635673308388675303352437653027, 63502083428020485875315767501491140698090986195682739991920479397501984217365),
  (58582946475547320991020929277282713514795537988169043268741627854527429064278, 56319944149638595774059625587074083368344978370719510089505677899046257200039),
  (30275364919568691130524959662645513422373274991878144719442280255654530332844, 107276007322155443681908854654331334497711819294030014773266422472376489768664),
  (68443444690551537014225626520908249710262500513405585270927473912520660001239, 90574427159638830661217713237220951402122464199631506922685511594871429797165),
  (112860117357500078210957987373093588953317963004633007353944951735299569565534, 60560579957788574373741656011046054838145148767003542220788897160463210973078),
  (39624879694008004203550874182045314080257716327747920004655198357760446214784, 95543360273124780140771129843362170896761240120803692703504926367827566368836),
  (59012393844595731169517652691655886243595915185983939358073841614623822862872, 110870086718396199841831082272924524014476795738390084978825983770809090838876),
  (87369070148248910263658955274055097938181001452243372818199813975343669677046, 53504703132640218014402913225490946898620458381187544486802711189332588500331),
  (89968764310820318352177196104296581657626488353298466112209016556551923946157, 53058046202730550963821059558832108578824737397632127459730520936420675776545),
  (89176071478437563791342711859312947128202072845467728264249188786613850117441, 19589094257418341421560985628618525457653538678945560671098939177430065521965),
  (72028398955921073759006075366133189282213851378815051165743941532451268061216, 92543195161206885046334577234120007961930407642389936286637374921747613658571),
  (8306421459734380596039217309113896469295401247411636196867625896796427193960, 12249237883550107056489744195450356020893282342980050562741579789375391827480),
  (11412901815878272075751291424916588219191535032413466875001716903477593920308, 42396036942920775551602585403073197835661109295412160898433751256299425887256),
  (87120205127615126671301190144630292613425757385681064936183953992909743584883, 22711166891032821321797505718210194833793477971700474024511199480337684225278),
  (79694899695875478665277318481592845968162956154180953564927982313990981866785, 10529896400210813346090312574677097832097330896639522131459129571813517927612),
  (8472849880048050234787765573325469089549312164067897555120067893591717733663, 48894661294821449080198087456533741794323291611891257271574413594564708245986),
  (107974503754426808876120156111519990739008771173139452046045035088219466922277, 68851515187264659659131982157831772090253805756629224717145446841053487523578),
  (29203523472196727197170950970591252213144829350763224580449767949687581412994, 47724359342019974708118164704822092772640241290510517907415909557724179270698),
  (71497866318472107191294674966989948294124119645618269927216297703955632573191, 26665136823319238207816826398367938264170403708549851911094928033483307148805),
  (47042734319255675384773206347668454784670952061091484913368460306284729252539, 73544704540158092184902681352140717229837461541113369071207632557658398864164),
  (71929404859659451768445184796501546191017745540451184300318428702969118645050, 52588502005439521329991633441294683908002848231050880294759293202596526973225),
  (78618095145877253502077560561127208295224065689116489225897712158626754517838, 79286226152519668004378126719078846461665748355455925763433431939083748960911),
  (63052652303974544271323834468830869565910246158240071154817592738008657355104, 50221606450567128690695415211945154819286710716772431276387996936654568643255),
  (86325080989020818838707673694107028929313638388908543576438590037878654351046, 71971354970167638203219917453958424333958734528473959251306471462382136681672),
  (9259093021678452281649484747595128931610921548805277812863945527486058333375, 4676955256861393841770864278650347171621897238708512814193095244632568797358),
  (30508722525229607464839061587459289410087735625586221003350175300459257159445, 34340539025949355761569376236409487681649037652567838637734485438711182967304),
  (31792406681644864677722657426197683959177623762566045630588249715474286024839, 40565870624763140891037863188758183699930538269916896032140324975418272697910),
  (51773615984863786991935574256557759496210258664164519434910067806357793380454, 64920602460433883914925520146338390006968821653101903291890616726295033587963),
  (37948915504621096631268124617912672550453765280032158609019161157226559816149, 98292592866332562552675312900083368673677619685611530441086145678231050952942),
  (47071257644529249342341559834062228688689666327813925279108946154635448551442, 17359976230534224226806094236789030232397215895840750613593594441927402197498),
  (28710160397578644154458930497215377657446952936051939465562351599628138095869, 20192143756236789805048105652839892762909473093394683768149422674371590868271),
  (22793299586902612765229658866123387413834556001822272047033255893168714343286, 181991847918938638939532172567140912219586736399396579663537795567863316935),
  (67169328719949485749752373981162221873940571578750943367136627303681537917425, 14782885794771228248291520675138107145031761474002004733177357270501594811202),
  (50955210943073496881125908526531573667076166959681847407356272259186010768625, 74492268332997081500235250867654093958129732717624530550925381628502601783581),
  (80114527872756200231556179999400383708555011636504280947386289646775710686469, 32235469397619723745527472752956671588058647228123141207536414497053531142016),
  (72321640196183319850496277911104821019888690214361160832189199169337542684454, 74931956962637272511263715317501622097961379560534408383603794807680117828095),
  (46143567516380061849260804609180350999451165774733964530921993724445494281901, 81681682327530433644372140505546010748751246757693181177908210829075208384712),
  (25121455146989381880678245705731820500684728730044215097527543626739649325228, 96183558470317709875923984796236968146444853659873887710121342139239991813588),
  (105751705068817560670749392535075576025403764045202947360767975062007321489754, 98039157400684906735889094889740234790764347318363147546926522150778589101321),
  (80047796337188030988116368035401336039882456944304528137764473365543016034990, 100624740065823245225376464660762852556715105879334637951553021651160426069465),
  (11455430596018103467522432727346529244473757024522547858241112585493432131039, 70861475922120063528869637276592964272520421311108991802005202391292368934850),
  (76980941210552112149137482163197064009145179880302946062847596688424734134145, 21695285058007091763070841984913267238915723146110983354837544040793849607809),
  (8155848151365975886460528516557866252621772669833594491759830278392133952466, 66596757579152246815163536924799681863750096793789856581609546242990317652753),
  (6864414888612277260801025001524549535745530437506046174495991630762268599249, 19551647149881582898700152587802279886282595333239164237653508954715316970512),
  (81442473294450030377709097811406209264450938386728721591132324768043187855423, 51292441163113502494926109135103515282170302434057977379184359487672658075754),
  (45514933799001343181402710000569600491624629724424987492310038126282068937000, 81568164715397745196124319696987974061934039385837253815814494571719506735838),
  (57016167996343146941329630427173000167829821768387081990806369595940441773399, 40250851927749273070334783078669550099905236385915149480978891553322247698848),
  (97545867656578821414563179227930848766538265378372079348098921630037723105301, 25267458057727560914618644373736103370697034949933030861660901870517585013413),
  (97341282324929861143354741432935567310489746401532243222718789249204844083746, 110970896391326259217754117812452521235346106926788379291063512743112029822400),
  (223390087805385307919460970621372948657672389839629788414533799368514948784, 131433452800299019473597467716463909146128525697277798631983501325085214847),
  (84611213077022989199952655141429080448670345984277071631148982222487317525985, 75973197444355956904664182720566222063729360069437612369542858417894762784750),
  (79279645765051900220423066098950848987253032265756990614236750668313309698973, 51800855255605661007437695724327192079774207373657602281163588410179757637059),
  (54928326455378489284989027186556024407592032229428831339047588760823155601002, 76149269422156463338080307421204372681227491926959893336154639545621436719580),
  (9494378758067033708896153983354477229183619852932934078403378543617586961071, 355687831695935460106897877995056120980383818488834024742535878827237525238),
  (36305754610726448602853588215668336947313312003343489426968803279539285739697, 61702636664238334921005380099104648996415097438408126463226781591613269350245),
  (109121281940427593279306823093564424599215512153658389268571198015167175564204, 73068962411441830618759095417065104653781376495573070753400747820424291083534),
  (96029594892976097281607659860691053255229092876084288861184554978953909308860, 72644513373247901524620653034664621132304636486715115854798465195984233145481),
  (94297297973541490460092571537699143102214929950584797128127710489341107982530, 76412298428391129225533033509916378638440205966022432084131945279643268577298),
  (88032218557462408844019241173670533680332026141867634427933534631837235525860, 3247671289266181069411526320126005757155959624811941436375894723362756053407),
  (41886048085791338759826433237164922066664383899961279590267175381496805770826, 58134536323673260006436061874039732756841094159813928812633203667577798799770),
  (70259787839978616448701342016683844851371520264123807354163664590342832027386, 43352472069075245170103426551227950537309083100153977196471459200982870527192),
  (78163804919805342389797270483069776170629907540094320647904898430815903645977, 50413629005495470045439304720770718076325498103883349376549036122633658554087),
  (34730525647935174542779018953472655457390482083653822708342579578614466708099, 20816831606845144193583919808653669884780006454109679345333228704080950553443),
  (45050035829803935514905733981059968912373763858836191967538482639810315538233, 110039254288885853599112040543051823008054935710095885932907789084323302204108),
  (55521314192258775573433109290052140015743214500585318216747154043203673043991, 66528275631233960373114786528989704529711487981444655363842323558316177721481),
  (14420255610495686346703697852112595130265916767232309036206756525663094468801, 58546945633510520461382679044913032802188115976414349447000919256750704661281),
  (91977423454129448957473328234714681113677656251600116372963527922912254738455, 28456857854328607463218518009559708548303062487906323145616786294058156215468),
  (18866214066958141506979676942548995823393069034859364720510193191827747971194, 18921926924903969878884429854395321355147522747340964561104659514692487801499),
  (69951608684833655487484859235131966561711070520452819225802523573002481781475, 105056055838246226089061175364732045500250640604299916796478712582797470253008),
  (12204005440867579012731690485197114366183387329672916176912690253954098999051, 14023680923101035053068004374248496440821588864188024028191078032495427530133),
  (35519989350432936478022100981647005551301841716250666854023139165916629729447, 41690473880363946886542760894094195908844473347247847544927907370610716448856),
  (80141305410258774825768909258251498198089819223727221761477952276535513597478, 105412945719234550088018419202713696306320450567669725094616745490747614721739),
  (27423470128617863751259781784630457919757509932442859793833674237234847004680, 88298662120480931040692981143268090105089477037913938027959885575120003474847),
  (86536074799015733489430572694469921890118044965569131186209294204656494020412, 58754411891887991631332296315226294196747980808736227664129336203773715010156),
  (106324525010035427226134493010454271745334397519280210532049429124644615956942, 16033408263358941852077538794171336793676343699506513952289201301368680720830),
  (56503936633316190383585657592423971867126809193408757802768536967400495538146, 16690612430699684012154856493696356629180046295554270578146926817350638427090),
  (99591376907515877202643264559362524157425296975240706219600420610403938828095, 55257455011537700120827270347753147988687921908202684381578092675924059664959),
  (69799063546512523657859670882509175836829830537201307794165235656603612528413, 57814541633959826593651777122677782062673936313834690875714390728716837842454),
  (28841565443092458389168174534201908413017430404764322897556232346205926646797, 52963066444673185202892182661584096276942109284673354810329930769609470598161),
  (4987628864689120314077139589238626320275198352583803202915963595148644948686, 44627474653740726521251918841989564298579626333518650420608791825368595517931),
  (77089713130877918379555320365796723068685733605012445308542606164033662079295, 42363025210434532981581217057880024489728673228751286747762270169520368444826),
  (85716127068516910280086680751833126959417732409278383476079534001335728223249, 56648864352237483353887142582906054134709892391601840278979548620412705169762),
  (109404993135096471779611567026264755666030911350076058023262522059311408876417, 23998296832132235948562794218159156784444722915157455253062916890243180854707),
  (101600800333245400614593718332093756915432813906496272991202141339859460384310, 3358517238905879989478089803964849032413052276500608396109500777427437668543),
  (1164618483611838495012403381280953992096113370035177289994920563120833120114, 77613688404381109879968490275407056867326163060620624542714263805076262630536),
  (31775923662841740648344161307992056532156357334976581303643408739754159223200, 7095288440331533749006557500126356978098535458751532228642664033815333345104),
  (36201685387055509507815977849143324838014889229215721372149071182536938392185, 109055422457927143136947195239053341070029390280522754694090288325660641670163),
  (111857346000157938616574847292688882831896322422833976517218390427875232387484, 16438913423209355217725974943520300608974064876962743676507389649450266239405),
  (114167736292497985730269797501470420386579298329212046556582328815161888325125, 79854581955162468259570347511919948672751434909066926841191871268323984563096),
  (98949691153209450449404007457826927885931790667595797866449988457558307547562, 244783846759143959042530136183406705380332353923046890083905950881937950335),
  (53022228640657751279573357117691049249795473231063813468440771264091687668832, 101858283004506318026478231599320608929778746633419189057946572188940974674933),
  (64098686047155597235171377243307118991889005961496468422047685495085403733262, 105302012472274789307529709154576391969000374193627857638966743246436598164762),
  (19059005589465433380711473844068339574678723799970752122299680193120090438432, 80439389562171173979482039550731972408642441819247670033710913901683089503486),
  (35318353961494870664285172968912600701557222571488175916472345025589681910234, 33443307055197650242421820024418219917101917495819966071441053658048911134607),
  (74084430675076375438048608281815817821026386867162973528173878460683424099049, 115019969439160228341067166260378020105494653336338475442762292250773338653870),
  (60275051501479691987573302880061301215183035717504640843378550265960556548943, 59258407950759316973659024237955149790599630185717420510508011998141383121255),
  (34052310136046097086347710590480740945355485658047664402463287137015321643701, 103676840685141107490530713938619282411892090622572779881077212860175685308247),
  (56471544303942095867770534950795631858753932214489213306109014106273277811774, 67593649378108245496307144053684928320477211791915659848323311172691345857604),
  (75300977374611751901648639400814673516766535624519793321456284271926229332301, 20778116961042660219015931775203398084933332469861533142085619402588319799652),
  (109853319743901491504067704975595356990030624392312760631186988263132802025278, 90527767073518871476697194183006894731541516232950364319102376487207620782856),
  (102997719156794026589724905747789434883821175584868640663708863646943062580949, 0),
  (14498223537081370129772292709449903064131729409867708385285739659908264006919, 21006741828177708408376965756466350685345900494345764849204339977976501392692),
  (31854023590239857541906721459176375498070530294032013972992878881282611154831, 0),
  (4072385200949247702451306859266246605798294230427689037967112380235193193351, 31556710992669870809100333190596833117544816880788804840992514272859784104733),
  (55286543859092961457187496049024302277380269254928635746754138289943527556659, 109915605634592821782737201905737628286782512887656147600286553904991187388005),
  (42678787812635213923026146552332038269499031916886243198545513350336201123332, 2874420076217282936485999374777068421483586053819413736667947622599946140861),
  (64687369308107879816430992644601901103235367450457474971054850606367206357210, 0),
  (110602690967918954360921032504321240288499586979327271360147467580811522505525, 68561101015394100386313259266653785197212995992320595510637556689374466044224),
  (2244738265994171069205617046578284451749744848838561902940098196297155905086, 0),
  (84272929738806662689691923012773904658210044503088696878971120174371431220486, 96541526331085129707214138544895819760827354387456766385680822547923408499660),
  (89377583517291428525846402345054402087494781183521670377699407553982957818569, 0),
  (54987809946728991490050351888958367996019673631607460238160019122739332506558, 48594638089148834055865542400283740162426822602803746835067840539901109976278),
  (25791404675896800043602416275193615649497140972849401431995829089994397793812, 0),
  (81474962788383228787557107007414331787680990246949907789017377743702493980082, 31826008867346056949075970074007761959527776083454767993190127965176934373678),
  (101534766010817831280192627662676935312652809117769356068068781554394132906050, 51084084849254942802246905776951987548069545219569083973458486695155783269975),
  (57919507451364253915672446926096587789831130238906840442134119723816523594470, 97208045163159338489107938520128449611856706710382445925127661612305856766395),
  (23319596880132519962467869264850404197948790213318600031240234435703691159298, 0),
  (87272585529248908326259398294319516532825238172118097340470398830027721520012, 60139190170384274527888645413790330784112697054584178388703032098065351884449),
  (33458664257447355519974321262512165780012350824343885715874066818051999493961, 13921232047200021955985912741076932079317371025267195551473801110228628885335),
  (96573789990374930430858226319907733765512816447082326179001385683350257985845, 0),
  (14019900850362019550060286928706295659880358675571709372486457008524359573307, 112507631419620300566855785582129472094495734435773187607956494661906903231420),
  (13028388685986546349361575036121878112667593809420664350898466184434044278706, 45503227317074267340243928623700843120197919763454562487925392960647189274992),
  (103543670870366051911757685630991029393295988818800076051544173018025916441965, 8164797836236637802980795967236403726563553642315492290094747845636959608690),
  (67114303321211717499431706497331129678001222779292221699859741984168011559415, 0),
  (45959181921210651785171892106405434746500166512144721629638565603939630238166, 0),
  (95169221432731849260668870554087754317938673285434995737379443864375404475855, 54950068164937874387327116431285130717741109774408968411363383253689922805048),
  (16778508403974346663833545557745964138361532209291053684747027855148291424236, 19875369084598927703217038479592535089779195647759749073794656354647406716754),
  (115654798566703350295322734944251084395286080192138130645782188444365813333990, 27031467521042992600557970151714129505603862901300737892559643868944803190449),
  (86639131665190900588152331019353061444520666217367013229075419337711297282253, 0),
  (14212631438315716908679197668006088667671222997984534985040998030006318433308, 0),
  (100741695353643599525659871422534856522959059969180710940708537589603101148300, 34521945369927475741334789228308108489303028531102344747423443464250175628099),
  (44897379870116840396499555563568913766021894727630815661599073173675769675902, 79545555064432239081338242974827541117168032886587354329820988202224179069292),
  (15051187808835683052974022154522551173628604140326709446275897272801966173009, 0),
  (19209370273009389976068934240435324646640196351152783834975739147202628402252, 57905389704139677803874652947872732788027877034321491598740697278626942259877),
  (102459610369931891730573797685316952723945976541011957757939067620468196447680, 0),
  (57010730383192106694929999704069148255595810113820397035308449118420209192531, 73898812108203374185431113553750472096959592832034914205005745729280931969181),
  (66764477703580020465658213469787354625951604479772959580807165786331772077460, 0),
  (113206771682605593909981618927418814953334517507252933903919298540963022929623, 17164610181233608152888581539588693082249537848461626321331129517738045556604),
  (81497118386251785716101738128482667773275796264605557914872612597829724306944, 60504556979205353143370146304001997970979441004153464009225921055278118876943),
  (38649967262258577716053326914827222138972858992711887944141741601350273519308, 63713137704038235799153342074057161553226675250311171472857294019868296590840),
  (93574103993069004334725534159070146231181723953025686169586418906639666783635, 60725294009337794084080242637614878363647876928237375480868532239994536243332),
  (9282547101642131198264037606691842751896713418821035999024009320922970977081, 0),
  (72623270650361339559363080561137160218537314505235439858847366253965989513656, 40857788678567840440897358237832332657484294513686729694509823455055707730852),
  (94832722957878755089301678045703654330103118523483770368885628115263617828246, 0),
  (95861737181001929454375454027027679752830476666446775602131555397921020265406, 0),
  (30168889327398585184859818792482480138408637536469279907551586795562567414449, 13140395384147523483285455973645561631547454646299497782436919003675645882413),
  (54180115305106806601722822829357338259759842065542686425237515235493444499301, 0),
  (106045037598844494240085727060003592504986778937389240843947015483595624038907, 0),
  (31939772262812397209284049580628345299579320718666750856887864497950955391283, 0),
  (94171046112071220830295905133031239093171849573266678836277513511283657428125, 74550078583010562104609738347465260205265139465013997645644366823918356001310),
  (76111682120489585877632274939351978350079977914196315292133981066700839217512, 0),
  (66449016451892723068893357713409370876897206663655872551116933085140076748745, 94727010254523437435343273524409238020944263052508952509410249087873297518458),
  (95522930502246550380937279139440654861815299608636784506139895255461910175826, 0),
  (110374129959989890619221211229621518580489039892785765140591905475186921939525, 0),
  (77000290885186095183182838336010466411919195600057446734563369866250390326370, 0),
  (103349636673368908599487973677840734256649534272692743427296008005615599150591, 0),
  (91601142408842542882197987224048104222376582083281599850972403499100746743240, 0),
  (48857414041070168890096491532097357649113767327419337762007957309027320288812, 0),
  (21540707488682245160848779166827390940533916753124613664731962401649821261599, 0),
  (101832684894744365619731970134269659528995678588099293741475252799664149101234, 15086848423809001218815566778455696590638777344542798809463296609332355595630),
  (60099014007761169142144252216781096661037807985571478033859282543585788535508, 67769182435595337501484138599855700382223824044952175478945938309119264613053),
  (54250878350898637293196377634562046260989254593441718242487209400705832023671, 73632658114868078482144198903800573864305833558467110830001692922173410727036),
  (60724201890444132511685151523498184929806561828724518359728194911757704678920, 0),
  (113533862766298786921297265990486290380413055677249842474687393078699687800146, 61263731907315968539442625854789702512366548176460878594334200498892989419357),
  (55991671210985302826146860784578264600352039717478687854237381797491312262297, 495872406357802668077512623283408233236814885132092178804449186330151604569),
  (34881633327434561192731690634632247246076371029067386408277100499018578447483, 32119199992893920726476413397786964543388624941491310576534861508674751588772),
  (83323859050497012180969569817664435657011190525424598980430701184319173423583, 0),
  (18929085270543444362319873305110914913890312296902069519602258427852291340913, 71232090750728497237912656854106068446570275783460890064691867056829391002735),
  (29917668667285641751229841237199556442715790415833927241922672683944817311289, 53522493736222711578959231772267730108820022320162827505099454470915841362392),
  (18786235059290870522904130002747233349216012885175858219816645413488718445134, 8253708736109514940487938143172263190120531067381947024887273600825179878862),
  (94253952496449987452812468615454648126086703629732077310470479718803368276480, 11617300216422082740350161183410343587586930945362108187119099813010846575733),
  (8384357420197204537566674492039417857625149673393560117361671294347616964600, 63502121554017826586308290456915800566495770937132267544890772939524998310012),
  (60973915372972851626496860577386990308670424115496178376665462093995511607318, 43222779414971530855870701729482250990241357522560732333242328028687282196593),
  (62210960001059676042549195458625317385383567309277622831725538299837590577084, 48889489669100021011869573866899463611114207683185238102297134660483501357626),
  (56090319841735973477281408947373343178239181847280546796224733149500498059783, 66053790866081984781366132983834858666057211655693942173970767149143947440828),
  (55017881152692619128007590817547536592282036146868393659346764883742342957306, 0),
  (35536452924421092566617155474449053845141599629396998588460433648367855794405, 60411927234378505719649350352296703115969631391506390843583299189535442175283),
  (45126136782183458254250144440685210969966143538369932002962350937235534171547, 0),
  (90188374311058579520664338818107767176868575993137467386236593106340340441072, 0),
  (37437979032538729231475512506030902239911491690200096323605390030971313169887, 58450286970313917369292598455885839452569971327475343004344791071003244463621),
  (40037974705411315781574323765868100825785464347823702253312839151534068487309, 0),
  (37356092136258490466344719278226054860462360961173053888610229571787083981272, 0),
  (49608690731652274012532832695298470979549779060870149048395733300116344126015, 31080225859757005245697328102626017072377541886877549449590926650416523369729),
  (100256049807079354441441026530566302273103127279227120861342966160782434066643, 0),
  (34596324314834767326699180395703753360046186130313316903688562914370893495816, 86566161925876494301913072787879571586332154810412273772535674848981189263194),
  (27196096946256236953038102545635455401468098325917932778140254832706554095306, 79721768506233234011933724618172192491496254854996066146771353586978534373034),
  (106919604783382051685577288297011461941437313930017172248610811050462512735504, 40848828450805508765905828854230716166696920467233338778697225850893292110811),
  (9492703513948234093911820678466762276974636213372255884243851176483361978993, 24000002016021153206654540521588309962321337258483983326125113444930425309478),
  (1592943930453141702656666047766207255474647009268116885860769372530261841518, 0),
  (73801444427021215169398779988372584092251013475214598351033507460018729878248, 46271265417314681171555097076350173100196287513312551326109907018385539453491),
  (46044088287436412947840292856454641869863885594504072305753857807697140305281, 0),
  (33298268514926016836549618765826223326195254259416831399537687661807158772265, 0),
  (67060967068308354929030373305323965207713870893872290174096183778855422299545, 0),
  (78835484112492325659714547623158453651423534345463313061733367372396196340685, 67423633323295737957513282473737051676764371047467818125129290789688057326019),
  (77164808467628880920438337099124118279646124192532180711212703240660277906813, 64791447401307344112001446171848041537066304715449457647728343411057023728895),
  (61804006584596958606264499674839120641091034463973131290070870822744542529722, 0),
  (5471981054966596929026527046562221160805858723764526186324034874395573983480, 0),
  (55973866342409371341947398599693232831698370170476959353421579035514133547849, 83010733731748866003706167462080477022343938309585440774410007242967632758920),
  (90982743748750385528524815353827110244015414511484514597219408708952058326773, 53352095220995607496030372338632914974990715797962265980242247003516701877502),
  (59388947233074782786450064876151907154109661748053128752204237702225825415721, 0),
  (94067023886789079623762535064189536135272320710270357920310805236268228154189, 112405028334217728464954300479642736579779029857662852892375101117145218142121),
  (28745848227388524861273097940965892529325919964826854792622890569044181752911, 0),
  (16785064922834900530426312369172186814351186755992231561574701124756634791579, 0),
  (43004030865392800491087520611120256037861034896444647789863967901811346968759, 0),
  (91519951224512300329987842181884707245613148114220856195142214193316589449105, 0),
  (69495459205244811209926123159178457533731451512026048322302348717905967918709, 0),
  (88609127148678360276298185170087818176910121066853157055584522873472445047644, 0),
  (108267447211914096607932271018767557685064354616655950869491354138524165798002, 41829886473230546959854993460154575738362944547830559156351161101978971571251),
  (25022959542126850699449361148578902949720330699346624861159261120105984503657, 80847632486020387441758781345343292737146207412363454759617734534587144805691),
  (62204437297208309036983414698472653153489785433602915231382339958979052996720, 0),
  (109331039294387930661299700243142289567183547415318426766319249097641943216224, 64311128167155713693877393475375958576468560252349854876576761982852516824930),
  (107992695566924455109417806522081696427488164648763532146308523169474852692719, 72424442915629572107760722792742608584906352068102745472838651473814832990897),
  (104340949095294509976502450432091473114843425917663369797723328191696452742597, 0),
  (1715919815088368773658330668901462522059724017385153276928775807967290014374, 0),
  (60595859180051209435309232176881884389234260789004655559033190122023817871574, 44561778194963371470903837381271950459681427865764636147440873506523856383510),
  (76630983047010188450361094023673164452213555957672512335243057515910628553321, 0),
  (100773281796354053395011504784139108875150034679736963941587420812388139110152, 0),
  (86699023382375421493321175338023785020409244592718641276909999556541685903488, 0),
  (104181865035681344078604613622182217593385848402722301900181952223379851801685, 0),
  (29824503302080764975532608534307122808219339492246921800226558361414228039096, 0),
  (17042345211246893401460614623019220034096183500482642469547923802723360717554, 4151516288318989476669214949770093240765482175101815276771925074299138051137),
  (20629099818904879853894873353406332569404105383788065174322980423360717261848, 0),
  (46658777066060398334242633642083193031865024656599532853875543484321961990377, 65822397009036339984762886979609552698721612214111757494215648522067551161614),
  (25316948198317147729035650783217421126076845000177088706702597882262093456168, 0),
  (7055103085532538462584656468367765935863408505761752631214891199048076410741, 0),
  (91152878965363539470268797626581258232131233560394071841840984748904029783005, 0),
  (99031576443402799324963744267393808913291605903596307641481061723956145256913, 0),
  (83621551375360268785991612106238617862395851758707142006136182320061949969029, 0),
  (9464686479934302762255540268874086369372918401883431106254162390241432797719, 0)]

/-! ## customutil/customutil.c: `generate_strpublickey` -/

/-- The lowercase hexadecimal digit of value `d`, as `printf` writes it. -/
def hex_digit (d : Nat) : Char := "0123456789abcdef".toList.getD d '0'

/-- The hexadecimal digits of `n`, most significant first, none for `n = 0`; the first
argument bounds the number of digits. -/
def hex_digits : Nat → Nat → List Char
  | 0, _ => []
  | fuel + 1, n => if n = 0 then [] else hex_digits fuel (n / 16) ++ [hex_digit (n % 16)]

/-- The conversion `%0.64Zx` of `gmp_snprintf`: the hexadecimal digits of `|z|`, padded
with zeros on the left to at least 64 digits (the precision), after a minus sign when `z`
is negative. -/
def gmp_Zx_64 (z : Int) : List Char :=
  let digits := hex_digits z.natAbs z.natAbs
  let padded := List.replicate (64 - digits.length) '0' ++ digits
  if z < 0 then '-' :: padded else padded

/-- The function `generate_strpublickey`, as the string left in `dst`: `gmp_snprintf` with
size 67 (131) stores at most 66 (130) characters before the terminating NUL. The flag
`publickey->infinity` is not read. -/
def generate_strpublickey (publickey : Point) (compress : Bool) : List Char :=
  if compress then
    if mpz_tstbit publickey.y 0 = false then
      (['0', '2'] ++ gmp_Zx_64 publickey.x).take 66
    else
      (['0', '3'] ++ gmp_Zx_64 publickey.x).take 66
  else
    (['0', '4'] ++ gmp_Zx_64 publickey.x ++ gmp_Zx_64 publickey.y).take 130

/-! ## Brain.c: `hash160`, `base58check_encode` and `public_key_to_address`

`RMD160Data` (ripemd160/ripemd160.h) and `segwit_addr_encode` (bech32/bech32.h) are
parameters: `RMD160Data data` is the 20-byte digest written to the output buffer, and
`segwit_addr_encode hrp witver witprog` is the string written to the output buffer when the
call returns 1, `none` otherwise. -/

/-- The function `hash160`, as the bytes written to `out`. -/
def hash160 (RMD160Data : List Byte → List Byte) (data : List Byte) : List Byte :=
  let sha := sha256 data
  RMD160Data sha

/-- The function `base58check_encode`: the string written to `address` when it returns 0,
`none` when it returns -1. Only the first 20 bytes of `hash20` are read. -/
def base58check_encode (version : Byte) (hash20 : List Byte) (addr_len : Nat) :
    Option (List Char) :=
  let payload := version :: hash20.take 20
  let hash1 := sha256 payload
  let hash2 := sha256 hash1
  let full := payload ++ hash2.take 4
  b58enc addr_len full

/-- The function `public_key_to_address`: the string it returns, `none` for `NULL`. The
decoded key is assumed to fit the 100-byte buffer `pub_bin`, as the source does (its
comment on `pub_bin`): the buffer is not represented, and the statements about the function
carry the bound `public_key_hex.length ≤ 200`. -/
def public_key_to_address (RMD160Data : List Byte → List Byte)
    (segwit_addr_encode : List Char → Nat → List Byte → Option (List Char))
    (public_key_hex address_type : List Char) : Option (List Char) :=
  let pub_bin_len := public_key_hex.length / 2
  match hex2bin public_key_hex pub_bin_len with
  | none => none
  | some pub_bin =>
    let hash_160 := hash160 RMD160Data pub_bin
    if address_type = "P2PKH".toList then
      base58check_encode 0x00 hash_160 100
    else if address_type = "P2SH".toList then
      base58check_encode 0x05 hash_160 100
    else if address_type = "BECH32".toList then
      segwit_addr_encode "bc".toList 0 (hash_160.take 20)
    else if address_type = "BECH32M".toList then
      segwit_addr_encode "bc".toList 1 (hash_160.take 20)
    else if address_type = "P2SH-P2WPKH".toList then
      let redeem_script := [0x00, 0x14] ++ hash_160.take 20
      let redeem_hash160 := hash160 RMD160Data redeem_script
      base58check_encode 0x05 redeem_hash160 100
    else if address_type = "P2WSH".toList then
      let sha := sha256 pub_bin
      segwit_addr_encode "bc".toList 0 sha
    else if address_type = "P2WSH-P2WPKH".toList then
      let redeem_script := [0x00, 0x14] ++ hash_160.take 20
      let sha := sha256 redeem_script
      segwit_addr_encode "bc".toList 0 sha
    else none

/-! ## Notions used in the statements about hexadecimal strings -/

/-- The bytes a string of hexadecimal digits denotes, two digits per byte, the high digit
first. -/
def hex_bytes : List Char → List Byte
  | c0 :: c1 :: rest =>
    toByte (16 * (hexval c0).getD 0 + (hexval c1).getD 0) :: hex_bytes rest
  | _ => []

/-- The number `x` written with exactly 64 hexadecimal digits, most significant first: the
digit at position `i` is `x / 16 ^ (63 - i) % 16`. -/
def hex64 (x : Nat) : List Char :=
  (List.range 64).map (fun i => hex_digit (x / 16 ^ (63 - i) % 16))

/-- The hash function that returns 20 zero bytes, a stand-in with the length of a
RIPEMD-160 digest. -/
def zeroHash20 (_ : List Byte) : List Byte := List.replicate 20 0

/-- A byte string followed by its Base58Check checksum, the first 4 bytes of
`SHA256(SHA256(V))`. -/
def with_checksum (V : List Byte) : List Byte := V ++ (sha256 (sha256 V)).take 4

/-- The WIF string of the key `toyPrivHex`, uncompressed. -/
def toyWif : List Char := "5HueCGU8rMjxEXxiPuD5BDku4MkFqeZyd4dZ1jvhTVqvbTLvyTJ".toList

/-- The 37 bytes `toyWif` denotes: `0x80`, the 32 bytes of `toyPrivHex`, the checksum. -/
def toyWifBytes : List Byte :=
  [0x80, 0x0c, 0x28, 0xfc, 0xa3, 0x86, 0xc7, 0xa2, 0x27, 0x60, 0x0b, 0x2f, 0xe5, 0x0b, 0x7c,
   0xae, 0x11, 0xec, 0x86, 0xd3, 0xbf, 0x1f, 0xbe, 0x47, 0x1b, 0xe8, 0x98, 0x27, 0xe1, 0x9d,
   0x72, 0xaa, 0x1d, 0x50, 0x7a, 0x5b, 0x8d]

/-! ## The double-and-add loop as the specification words it -/

/-- The loop of section 4.2, "for each bit of `k` from high to low: `R = double(R)`; if the
bit is 1, `R = add(R, P)`", with `double` and `add` the functions `point_doubling` and
`point_addition`; the first argument is the number of bits still to process. -/
def plain_double_and_add_loop (EC : EllipticCurve) (P : Point) (k : Int) :
    Nat → Point → Point
  | 0, R => R
  | i + 1, R =>
    let R := point_doubling EC R
    let R := if mpz_tstbit k i then point_addition EC R P else R
    plain_double_and_add_loop EC P k i R

/-- The algorithm of section 4.2 on the `nbits` low bits of `k`: "initialize
`R = infinity`", then the loop. -/
def plain_double_and_add (EC : EllipticCurve) (P : Point) (k : Int) (nbits : Nat) : Point :=
  plain_double_and_add_loop EC P k nbits point_set_infinity

/-! ## bech32/bech32.h: `segwit_addr_encode` and `segwit_addr_decode`

The file bech32.c is not among the sources; the two functions are modelled from section 4.6
of the specification, which refers to BIP-173 and BIP-350 for the charset and for the
generator of the checksum. -/

/-- Modelled from the spec: the 32-symbol charset of the data part (section 4.6), which
bech32.c would hold as a table; the symbols are those of BIP-173. -/
def BECH32_CHARSET : List Char := "qpzry9x8gf2tvdw0s3jn54khce6mua7l".toList

/-- The symbol of the 5-bit group `v`. -/
def bech32_charset_at (v : Nat) : Char := BECH32_CHARSET.getD v 'q'

/-- The 5-bit group a symbol stands for, `none` for a character outside the charset. -/
def bech32_charset_index (c : Char) : Option Nat :=
  let i := BECH32_CHARSET.indexOf c
  if i < BECH32_CHARSET.length then some i else none

/-- The 5-bit groups of a string of symbols, `none` when a character is outside the
charset. -/
def bech32_values : List Char → Option (List Nat)
  | [] => some []
  | c :: cs =>
    match bech32_charset_index c, bech32_values cs with
    | some v, some vs => some (v :: vs)
    | _, _ => none

/-- Modelled from the spec: one step of `polymod` (section 4.6), the 30-bit BCH checksum
over GF(32) of bech32.c, with the generator of BIP-173: the state is shifted by one group,
the group `v` is added, and the generator words selected by the five bits shifted out are
added. -/
def bech32_polymod_step (chk v : Nat) : Nat :=
  let b := chk >>> 25
  ((chk &&& 0x1ffffff) <<< 5) ^^^ v ^^^
    (if b.testBit 0 then 0x3b6a57b2 else 0) ^^^
    (if b.testBit 1 then 0x26508e6d else 0) ^^^
    (if b.testBit 2 then 0x1ea119fa else 0) ^^^
    (if b.testBit 3 then 0x3d4233dd else 0) ^^^
    (if b.testBit 4 then 0x2a1462b3 else 0)

/-- Modelled from the spec: `polymod` of a sequence of groups (section 4.6), starting from
the state 1. -/
def bech32_polymod (values : List Nat) : Nat := values.foldl bech32_polymod_step 1

/-- The constant of the Bech32 checksum (section 4.6). -/
def BECH32_CONST : Nat := 1

/-- The constant of the Bech32m checksum (section 4.6). -/
def BECH32M_CONST : Nat := 0x2bc830a3

/-- Modelled from the spec: the expansion of the HRP that enters the checksum (section 4.6,
"HRP-expanded"), as in BIP-173: the high bits of each character, a zero, the low five bits
of each character. -/
def bech32_hrp_expand (hrp : List Char) : List Nat :=
  hrp.map (fun c => c.toNat >>> 5) ++ [0] ++ hrp.map (fun c => c.toNat &&& 31)

/-- Modelled from the spec: the 6 checksum groups (section 4.6): `polymod` over
`HRP-expanded ‖ data ‖ [0]*6`, XORed with the constant and cut into six 5-bit groups, the
most significant first. -/
def bech32_create_checksum (hrp : List Char) (data : List Nat) (const : Nat) : List Nat :=
  let residue := bech32_polymod (bech32_hrp_expand hrp ++ data ++ List.replicate 6 0) ^^^ const
  (List.range 6).map (fun i => (residue >>> (5 * (5 - i))) &&& 31)

/-- An uppercase ASCII letter. -/
def is_upper (c : Char) : Bool := decide (65 ≤ c.toNat ∧ c.toNat ≤ 90)

/-- A lowercase ASCII letter. -/
def is_lower (c : Char) : Bool := decide (97 ≤ c.toNat ∧ c.toNat ≤ 122)

/-- The lowercase form of an ASCII character. -/
def to_lower (c : Char) : Char := if is_upper c then Char.ofNat (c.toNat + 32) else c

/-- A character outside the range `[33, 126]` allowed in an HRP. -/
def hrp_char_invalid (c : Char) : Bool := decide (c.toNat < 33 ∨ 126 < c.toNat)

/-- Modelled from the spec: the Bech32 string `HRP '1' data_part` of section 4.6 for the
groups `data` and the checksum constant `const`, or `none` when the HRP is not one the
encoder can emit: it has not 1 to 83 characters, has a character outside `[33, 126]`, or
has an uppercase letter (the encoder emits one case, and the charset is lowercase; this is
the failure `test_uppercase_hrp_fail` of `test_bech32.c` expects). The limit of 90
characters is listed in section 4.6 for decoding only and is not checked here. -/
def bech32_encode (hrp : List Char) (data : List Nat) (const : Nat) : Option (List Char) :=
  if hrp = [] then none
  else if hrp.any hrp_char_invalid then none
  else if hrp.any is_upper then none
  else if 83 < hrp.length then none
  else
    some (hrp ++ ['1'] ++
      (data ++ bech32_create_checksum hrp data const).map bech32_charset_at)

/-- The number whose digits in base `base` are `ds`, most significant first. -/
def be_value (base : Nat) (ds : List Nat) : Nat := ds.foldl (fun a d => a * base + d) 0

/-- The `width` low digits of `v` in base `base`, most significant first. -/
def be_digits (base width v : Nat) : List Nat :=
  (List.range width).map (fun i => v / base ^ (width - 1 - i) % base)

/-- Modelled from the spec: the conversion of a byte string from 8-bit groups to 5-bit
groups (section 4.6): the bits of the bytes, most significant first, followed by as few
zero padding bits as complete the last group. -/
def convert_bits_8_to_5 (bytes : List Byte) : List Nat :=
  let nbits := 8 * bytes.length
  let pad := (5 - nbits % 5) % 5
  be_digits 32 ((nbits + pad) / 5) (be_value 256 (bytes.map (fun x => x.val)) * 2 ^ pad)

/-- Modelled from the spec: the repacking from 5-bit groups to 8-bit groups (section 4.6):
the bits that do not fill a byte are padding; the conversion is rejected when the padding
is a whole group or more, or is not all zero. -/
def convert_bits_5_to_8 (groups : List Nat) : Option (List Byte) :=
  let nbits := 5 * groups.length
  let pad := nbits % 8
  let v := be_value 32 groups
  if 5 ≤ pad then none
  else if v % 2 ^ pad ≠ 0 then none
  else some ((be_digits 256 (nbits / 8) (v / 2 ^ pad)).map toByte)

/-- Modelled from the spec: the function `segwit_addr_encode` of bech32.h, whose body is
not among the sources, as the string written to the output when it returns 1, `none`
otherwise. The witness version (0 to 16) is the first group, followed by the program
converted to 5-bit groups; version 0 uses the Bech32 constant and the other versions the
Bech32m constant (section 4.6). The call fails for a version above 16 and when
`bech32_encode` fails. The limits on the length of the program (2 to 40 bytes, 20 or 32
bytes for version 0) are listed in section 4.6 for decoding only and are not checked here:
`test_bech32.c` expects programs of 3, 40 and 64 bytes to be encoded with version 0. -/
def segwit_addr_encode (hrp : List Char) (witver : Nat) (witprog : List Byte) :
    Option (List Char) :=
  if 16 < witver then none
  else
    bech32_encode hrp (witver :: convert_bits_8_to_5 witprog)
      (if witver = 0 then BECH32_CONST else BECH32M_CONST)

/-- Modelled from the spec: the decoding of a Bech32 string (section 4.6, "Decode"): the
HRP in lowercase, the groups without the checksum and the constant that the checksum
matches. The string has 8 to 90 characters and a single case; the separator is the last
`1`, after at least one HRP character in `[33, 126]` and before at least 6 symbols of the
charset; the checksum is recomputed and must match one of the two constants. -/
def bech32_decode (input : List Char) : Option (List Char × List Nat × Nat) :=
  if input.length < 8 ∨ 90 < input.length then none
  else if input.any is_lower ∧ input.any is_upper then none
  else
    let s := input.map to_lower
    let data_part := (s.reverse.takeWhile (fun c => c ≠ '1')).reverse
    if s.length ≤ data_part.length then none
    else
      let hrp := s.take (s.length - data_part.length - 1)
      if hrp = [] ∨ data_part.length < 6 then none
      else if hrp.any hrp_char_invalid then none
      else
        match bech32_values data_part with
        | none => none
        | some values =>
          let residue := bech32_polymod (bech32_hrp_expand hrp ++ values)
          if residue = BECH32_CONST then
            some (hrp, values.take (values.length - 6), BECH32_CONST)
          else if residue = BECH32M_CONST then
            some (hrp, values.take (values.length - 6), BECH32M_CONST)
          else none

/-- Modelled from the spec: the function `segwit_addr_decode` of bech32.h, whose body is
not among the sources, as the witness version and the witness program stored when it
returns 1, `none` otherwise (section 4.6, "Decode"). The HRP must be the expected one, the
first group is the witness version (at most 16), version 0 requires the Bech32 constant
and the other versions the Bech32m constant, the remaining groups are repacked to bytes,
the program has 2 to 40 bytes, and 20 or 32 bytes for version 0. -/
def segwit_addr_decode (hrp : List Char) (addr : List Char) : Option (Nat × List Byte) :=
  match bech32_decode addr with
  | none => none
  | some (hrp_actual, data, const) =>
    if hrp_actual ≠ hrp then none
    else
      match data with
      | [] => none
      | witver :: groups =>
        if 16 < witver then none
        else if witver = 0 ∧ const ≠ BECH32_CONST then none
        else if witver ≠ 0 ∧ const ≠ BECH32M_CONST then none
        else
          match convert_bits_5_to_8 groups with
          | none => none
          | some witprog =>
            if witprog.length < 2 ∨ 40 < witprog.length then none
            else if witver = 0 ∧ witprog.length ≠ 20 ∧ witprog.length ≠ 32 then none
            else some (witver, witprog)

/-- The 20-byte program `prog20` of `test_bech32.c`. -/
def prog20 : List Byte :=
  [0x75, 0x1e, 0x76, 0xe8, 0x19, 0x91, 0x96, 0xd4, 0x54, 0x94, 0x1c, 0x45, 0xd1, 0xb3, 0xa3,
   0x1c, 0x0e, 0xf6, 0x4b, 0x8e]

/-! ## The operands of `mpz_invert` in ecc.c -/

/-- The value `inv` that `point_doubling` passes to `mpz_invert` (`mpz_mul_ui(inv, P->y, 2)`),
`none` when the function returns before the call. -/
def point_doubling_invert_operand (P : Point) : Option Int :=
  if point_is_infinity P then none
  else if P.y = 0 then none
  else some (P.y * 2)

/-- The value `inv` that `point_addition` passes to `mpz_invert` (`mpz_sub(inv, Q->x, P->x)`),
or the one its call of `point_doubling` passes; `none` when no call of `mpz_invert` is
reached. -/
def point_addition_invert_operand (EC : EllipticCurve) (P Q : Point) : Option Int :=
  if point_is_infinity P then none
  else if point_is_infinity Q then none
  else if P.x = Q.x then
    let temp := P.y + Q.y
    let temp := mpz_mod temp EC.p
    if temp = 0 then none
    else point_doubling_invert_operand P
  else some (Q.x - P.x)

/-! # Theorems -/

/-! ## Base58 -/

theorem beVal_nil : beVal [] = 0 := rfl

theorem beVal_cons (x : Byte) (bs : List Byte) :
    beVal (x :: bs) = x.val * 256 ^ bs.length + beVal bs := by
  simp [beVal, Nat.ofDigits_append, Nat.ofDigits_singleton]
  ring

theorem beVal_lt (bs : List Byte) : beVal bs < 256 ^ bs.length := by
  induction bs with
  | nil => simp [beVal_nil]
  | cons x xs ih =>
    rw [beVal_cons, List.length_cons, pow_succ]
    have hx : x.val < 256 := x.isLt
    nlinarith [pow_pos (show 0 < 256 by norm_num) xs.length]

theorem toByte_val_of_lt {n : Nat} (h : n < 256) : (toByte n).val = n := by
  simp [toByte, Nat.mod_eq_of_lt h]

theorem divmod58_length (r : Nat) (bs : List Byte) : (divmod58 r bs).1.length = bs.length := by
  induction bs generalizing r with
  | nil => rfl
  | cons x xs ih => simp [divmod58, ih]

theorem divmod58_spec (r : Nat) (bs : List Byte) (hr : r < 58) :
    beVal (divmod58 r bs).1 = (r * 256 ^ bs.length + beVal bs) / 58 ∧
    (divmod58 r bs).2 = (r * 256 ^ bs.length + beVal bs) % 58 := by
  induction bs generalizing r with
  | nil => simp [divmod58, beVal_nil, Nat.div_eq_of_lt hr, Nat.mod_eq_of_lt hr]
  | cons x xs ih =>
    have hx : x.val < 256 := x.isLt
    have hnum : (r * 256 + x.val) / 58 < 256 := by omega
    have hmod : (r * 256 + x.val) % 58 < 58 := Nat.mod_lt _ (by norm_num)
    obtain ⟨ih1, ih2⟩ := ih ((r * 256 + x.val) % 58) hmod
    have key : r * 256 ^ (xs.length + 1) + (x.val * 256 ^ xs.length + beVal xs) =
        58 * ((r * 256 + x.val) / 58 * 256 ^ xs.length) +
          ((r * 256 + x.val) % 58 * 256 ^ xs.length + beVal xs) := by
      have h := Nat.div_add_mod (r * 256 + x.val) 58
      have : r * 256 ^ (xs.length + 1) + x.val * 256 ^ xs.length =
          (r * 256 + x.val) * 256 ^ xs.length := by ring
      calc r * 256 ^ (xs.length + 1) + (x.val * 256 ^ xs.length + beVal xs)
          = (r * 256 + x.val) * 256 ^ xs.length + beVal xs := by rw [← this]; ring
        _ = (58 * ((r * 256 + x.val) / 58) + (r * 256 + x.val) % 58) * 256 ^ xs.length
              + beVal xs := by rw [h]
        _ = _ := by ring
    constructor
    · simp only [divmod58, beVal_cons, List.length_cons, divmod58_length, ih1,
        toByte_val_of_lt hnum]
      rw [key, Nat.mul_add_div (by norm_num : 58 > 0)]
    · simp only [divmod58, beVal_cons, List.length_cons, ih2]
      rw [key, Nat.mul_add_mod]

theorem beVal_dropWhile_zero (bs : List Byte) :
    beVal (bs.dropWhile (fun x => x = 0)) = beVal bs := by
  induction bs with
  | nil => rfl
  | cons x xs ih =>
    by_cases hx : x = 0
    · simp [List.dropWhile, hx, ih, beVal_cons]
    · simp [List.dropWhile, hx]

theorem noLeadingZero_dropWhile (bs : List Byte) :
    NoLeadingZero (bs.dropWhile (fun x => x = 0)) := by
  induction bs with
  | nil => simp [NoLeadingZero]
  | cons x xs ih =>
    by_cases hx : x = 0
    · simpa [List.dropWhile, hx] using ih
    · simp [List.dropWhile, hx, NoLeadingZero]

theorem beVal_eq_zero_of_noLeadingZero {bs : List Byte} (h : NoLeadingZero bs)
    (hv : beVal bs = 0) : bs = [] := by
  cases bs with
  | nil => rfl
  | cons x xs =>
    exfalso
    have hx : x ≠ 0 := h x (by simp)
    have hx' : x.val ≠ 0 := fun h0 => hx (Fin.ext h0)
    rw [beVal_cons] at hv
    have : 0 < x.val * 256 ^ xs.length :=
      Nat.mul_pos (Nat.pos_of_ne_zero hx') (pow_pos (by norm_num) _)
    omega

/-- A byte string without leading zero is the reversed list of base-256 digits of its
value. -/
theorem digits_beVal {bs : List Byte} (h : NoLeadingZero bs) :
    Nat.digits 256 (beVal bs) = bs.reverse.map (fun x => x.val) := by
  unfold beVal
  apply Nat.digits_ofDigits 256 (by norm_num)
  · intro l hl
    simp only [List.mem_map] at hl
    obtain ⟨x, _, rfl⟩ := hl
    exact x.isLt
  · intro hne
    cases bs with
    | nil => simp at hne
    | cons x xs =>
      have hx : x ≠ 0 := h x (by simp)
      simp only [List.reverse_cons, List.map_append, List.map_cons, List.map_nil,
        List.getLast_append_singleton] -- last element is x
      exact fun h0 => hx (Fin.ext h0)

theorem eq_of_beVal_eq {as bs : List Byte} (ha : NoLeadingZero as) (hb : NoLeadingZero bs)
    (h : beVal as = beVal bs) : as = bs := by
  have h1 := digits_beVal ha
  have h2 := digits_beVal hb
  rw [h] at h1
  rw [h1] at h2
  have h3 := List.map_injective_iff.mpr (fun a b hab => Fin.ext hab) h2
  exact List.reverse_injective h3

theorem digits58_length_le {v k : Nat} (h : v < 58 ^ k) : (Nat.digits 58 v).length ≤ k := by
  by_cases hv : v = 0
  · simp [hv]
  · rw [Nat.digits_len 58 v (by norm_num) hv]
    exact Nat.log_lt_of_lt_pow hv h

/-- The loop of `base58_encode` writes the base-58 digits of the buffer value, least
significant first, as long as the iteration bound leaves room for them all. -/
theorem encode_loop_spec (fuel : Nat) (buf : List Byte) (b58 : List Char)
    (h : NoLeadingZero buf) (hf : (Nat.digits 58 (beVal buf)).length ≤ fuel) :
    encode_loop fuel buf b58 = b58 ++ (Nat.digits 58 (beVal buf)).map alphabetAt := by
  induction fuel generalizing buf b58 with
  | zero =>
    have : Nat.digits 58 (beVal buf) = [] := List.length_eq_zero.mp (Nat.le_zero.mp hf)
    simp [encode_loop, this]
  | succ fuel ih =>
    by_cases hb : buf = []
    · simp [encode_loop, hb, beVal_nil]
    · have hv : beVal buf ≠ 0 := fun h0 => hb (beVal_eq_zero_of_noLeadingZero h h0)
      have hd := Nat.digits_eq_cons_digits_div (b := 58) (by norm_num) hv
      obtain ⟨h1, h2⟩ := divmod58_spec 0 buf (by norm_num)
      simp only [zero_mul, zero_add] at h1 h2
      have hval : beVal ((divmod58 0 buf).1.dropWhile (fun x => x = 0)) = beVal buf / 58 := by
        rw [beVal_dropWhile_zero, h1]
      have hlen : (Nat.digits 58 (beVal buf / 58)).length ≤ fuel := by
        rw [hd] at hf
        simpa using hf
      rw [encode_loop, if_neg hb]
      simp only []
      rw [ih _ _ (noLeadingZero_dropWhile _) (by rw [hval]; exact hlen), hval, h2, hd]
      simp

/-- The iteration bound `2 * data_len` of the model is never reached. -/
theorem encode_loop_fuel (buf : List Byte) (n : Nat) (hn : buf.length ≤ n) :
    (Nat.digits 58 (beVal buf)).length ≤ 2 * n := by
  apply digits58_length_le
  calc beVal buf < 256 ^ buf.length := beVal_lt buf
    _ ≤ (58 ^ 2) ^ buf.length := Nat.pow_le_pow_left (by norm_num) _
    _ = 58 ^ (2 * buf.length) := by rw [pow_mul]
    _ ≤ 58 ^ (2 * n) := Nat.pow_le_pow_right (by norm_num) (by omega)


theorem takeWhile_zero_eq (bs : List Byte) :
    bs.takeWhile (fun x => x = 0) = List.replicate (leadingZeros bs) 0 := by
  unfold leadingZeros
  apply List.eq_replicate_of_mem
  intro x hx
  have := List.mem_takeWhile_imp hx
  simpa using this

theorem drop_leadingZeros (bs : List Byte) :
    bs.drop (leadingZeros bs) = bs.dropWhile (fun x => x = 0) := by
  have h := List.takeWhile_append_dropWhile (fun x => decide (x = 0)) bs
  unfold leadingZeros
  conv_lhs => arg 2; rw [← h]
  exact List.drop_left _ _

theorem replicate_append_drop_leadingZeros (bs : List Byte) :
    List.replicate (leadingZeros bs) 0 ++ bs.drop (leadingZeros bs) = bs := by
  rw [← takeWhile_zero_eq, drop_leadingZeros]
  exact List.takeWhile_append_dropWhile _ bs

theorem beVal_drop_leadingZeros (bs : List Byte) :
    beVal (bs.drop (leadingZeros bs)) = beVal bs := by
  rw [drop_leadingZeros, beVal_dropWhile_zero]

/-- Closed form of `base58_encode`: one `1` per leading zero byte, then the base-58 digits
of the value, most significant first. -/
theorem base58_encode_eq (data : List Byte) :
    base58_encode data =
      List.replicate (leadingZeros data) (alphabetAt 0) ++
        ((Nat.digits 58 (beVal data)).reverse.map alphabetAt) := by
  have hfuel : (Nat.digits 58 (beVal (data.drop (leadingZeros data)))).length
      ≤ 2 * data.length :=
    encode_loop_fuel _ _ (by simp)
  have hnlz : NoLeadingZero (data.drop (leadingZeros data)) := by
    rw [drop_leadingZeros]; exact noLeadingZero_dropWhile _
  unfold base58_encode
  simp only []
  change (encode_loop (2 * data.length) (data.drop (leadingZeros data)) [] ++
    List.replicate (leadingZeros data) (alphabetAt 0)).reverse = _
  rw [encode_loop_spec _ _ _ hnlz hfuel, beVal_drop_leadingZeros]
  simp [List.map_reverse]

theorem mul58add_length (bin : List Byte) (d : Nat) :
    (mul58add bin d).1.length = bin.length := by
  induction bin with
  | nil => rfl
  | cons b bs ih => simp [mul58add, ih]

theorem mul58add_spec (bin : List Byte) (d : Nat) :
    beVal (mul58add bin d).1 + (mul58add bin d).2 * 256 ^ bin.length = 58 * beVal bin + d := by
  induction bin with
  | nil => simp [mul58add, beVal_nil]
  | cons b bs ih =>
    simp only [mul58add, beVal_cons, List.length_cons, mul58add_length]
    have hb : (toByte ((mul58add bs d).2 + 58 * b.val)).val =
        ((mul58add bs d).2 + 58 * b.val) % 256 := rfl
    rw [hb]
    have hm := Nat.mod_add_div ((mul58add bs d).2 + 58 * b.val) 256
    generalize ((mul58add bs d).2 + 58 * b.val) % 256 = r at hm ⊢
    generalize ((mul58add bs d).2 + 58 * b.val) / 256 = q at hm ⊢
    generalize (mul58add bs d).2 = c at hm ih
    generalize beVal (mul58add bs d).1 = B at ih ⊢
    rw [pow_succ]
    generalize (256 : Nat) ^ bs.length = P at ih ⊢
    have h1 : (r + 256 * q) * P = (c + 58 * b.val) * P := by rw [hm]
    nlinarith [h1, ih]

theorem accum58_cons (v d : Nat) (ds : List Nat) :
    accum58 v (d :: ds) = accum58 (v * 58 + d) ds := rfl

theorem le_accum58 (v : Nat) (ds : List Nat) : v ≤ accum58 v ds := by
  induction ds generalizing v with
  | nil => exact le_rfl
  | cons d ds ih =>
    rw [accum58_cons]
    exact le_trans (by omega) (ih _)

theorem accum58_eq (v : Nat) (ds : List Nat) :
    accum58 v ds = v * 58 ^ ds.length + Nat.ofDigits 58 ds.reverse := by
  induction ds generalizing v with
  | nil => simp [accum58]
  | cons d ds ih =>
    rw [accum58_cons, ih, List.reverse_cons, Nat.ofDigits_append, Nat.ofDigits_singleton]
    simp only [List.length_cons, List.length_reverse]
    ring

theorem accum58_zero_replicate (z : Nat) (ds : List Nat) :
    accum58 0 (List.replicate z 0 ++ ds) = accum58 0 ds := by
  induction z with
  | zero => rfl
  | succ z ih => rw [List.replicate_succ, List.cons_append, accum58_cons]; exact ih

theorem strchr_alphabetAt : ∀ d : Fin 58, strchr_alphabet (alphabetAt d.val) = some d.val := by
  decide

theorem alphabetAt_ne_space : ∀ d : Fin 58, alphabetAt d.val ≠ ' ' := by decide

theorem alphabetAt_eq_zero : ∀ d : Fin 58, alphabetAt d.val = alphabetAt 0 → d.val = 0 := by
  decide

/-- The loop of `base58_decode` on a string of alphabet symbols accumulates
`value * 58 + digit` in the buffer, as long as the final value fits the buffer. -/
theorem decode_loop_spec (ds : List Nat) (hds : ∀ d ∈ ds, d < 58) (bin : List Byte)
    (h : accum58 (beVal bin) ds < 256 ^ bin.length) :
    ∃ out, decode_loop (ds.map alphabetAt) bin = some out ∧ out.length = bin.length ∧
      beVal out = accum58 (beVal bin) ds := by
  induction ds generalizing bin with
  | nil => exact ⟨bin, rfl, rfl, rfl⟩
  | cons d ds ih =>
    have hd : d < 58 := hds d (by simp)
    have hidx : strchr_alphabet (alphabetAt d) = some d := strchr_alphabetAt ⟨d, hd⟩
    have hspec := mul58add_spec bin d
    rw [accum58_cons] at h
    have hle := le_accum58 (beVal bin * 58 + d) ds
    have hcarry : (mul58add bin d).2 = 0 := by
      by_contra hne
      have h1 : 1 ≤ (mul58add bin d).2 := Nat.one_le_iff_ne_zero.mpr hne
      have h2 : 256 ^ bin.length ≤ (mul58add bin d).2 * 256 ^ bin.length :=
        Nat.le_mul_of_pos_left _ h1
      omega
    rw [hcarry, zero_mul, add_zero] at hspec
    have hv : beVal (mul58add bin d).1 = beVal bin * 58 + d := by rw [hspec]; ring
    obtain ⟨out, ho1, ho2, ho3⟩ := ih (fun x hx => hds x (by simp [hx])) (mul58add bin d).1
      (by rw [hv, mul58add_length]; exact h)
    refine ⟨out, ?_, ?_, ?_⟩
    · simp only [List.map_cons, decode_loop, hidx, hcarry]
      simpa using ho1
    · rw [ho2, mul58add_length]
    · rw [ho3, hv, accum58_cons]

set_option exponentiation.threshold 2000 in
/-- The buffer of `size = b58_len * 733 / 1000 + 1` bytes holds every value below
`58 ^ b58_len`. -/
theorem pow58_lt_pow256 (L : Nat) : 58 ^ L < 256 ^ (L * 733 / 1000 + 1) := by
  have hbase : (58 : Nat) ^ 1000 ≤ 256 ^ 733 := by norm_num
  have hexp : 733 * L < 1000 * (L * 733 / 1000 + 1) := by omega
  have h1 : ((58 : Nat) ^ L) ^ 1000 < (256 ^ (L * 733 / 1000 + 1)) ^ 1000 := by
    calc ((58 : Nat) ^ L) ^ 1000 = (58 ^ 1000) ^ L := by rw [← pow_mul, ← pow_mul, mul_comm]
      _ ≤ (256 ^ 733) ^ L := Nat.pow_le_pow_left hbase L
      _ = 256 ^ (733 * L) := by rw [← pow_mul]
      _ < 256 ^ (1000 * (L * 733 / 1000 + 1)) := Nat.pow_lt_pow_right (by norm_num) hexp
      _ = (256 ^ (L * 733 / 1000 + 1)) ^ 1000 := by rw [← pow_mul, mul_comm]
  exact lt_of_pow_lt_pow_left₀ 1000 (Nat.zero_le _) h1

theorem beVal_replicate_zero (n : Nat) : beVal (List.replicate n (0 : Byte)) = 0 := by
  induction n with
  | zero => rfl
  | succ n ih => rw [List.replicate_succ, beVal_cons, ih]; simp

theorem dropWhile_space_alphabet (ds : List Nat) (hds : ∀ d ∈ ds, d < 58) :
    (ds.map alphabetAt).dropWhile (fun c => c = ' ') = ds.map alphabetAt := by
  cases ds with
  | nil => rfl
  | cons d ds =>
    have h := alphabetAt_ne_space ⟨d, hds d (by simp)⟩
    simp only [List.map_cons]
    rw [List.dropWhile_cons_of_neg]
    simpa using h

theorem takeWhile_one_alphabet (ds : List Nat) (hds : ∀ d ∈ ds, d < 58) :
    ((ds.map alphabetAt).takeWhile (fun c => c = alphabetAt 0)).length =
      (ds.takeWhile (fun d => d = 0)).length := by
  induction ds with
  | nil => rfl
  | cons d ds ih =>
    have hd := hds d (by simp)
    have ih' := ih (fun x hx => hds x (by simp [hx]))
    by_cases h0 : d = 0
    · subst h0
      simp only [List.map_cons]
      rw [List.takeWhile_cons_of_pos (by simp), List.takeWhile_cons_of_pos (by simp)]
      simp only [List.length_cons, ih']
    · have hne : alphabetAt d ≠ alphabetAt 0 := fun h => h0 (alphabetAt_eq_zero ⟨d, hd⟩ h)
      simp only [List.map_cons]
      rw [List.takeWhile_cons_of_neg (by simpa using hne),
        List.takeWhile_cons_of_neg (by simpa using h0)]
      rfl

/-- What `base58_decode` returns on a string of alphabet symbols, given by their digit
values `ds`: one zero byte per leading `1`, then the shortest big-endian byte string of
the accumulated value. -/
theorem base58_decode_digits (ds : List Nat) (hds : ∀ d ∈ ds, d < 58) :
    ∃ out, base58_decode (ds.map alphabetAt) =
        some (List.replicate (ds.takeWhile (fun d => d = 0)).length 0 ++ out) ∧
      NoLeadingZero out ∧ beVal out = accum58 0 ds := by
  have hbound : accum58 (beVal (List.replicate (ds.length * 733 / 1000 + 1) (0 : Byte))) ds <
      256 ^ (List.replicate (ds.length * 733 / 1000 + 1) (0 : Byte)).length := by
    rw [beVal_replicate_zero, List.length_replicate, accum58_eq, zero_mul, zero_add]
    have h1 : Nat.ofDigits 58 ds.reverse < 58 ^ ds.reverse.length :=
      Nat.ofDigits_lt_base_pow_length (by norm_num) (fun x hx => hds x (by simpa using hx))
    rw [List.length_reverse] at h1
    exact lt_trans h1 (pow58_lt_pow256 _)
  obtain ⟨out, ho1, _, ho3⟩ := decode_loop_spec ds hds _ hbound
  refine ⟨out.dropWhile (fun x => x = 0), ?_, noLeadingZero_dropWhile _, ?_⟩
  · unfold base58_decode
    simp only [dropWhile_space_alphabet ds hds, takeWhile_one_alphabet ds hds,
      List.length_map, ho1]
  · rw [beVal_dropWhile_zero, ho3, beVal_replicate_zero]

theorem takeWhile_zero_digits_reverse (v : Nat) :
    (Nat.digits 58 v).reverse.takeWhile (fun d => d = 0) = [] := by
  cases h : (Nat.digits 58 v).reverse with
  | nil => rfl
  | cons x xs =>
    have hD : Nat.digits 58 v = xs.reverse ++ [x] := by
      have := congrArg List.reverse h
      simpa using this
    have hv : v ≠ 0 := by
      intro h0
      rw [h0] at hD
      simp at hD
    have hl := Nat.getLast_digit_ne_zero 58 hv
    have hx : x ≠ 0 := by
      simp only [hD, List.getLast_append_singleton] at hl
      exact hl
    rw [List.takeWhile_cons_of_neg (by simpa using hx)]

/-- Decoding inverts encoding. -/
theorem base58_decode_encode (data : List Byte) :
    base58_decode (base58_encode data) = some data := by
  have hds : ∀ d ∈ List.replicate (leadingZeros data) 0 ++ (Nat.digits 58 (beVal data)).reverse,
      d < 58 := by
    intro d hd
    rcases List.mem_append.mp hd with h | h
    · rw [List.eq_of_mem_replicate h]; norm_num
    · exact Nat.digits_lt_base (by norm_num) (List.mem_reverse.mp h)
  obtain ⟨out, ho1, ho2, ho3⟩ := base58_decode_digits _ hds
  have henc : base58_encode data =
      (List.replicate (leadingZeros data) 0 ++ (Nat.digits 58 (beVal data)).reverse).map
        alphabetAt := by
    rw [base58_encode_eq, List.map_append, List.map_replicate]
  have hz : ((List.replicate (leadingZeros data) 0 ++
      (Nat.digits 58 (beVal data)).reverse).takeWhile (fun d => d = 0)).length =
      leadingZeros data := by
    rw [List.takeWhile_append_of_pos (by
      intro a ha
      simp [List.eq_of_mem_replicate ha]), takeWhile_zero_digits_reverse]
    simp
  have hout : out = data.drop (leadingZeros data) := by
    apply eq_of_beVal_eq ho2
    · rw [drop_leadingZeros]; exact noLeadingZero_dropWhile _
    · rw [ho3, accum58_zero_replicate, accum58_eq, zero_mul, zero_add, List.reverse_reverse,
        Nat.ofDigits_digits, beVal_drop_leadingZeros]
  rw [henc, ho1, hz, hout, replicate_append_drop_leadingZeros]

/-- Decoding with checksum inverts encoding with checksum, for every hash function whose
digests have `SHA256_DIGEST_LENGTH` bytes. -/
theorem base58_decode_check_encode_check (SHA256 : List Byte → List Byte)
    (hlen : ∀ x, (SHA256 x).length = SHA256_DIGEST_LENGTH) (data : List Byte) :
    base58_decode_check SHA256 (base58_encode_check SHA256 data) = some data := by
  have h4 : ((SHA256 (SHA256 data)).take 4).length = 4 := by
    rw [List.length_take, hlen]; rfl
  unfold base58_decode_check base58_encode_check
  simp only [base58_decode_encode]
  have hl : (data ++ (SHA256 (SHA256 data)).take 4).length - 4 = data.length := by
    rw [List.length_append, h4]; omega
  have hnot : ¬ (data ++ (SHA256 (SHA256 data)).take 4).length < 4 := by
    rw [List.length_append, h4]; omega
  rw [if_neg hnot, hl, List.take_left, List.drop_left]
  have : ((SHA256 (SHA256 data)).take 4).take 4 = (SHA256 (SHA256 data)).take 4 := by
    rw [List.take_take]; simp
  simp [this]

/-! ## Elliptic-curve arithmetic -/

open WeierstrassCurve.Affine

theorem xgcd_loop_spec (n : Nat) (hn : 0 < n) (x : Int) (fuel r0 r1 : Nat) (s0 s1 : Nat)
    (hfuel : r1 ≤ fuel)
    (h0 : (r0 : Int) ≡ s0 * x [ZMOD n]) (h1 : (r1 : Int) ≡ s1 * x [ZMOD n]) :
    (xgcd_loop n fuel r0 r1 s0 s1).1 = Nat.gcd r0 r1 ∧
      ((xgcd_loop n fuel r0 r1 s0 s1).1 : Int) ≡
        ((xgcd_loop n fuel r0 r1 s0 s1).2 : Int) * x [ZMOD n] := by
  induction fuel generalizing r0 r1 s0 s1 with
  | zero =>
    have : r1 = 0 := Nat.le_zero.mp hfuel
    subst this
    simp [xgcd_loop, h0]
  | succ fuel ih =>
    by_cases hr : r1 = 0
    · subst hr
      simp [xgcd_loop, h0]
    · rw [xgcd_loop, if_neg hr]
      have hlt : r0 % r1 < r1 := Nat.mod_lt _ (Nat.pos_of_ne_zero hr)
      have hstep : ((r0 % r1 : Nat) : Int) ≡
          (((s0 + (n - r0 / r1 * s1 % n)) % n : Nat) : Int) * x [ZMOD n] := by
        have e : ((r0 % r1 : Nat) : Int) = (r0 : Int) - ((r0 / r1 : Nat) : Int) * (r1 : Int) := by
          have := Nat.mod_add_div r0 r1
          have h2 : ((r0 % r1 : Nat) : Int) + (r1 : Int) * ((r0 / r1 : Nat) : Int) = (r0 : Int) := by
            exact_mod_cast this
          linarith
        have hs : (((s0 + (n - r0 / r1 * s1 % n)) % n : Nat) : Int) ≡
            (s0 : Int) - ((r0 / r1 : Nat) : Int) * (s1 : Int) [ZMOD n] := by
          have hle : r0 / r1 * s1 % n ≤ n := le_of_lt (Nat.mod_lt _ hn)
          have c1 : (((s0 + (n - r0 / r1 * s1 % n)) % n : Nat) : Int) =
              ((s0 : Int) + ((n : Int) - ((r0 / r1 * s1 : Nat) : Int) % (n : Int))) % (n : Int) := by
            push_cast [Nat.cast_sub hle]
            rfl
          rw [c1]
          have c2 : ((s0 : Int) + ((n : Int) - ((r0 / r1 * s1 : Nat) : Int) % (n : Int))) % (n : Int)
              ≡ (s0 : Int) + ((n : Int) - ((r0 / r1 * s1 : Nat) : Int) % (n : Int)) [ZMOD n] :=
            Int.mod_modEq _ _
          refine c2.trans ?_
          have c3 : ((r0 / r1 * s1 : Nat) : Int) % (n : Int) ≡ ((r0 / r1 * s1 : Nat) : Int) [ZMOD n] :=
            Int.mod_modEq _ _
          have c4 : (n : Int) ≡ 0 [ZMOD n] := by simp [Int.ModEq]
          have c5 := Int.ModEq.add (Int.ModEq.refl (s0 : Int)) (Int.ModEq.sub c4 c3)
          refine c5.trans ?_
          push_cast
          rw [zero_sub, sub_eq_add_neg]
        rw [e]
        refine Int.ModEq.trans ?_ (Int.ModEq.mul_right x hs).symm
        rw [sub_mul, mul_assoc]
        exact Int.ModEq.sub h0 (Int.ModEq.mul_left _ h1)
      obtain ⟨ih1, ih2⟩ := ih r1 (r0 % r1) s1 _ (by omega) h1 hstep
      refine ⟨?_, ih2⟩
      rw [ih1, Nat.gcd_comm r0 r1, Nat.gcd_rec r1 r0, Nat.gcd_comm]

/-- When `op1` is coprime to the modulus `p > 0`, `mpz_invert` reports success and stores
the inverse of `op1` in `[0, p)`. -/
theorem mpz_invert_of_coprime (rop op1 : Int) (p : Nat) (hp : 0 < p)
    (h : Int.gcd op1 p = 1) :
    (mpz_invert rop op1 p).2 = true ∧ 0 ≤ (mpz_invert rop op1 p).1 ∧
      (mpz_invert rop op1 p).1 < p ∧
      op1 * (mpz_invert rop op1 p).1 ≡ 1 [ZMOD p] := by
  have hn : (0 : Int) < (p : Int) := by exact_mod_cast hp
  have hx0 : 0 ≤ op1 % (p : Int) := Int.emod_nonneg _ (ne_of_gt hn)
  have hxlt : op1 % (p : Int) < (p : Int) := Int.emod_lt_of_pos _ hn
  have hcast : (((op1 % (p : Int)).toNat : Nat) : Int) = op1 % (p : Int) :=
    Int.toNat_of_nonneg hx0
  obtain ⟨g1, g2⟩ := xgcd_loop_spec p hp op1 p p (op1 % (p : Int)).toNat 0 1
    (by
      have : ((op1 % (p : Int)).toNat : Int) ≤ (p : Int) := by
        rw [hcast]; exact le_of_lt hxlt
      exact_mod_cast this)
    (by simp [Int.ModEq])
    (by rw [hcast, Nat.cast_one, one_mul]; exact Int.mod_modEq _ _)
  have hg : Nat.gcd p (op1 % (p : Int)).toNat = 1 := by
    have hco : IsCoprime op1 (p : Int) := Int.isCoprime_iff_gcd_eq_one.mpr h
    have hco2 : IsCoprime (op1 % (p : Int)) (p : Int) := by
      have e : op1 % (p : Int) = op1 + (p : Int) * (-(op1 / (p : Int))) := by
        rw [Int.emod_def]; ring
      rw [e]
      exact hco.add_mul_left_left _
    have h3 : Int.gcd (op1 % (p : Int)) (p : Int) = 1 := Int.isCoprime_iff_gcd_eq_one.mp hco2
    have h4 : Int.gcd (((op1 % (p : Int)).toNat : Nat) : Int) (p : Int) = 1 := by
      rw [hcast]; exact h3
    rw [Nat.gcd_comm]
    have h5 : Int.gcd (((op1 % (p : Int)).toNat : Nat) : Int) (p : Int) =
        Nat.gcd (op1 % (p : Int)).toNat p := Int.gcd_natCast_natCast _ _
    rw [← h5]; exact h4
  rw [hg] at g1
  have hinv : mpz_invert rop op1 p =
      ((((xgcd_loop p p p (op1 % (p : Int)).toNat 0 1).2 % p : Nat) : Int), true) := by
    simp only [mpz_invert, Int.natAbs_ofNat, g1, if_true]
  rw [hinv]
  have hmodlt : (xgcd_loop p p p (op1 % (p : Int)).toNat 0 1).2 % p < p := Nat.mod_lt _ hp
  refine ⟨rfl, Int.natCast_nonneg _, ?_, ?_⟩
  · show (((xgcd_loop p p p (op1 % (p : Int)).toNat 0 1).2 % p : Nat) : Int) < (p : Int)
    exact_mod_cast hmodlt
  · rw [g1] at g2
    have h5 : (((xgcd_loop p p p (op1 % (p : Int)).toNat 0 1).2 % p : Nat) : Int) ≡
        ((xgcd_loop p p p (op1 % (p : Int)).toNat 0 1).2 : Int) [ZMOD p] := by
      push_cast
      exact Int.mod_modEq _ _
    calc op1 * (((xgcd_loop p p p (op1 % (p : Int)).toNat 0 1).2 % p : Nat) : Int)
        ≡ op1 * ((xgcd_loop p p p (op1 % (p : Int)).toNat 0 1).2 : Int) [ZMOD p] :=
          Int.ModEq.mul_left _ h5
      _ = ((xgcd_loop p p p (op1 % (p : Int)).toNat 0 1).2 : Int) * op1 := mul_comm _ _
      _ ≡ ((1 : Nat) : Int) [ZMOD p] := g2.symm
      _ = 1 := by simp

theorem zmod_inv_of_modEq {p : Nat} [Fact p.Prime] {x r : Int} 
    (h : x * r ≡ 1 [ZMOD p]) : (r : ZMod p) = (x : ZMod p)⁻¹ := by
  have h1 : ((x * r : Int) : ZMod p) = ((1 : Int) : ZMod p) :=
    (ZMod.intCast_eq_intCast_iff _ _ _).mpr h
  push_cast at h1
  exact eq_inv_of_mul_eq_one_right h1

theorem gcd_eq_one_of_cast_ne_zero {p : Nat} (hp : p.Prime) {x : Int}
    (h : (x : ZMod p) ≠ 0) : Int.gcd x p = 1 := by
  have hnd : ¬ (p : Int) ∣ x := fun hd => h ((ZMod.intCast_zmod_eq_zero_iff_dvd x p).mpr hd)
  have hnd' : ¬ p ∣ x.natAbs := fun hd => hnd (Int.natCast_dvd.mpr hd)
  have := (Nat.Prime.coprime_iff_not_dvd hp).mpr hnd'
  rw [Int.gcd_comm]
  simpa [Int.gcd] using this

/-- For a prime modulus and an operand that is not a multiple of it, `mpz_invert` stores
the representative in `[0, p)` of the field inverse. -/
theorem mpz_invert_prime {p : Nat} [Fact p.Prime] (rop x : Int) (h : (x : ZMod p) ≠ 0) :
    0 ≤ (mpz_invert rop x p).1 ∧ (mpz_invert rop x p).1 < p ∧
      (((mpz_invert rop x p).1 : Int) : ZMod p) = (x : ZMod p)⁻¹ := by
  have hp : p.Prime := Fact.out
  obtain ⟨_, h1, h2, h3⟩ := mpz_invert_of_coprime rop x p hp.pos (gcd_eq_one_of_cast_ne_zero hp h)
  exact ⟨h1, h2, zmod_inv_of_modEq h3⟩

theorem cast_ne_zero_of_range {p : Nat} {y : Int} (h0 : 0 ≤ y) (h1 : y < p) (hy : y ≠ 0) :
    (y : ZMod p) ≠ 0 := by
  intro h
  have hd := (ZMod.intCast_zmod_eq_zero_iff_dvd y p).mp h
  have := Int.le_of_dvd (lt_of_le_of_ne h0 (Ne.symm hy)) hd
  omega

theorem eq_of_cast_eq_of_range {p : Nat} {x y : Int} (hx0 : 0 ≤ x) (hx1 : x < p)
    (hy0 : 0 ≤ y) (hy1 : y < p) (h : (x : ZMod p) = (y : ZMod p)) : x = y := by
  have h1 := (ZMod.intCast_eq_intCast_iff _ _ _).mp h
  unfold Int.ModEq at h1
  rwa [Int.emod_eq_of_lt hx0 hx1, Int.emod_eq_of_lt hy0 hy1] at h1

theorem cast_mpz_mod {p : Nat} (x : Int) : ((mpz_mod x p : Int) : ZMod p) = (x : ZMod p) := by
  unfold mpz_mod
  exact ZMod.intCast_mod x p

theorem mpz_mod_range {p : Nat} (hp : 0 < p) (x : Int) : 0 ≤ mpz_mod x p ∧ mpz_mod x p < p := by
  unfold mpz_mod
  have hp' : (0 : Int) < p := by exact_mod_cast hp
  exact ⟨Int.emod_nonneg _ (ne_of_gt hp'), Int.emod_lt_of_pos _ hp'⟩

theorem two_ne_zero_zmod {p : Nat} [Fact p.Prime] (hp2 : p ≠ 2) : (2 : ZMod p) ≠ 0 := by
  intro h
  have h1 : ((2 : Nat) : ZMod p) = 0 := by exact_mod_cast h
  have h2 := (ZMod.natCast_zmod_eq_zero_iff_dvd 2 p).mp h1
  have hp : p.Prime := Fact.out
  have := (Nat.prime_dvd_prime_iff_eq hp Nat.prime_two).mp h2
  exact hp2 this

/-- What `point_doubling` computes on a finite point with `y ≠ 0`, in the field. -/
theorem point_doubling_finite {p : Nat} [Fact p.Prime] (hp2 : p ≠ 2) (a b n : Int)
    (P : Point) (hinf : P.infinity = false) (hy0 : 0 ≤ P.y) (hy1 : P.y < p) (hy : P.y ≠ 0) :
    ∃ R, point_doubling ⟨p, a, b, n⟩ P = R ∧ R.infinity = false ∧
      0 ≤ R.x ∧ R.x < p ∧ 0 ≤ R.y ∧ R.y < p ∧
      (R.x : ZMod p) = ((3 * (P.x : ZMod p) ^ 2 + a) / (2 * P.y)) ^ 2 - 2 * P.x ∧
      (R.y : ZMod p) = ((3 * (P.x : ZMod p) ^ 2 + a) / (2 * P.y)) * (P.x - R.x) - P.y := by
  have hp : p.Prime := Fact.out
  have hne : ((P.y * 2 : Int) : ZMod p) ≠ 0 := by
    push_cast
    exact mul_ne_zero (cast_ne_zero_of_range hy0 hy1 hy) (two_ne_zero_zmod hp2)
  obtain ⟨_, _, hinv⟩ := mpz_invert_prime (p := p) (P.y * 2) (P.y * 2) hne
  have hslope : ((mpz_mod ((P.x * P.x * 3 + a) * (mpz_invert (P.y * 2) (P.y * 2) p).1) p : Int)
      : ZMod p) = (3 * (P.x : ZMod p) ^ 2 + a) / (2 * P.y) := by
    rw [cast_mpz_mod]
    push_cast
    rw [hinv]
    push_cast
    rw [div_eq_mul_inv]
    ring
  refine ⟨_, rfl, ?_⟩
  simp only [point_doubling, point_is_infinity, hinf, hy, if_false, Bool.false_eq_true]
  refine ⟨trivial, (mpz_mod_range hp.pos _).1, (mpz_mod_range hp.pos _).2,
    (mpz_mod_range hp.pos _).1, (mpz_mod_range hp.pos _).2, ?_, ?_⟩
  · rw [cast_mpz_mod]
    push_cast
    rw [hslope]
    ring
  · rw [cast_mpz_mod]
    push_cast
    rw [hslope]

/-- What `point_addition` computes on two finite points with different `x`, in the
field. -/
theorem point_addition_finite {p : Nat} [Fact p.Prime] (a b n : Int) (P Q : Point)
    (hP : P.infinity = false) (hQ : Q.infinity = false)
    (hPx0 : 0 ≤ P.x) (hPx1 : P.x < p) (hQx0 : 0 ≤ Q.x) (hQx1 : Q.x < p) (hx : P.x ≠ Q.x) :
    ∃ R, point_addition ⟨p, a, b, n⟩ P Q = R ∧ R.infinity = false ∧
      0 ≤ R.x ∧ R.x < p ∧ 0 ≤ R.y ∧ R.y < p ∧
      (R.x : ZMod p) = (((Q.y : ZMod p) - P.y) / (Q.x - P.x)) ^ 2 - P.x - Q.x ∧
      (R.y : ZMod p) = (((Q.y : ZMod p) - P.y) / (Q.x - P.x)) * (P.x - R.x) - P.y := by
  have hp : p.Prime := Fact.out
  have hne : ((Q.x - P.x : Int) : ZMod p) ≠ 0 := by
    intro h
    have h' : (Q.x : ZMod p) = (P.x : ZMod p) := by
      push_cast at h
      exact sub_eq_zero.mp h
    exact hx (eq_of_cast_eq_of_range hQx0 hQx1 hPx0 hPx1 h').symm
  obtain ⟨_, _, hinv⟩ := mpz_invert_prime (p := p) (Q.x - P.x) (Q.x - P.x) hne
  have hslope : ((mpz_mod ((Q.y - P.y) * (mpz_invert (Q.x - P.x) (Q.x - P.x) p).1) p : Int)
      : ZMod p) = ((Q.y : ZMod p) - P.y) / (Q.x - P.x) := by
    rw [cast_mpz_mod]
    push_cast
    rw [hinv]
    push_cast
    rw [div_eq_mul_inv]
  refine ⟨_, rfl, ?_⟩
  simp only [point_addition, point_is_infinity, hP, hQ, hx, if_false, Bool.false_eq_true]
  refine ⟨trivial, (mpz_mod_range hp.pos _).1, (mpz_mod_range hp.pos _).2,
    (mpz_mod_range hp.pos _).1, (mpz_mod_range hp.pos _).2, ?_, ?_⟩
  · rw [cast_mpz_mod]
    push_cast
    rw [hslope]
    ring
  · rw [cast_mpz_mod]
    push_cast
    rw [hslope]

theorem rep_infinity {p : Nat} {a b : Int} {P : Point} (h : P.infinity = true) :
    Rep p a b P 0 := h

theorem rep_zero_iff {p : Nat} {a b : Int} {P : Point} :
    Rep p a b P 0 ↔ P.infinity = true := Iff.rfl

theorem rep_some_iff {p : Nat} {a b : Int} {P : Point} {X Y : ZMod p}
    (h : (curve p a b).Nonsingular X Y) :
    Rep p a b P (Point.some h) ↔ (P.infinity = false ∧ 0 ≤ P.x ∧ P.x < p ∧ 0 ≤ P.y ∧ P.y < p ∧
      (P.x : ZMod p) = X ∧ (P.y : ZMod p) = Y) := Iff.rfl

/-- `point_doubling` computes `P + P` of the curve group. -/
theorem rep_double {p : Nat} [Fact p.Prime] (hp2 : p ≠ 2) (a b n : Int) {P : Point}
    {P' : (curve p a b).Point} (h : Rep p a b P P') :
    Rep p a b (point_doubling ⟨p, a, b, n⟩ P) (P' + P') := by
  cases P' with
  | zero =>
    have hinf : P.infinity = true := h
    have : point_doubling ⟨p, a, b, n⟩ P = point_set_infinity := by
      simp [point_doubling, point_is_infinity, hinf]
    rw [this]
    exact rep_infinity rfl
  | @some X Y hN =>
    obtain ⟨hinf, hx0, hx1, hy0, hy1, hX, hY⟩ := (rep_some_iff hN).mp h
    by_cases hy : P.y = 0
    · have : point_doubling ⟨p, a, b, n⟩ P = point_set_infinity := by
        simp [point_doubling, point_is_infinity, hinf, hy]
      rw [this]
      have hYneg : Y = (curve p a b).negY X Y := by
        rw [← hY, hy]
        simp [curve]
      rw [Point.add_self_of_Y_eq hYneg]
      exact rep_infinity rfl
    · have hYne : Y ≠ (curve p a b).negY X Y := by
        intro hcon
        have h2 : 2 * Y = 0 := by
          have : (curve p a b).negY X Y = -Y := by simp [curve]
          rw [this] at hcon
          linear_combination hcon
        rcases mul_eq_zero.mp h2 with h3 | h3
        · exact two_ne_zero_zmod hp2 h3
        · rw [← hY] at h3
          exact cast_ne_zero_of_range hy0 hy1 hy h3
      obtain ⟨R, hR, hRinf, hRx0, hRx1, hRy0, hRy1, hRX, hRY⟩ :=
        point_doubling_finite hp2 a b n P hinf hy0 hy1 hy
      rw [hR, Point.add_self_of_Y_ne hYne]
      refine (rep_some_iff _).mpr ⟨hRinf, hRx0, hRx1, hRy0, hRy1, ?_, ?_⟩
      · rw [hRX, slope_of_Y_ne rfl hYne, hX, hY]
        simp [curve]
        ring
      · rw [hRY, hRX, slope_of_Y_ne rfl hYne, hX, hY]
        simp [curve]
        ring

theorem point_copy_eq (P : Point) : point_copy P = P := rfl

theorem mpz_mod_eq_zero_iff {p : Nat} (x : Int) : mpz_mod x p = 0 ↔ (x : ZMod p) = 0 := by
  unfold mpz_mod
  rw [ZMod.intCast_zmod_eq_zero_iff_dvd]
  exact ⟨Int.dvd_of_emod_eq_zero, Int.emod_eq_zero_of_dvd⟩

/-- `point_addition` computes `P + Q` of the curve group. -/
theorem rep_add {p : Nat} [Fact p.Prime] (hp2 : p ≠ 2) (a b n : Int) {P Q : Point}
    {P' Q' : (curve p a b).Point} (hP : Rep p a b P P') (hQ : Rep p a b Q Q') :
    Rep p a b (point_addition ⟨p, a, b, n⟩ P Q) (P' + Q') := by
  cases P' with
  | zero =>
    have hinf : P.infinity = true := hP
    have : point_addition ⟨p, a, b, n⟩ P Q = Q := by
      simp [point_addition, point_is_infinity, hinf, point_copy_eq]
    rw [this, Point.zero_def, zero_add]
    exact hQ
  | @some X₁ Y₁ hN₁ =>
    obtain ⟨hinf, hx0, hx1, hy0, hy1, hX, hY⟩ := (rep_some_iff hN₁).mp hP
    cases Q' with
    | zero =>
      have hinfQ : Q.infinity = true := hQ
      have : point_addition ⟨p, a, b, n⟩ P Q = P := by
        simp [point_addition, point_is_infinity, hinf, hinfQ, point_copy_eq]
      rw [this, Point.zero_def, add_zero]
      exact hP
    | @some X₂ Y₂ hN₂ =>
      obtain ⟨hinfQ, hqx0, hqx1, hqy0, hqy1, hX₂, hY₂⟩ := (rep_some_iff hN₂).mp hQ
      by_cases hx : P.x = Q.x
      · have hXX : X₁ = X₂ := by rw [← hX, ← hX₂, hx]
        by_cases hs : mpz_mod (P.y + Q.y) p = 0
        · have : point_addition ⟨p, a, b, n⟩ P Q = point_set_infinity := by
            simp [point_addition, point_is_infinity, hinf, hinfQ, hx, hs]
          rw [this]
          have hYY : Y₁ = (curve p a b).negY X₂ Y₂ := by
            have h1 := (mpz_mod_eq_zero_iff (p := p) _).mp hs
            push_cast at h1
            rw [hY, hY₂] at h1
            simp only [curve, negY]
            linear_combination h1
          rw [Point.add_of_Y_eq hXX hYY]
          exact rep_infinity rfl
        · have : point_addition ⟨p, a, b, n⟩ P Q = point_doubling ⟨p, a, b, n⟩ P := by
            simp [point_addition, point_is_infinity, hinf, hinfQ, hx, hs]
          rw [this]
          have hYne : Y₁ ≠ (curve p a b).negY X₂ Y₂ := by
            intro hcon
            apply hs
            apply (mpz_mod_eq_zero_iff (p := p) _).mpr
            push_cast
            rw [hY, hY₂, hcon]
            simp [curve]
          have hYY : Y₁ = Y₂ := Y_eq_of_Y_ne hN₁.1 hN₂.1 hXX hYne
          have hQP : Point.some hN₂ = Point.some hN₁ := by
            subst hXX hYY
            rfl
          rw [hQP]
          exact rep_double hp2 a b n hP
      · have hXX : X₁ ≠ X₂ := by
          intro hcon
          rw [← hX, ← hX₂] at hcon
          exact hx (eq_of_cast_eq_of_range hx0 hx1 hqx0 hqx1 hcon)
        obtain ⟨R, hR, hRinf, hRx0, hRx1, hRy0, hRy1, hRX, hRY⟩ :=
          point_addition_finite a b n P Q hinf hinfQ hx0 hx1 hqx0 hqx1 hx
        have hsl : (Y₁ - Y₂) / (X₁ - X₂) = (Y₂ - Y₁) / (X₂ - X₁) := by
          rw [← neg_sub Y₂ Y₁, ← neg_sub X₂ X₁, neg_div_neg_eq]
        rw [hR, Point.add_of_X_ne hXX]
        refine (rep_some_iff _).mpr ⟨hRinf, hRx0, hRx1, hRy0, hRy1, ?_, ?_⟩
        · rw [hRX, slope_of_X_ne hXX, hsl, hX, hY, hX₂, hY₂]
          simp [curve]
        · rw [hRY, hRX, slope_of_X_ne hXX, hsl, hX, hY, hX₂, hY₂]
          simp [curve]
          ring

/-- Two C points that represent the same point of the curve are the same point. -/
theorem rep_inj {p : Nat} {a b : Int} {P Q : Point} {R' : (curve p a b).Point}
    (hP : Rep p a b P R') (hQ : Rep p a b Q R') : SamePoint P Q := by
  cases R' with
  | zero => exact Or.inl ⟨hP, hQ⟩
  | @some X Y hN =>
    obtain ⟨h1, h2, h3, h4, h5, h6, h7⟩ := (rep_some_iff hN).mp hP
    obtain ⟨g1, g2, g3, g4, g5, g6, g7⟩ := (rep_some_iff hN).mp hQ
    right
    cases P
    cases Q
    simp only [Point.mk.injEq]
    simp only at h1 h2 h3 h4 h5 h6 h7 g1 g2 g3 g4 g5 g6 g7
    exact ⟨eq_of_cast_eq_of_range h2 h3 g2 g3 (h6.trans g6.symm),
      eq_of_cast_eq_of_range h4 h5 g4 g5 (h7.trans g7.symm), h1.trans g1.symm⟩

/-- The multiples `k·P` by repeated `point_addition` are the multiples of the curve
group. -/
theorem rep_multiple {p : Nat} [Fact p.Prime] (hp2 : p ≠ 2) (a b n : Int) {P : Point}
    {P' : (curve p a b).Point} (hP : Rep p a b P P') (k : Nat) :
    Rep p a b (multiple ⟨p, a, b, n⟩ P k) (k • P') := by
  induction k with
  | zero =>
    rw [zero_nsmul]
    exact rep_infinity rfl
  | succ k ih =>
    rw [succ_nsmul]
    exact rep_add hp2 a b n ih hP

theorem lt_two_pow_bit_length (fuel n : Nat) (h : n ≤ fuel) : n < 2 ^ bit_length fuel n := by
  induction fuel generalizing n with
  | zero =>
    have : n = 0 := Nat.le_zero.mp h
    subst this
    simp [bit_length]
  | succ fuel ih =>
    by_cases hn : n = 0
    · subst hn
      simp [bit_length]
    · rw [bit_length, if_neg hn, pow_succ]
      have := ih (n / 2) (by omega)
      omega

theorem lt_two_pow_sizeinbase2 (k : Nat) : k < 2 ^ mpz_sizeinbase2 (k : Int) := by
  unfold mpz_sizeinbase2
  by_cases hk : k = 0
  · subst hk
    simp
  · have : (k : Int) ≠ 0 := by exact_mod_cast hk
    rw [if_neg this, Int.natAbs_ofNat]
    exact lt_two_pow_bit_length k k le_rfl

theorem mpz_tstbit_natCast (k i : Nat) : mpz_tstbit (k : Int) i = Nat.testBit k i := rfl

theorem mod_two_pow_succ (k i : Nat) :
    k % 2 ^ (i + 1) = (if Nat.testBit k i then 2 ^ i else 0) + k % 2 ^ i := by
  rw [Nat.mod_pow_succ, Nat.testBit_to_div_mod]
  rcases Nat.mod_two_eq_zero_or_one (k / 2 ^ i) with h | h <;> simp [h, add_comm]

/-- The loop of `scalar_multiplication` run for the low `i` bits of `k` from the
accumulator `R` computes `2^i·R + (k mod 2^i)·P` of the curve group. -/
theorem rep_scalar_loop {p : Nat} [Fact p.Prime] (hp2 : p ≠ 2) (a b n : Int) {P : Point}
    {P' : (curve p a b).Point} (hP : Rep p a b P P') (k : Nat) (i : Nat) {R : Point}
    {R' : (curve p a b).Point} (hR : Rep p a b R R') :
    Rep p a b (scalar_multiplication_loop ⟨p, a, b, n⟩ P (k : Int) i R)
      (2 ^ i • R' + (k % 2 ^ i) • P') := by
  induction i generalizing R R' with
  | zero =>
    simp only [scalar_multiplication_loop, pow_zero, one_smul, Nat.mod_one, zero_nsmul,
      add_zero]
    exact hR
  | succ i ih =>
    rw [scalar_multiplication_loop]
    simp only [point_copy_eq, mpz_tstbit_natCast]
    -- the doubling step
    have hD : Rep p a b
        (if (!point_is_infinity R) = true then point_doubling ⟨p, a, b, n⟩ R else R)
        (R' + R') := by
      by_cases hinf : R.infinity = true
      · have hR0 : R' = 0 := by
          cases R' with
          | zero => rfl
          | @some X Y hN =>
            have := ((rep_some_iff hN).mp hR).1
            rw [hinf] at this
            exact absurd this (by simp)
        simp only [point_is_infinity, hinf, Bool.not_true, Bool.false_eq_true, if_false]
        rw [hR0, add_zero]
        exact rep_infinity hinf
      · simp only [point_is_infinity, Bool.not_eq_true] at hinf ⊢
        simp only [hinf, Bool.not_false, if_true]
        exact rep_double hp2 a b n hR
    generalize (if (!point_is_infinity R) = true then point_doubling ⟨p, a, b, n⟩ R else R)
      = D at hD ⊢
    -- the conditional addition
    have hA : Rep p a b
        (if Nat.testBit k i = true then
          (if point_is_infinity D = true then P else point_addition ⟨p, a, b, n⟩ D P)
         else D)
        ((R' + R') + (if Nat.testBit k i then 1 else 0) • P') := by
      by_cases hb : Nat.testBit k i = true
      · simp only [hb, if_true, one_nsmul]
        by_cases hinf : D.infinity = true
        · have hadd := rep_add hp2 a b n hD hP
          have : point_addition ⟨p, a, b, n⟩ D P = P := by
            simp [point_addition, point_is_infinity, hinf, point_copy_eq]
          rw [this] at hadd
          simpa [point_is_infinity, hinf] using hadd
        · simp only [point_is_infinity, hinf, if_false]
          exact rep_add hp2 a b n hD hP
      · simp only [hb, if_false, zero_nsmul, add_zero, Bool.false_eq_true]
        exact hD
    have key := ih hA
    have e : 2 ^ i • (R' + R' + (if Nat.testBit k i = true then 1 else 0) • P') +
        (k % 2 ^ i) • P' = 2 ^ (i + 1) • R' + (k % 2 ^ (i + 1)) • P' := by
      rw [mod_two_pow_succ, pow_succ]
      by_cases hb : Nat.testBit k i = true
      · simp only [hb, if_true, one_nsmul]
        rw [mul_nsmul', two_nsmul, add_nsmul, nsmul_add, nsmul_add]
        abel
      · simp only [hb, if_false, zero_nsmul, add_zero, zero_add, Bool.false_eq_true]
        rw [mul_nsmul', two_nsmul]
    rw [← e]
    exact key

/-- `scalar_multiplication` computes `k·P` of the curve group. -/
theorem rep_scalar_multiplication {p : Nat} [Fact p.Prime] (hp2 : p ≠ 2) (a b n : Int)
    {P : Point} {P' : (curve p a b).Point} (hP : Rep p a b P P') (k : Nat) :
    Rep p a b (scalar_multiplication ⟨p, a, b, n⟩ P (k : Int)) (k • P') := by
  have h := rep_scalar_loop hp2 a b n hP k (mpz_sizeinbase2 (k : Int))
    (rep_infinity (p := p) (a := a) (b := b) (P := point_set_infinity) rfl)
  rw [nsmul_zero, zero_add, Nat.mod_eq_of_lt (lt_two_pow_sizeinbase2 k)] at h
  exact h

theorem equation_iff_onCurve {p : Nat} (a b n : Int) (P : Point) :
    (curve p a b).Equation (P.x : ZMod p) (P.y : ZMod p) ↔ OnCurve ⟨p, a, b, n⟩ P := by
  rw [equation_iff]
  simp only [curve, OnCurve, zero_mul, add_zero, mul_zero]
  rw [← ZMod.intCast_eq_intCast_iff]
  push_cast
  exact Iff.rfl

theorem curve_Δ (p : Nat) (a b : Int) :
    (curve p a b).Δ = -16 * ((4 * a ^ 3 + 27 * b ^ 2 : Int) : ZMod p) := by
  simp only [WeierstrassCurve.Δ, WeierstrassCurve.b₂, WeierstrassCurve.b₄,
    WeierstrassCurve.b₆, WeierstrassCurve.b₈, curve]
  push_cast
  ring

theorem curve_Δ_ne_zero {p : Nat} [Fact p.Prime] (hp2 : p ≠ 2) (a b : Int)
    (hdisc : ¬ (4 * a ^ 3 + 27 * b ^ 2 ≡ 0 [ZMOD p])) : (curve p a b).Δ ≠ 0 := by
  rw [curve_Δ]
  have h2 := two_ne_zero_zmod hp2
  have h16 : (-16 : ZMod p) ≠ 0 := by
    have : (-16 : ZMod p) = -(2 ^ 4) := by norm_num
    rw [this]
    exact neg_ne_zero.mpr (pow_ne_zero 4 h2)
  refine mul_ne_zero h16 ?_
  intro h
  apply hdisc
  have : ((4 * a ^ 3 + 27 * b ^ 2 : Int) : ZMod p) = ((0 : Int) : ZMod p) := by
    rw [h]; simp
  exact (ZMod.intCast_eq_intCast_iff _ _ _).mp this

/-- Every valid C point represents a point of the curve group. -/
theorem rep_exists {p : Nat} [Fact p.Prime] (hp2 : p ≠ 2) (a b n : Int)
    (hdisc : ¬ (4 * a ^ 3 + 27 * b ^ 2 ≡ 0 [ZMOD p])) (P : Point)
    (hP : P.infinity = true ∨ (InField ⟨p, a, b, n⟩ P ∧ OnCurve ⟨p, a, b, n⟩ P)) :
    ∃ P' : (curve p a b).Point, Rep p a b P P' := by
  by_cases hinf : P.infinity = true
  · exact ⟨0, rep_infinity hinf⟩
  · rcases hP with h | ⟨⟨h1, h2, h3, h4⟩, hc⟩
    · exact absurd h hinf
    · have hE := (equation_iff_onCurve a b n P).mpr hc
      have hN := nonsingular_of_Δ_ne_zero (curve p a b) hE (curve_Δ_ne_zero hp2 a b hdisc)
      exact ⟨Point.some hN, (rep_some_iff hN).mpr
        ⟨by simpa using hinf, h1, h2, h3, h4, rfl, rfl⟩⟩

/-- A C point that represents a point of the curve group is the point at infinity or a
point of the curve with coordinates in `[0, p)`. -/
theorem valid_of_rep {p : Nat} {a b : Int} (n : Int) {P : Point} {P' : (curve p a b).Point}
    (h : Rep p a b P P') :
    P.infinity = true ∨ (P.infinity = false ∧ InField ⟨p, a, b, n⟩ P ∧ OnCurve ⟨p, a, b, n⟩ P) := by
  cases P' with
  | zero => exact Or.inl h
  | @some X Y hN =>
    obtain ⟨h1, h2, h3, h4, h5, h6, h7⟩ := (rep_some_iff hN).mp h
    refine Or.inr ⟨h1, ⟨h2, h3, h4, h5⟩, ?_⟩
    apply (equation_iff_onCurve a b n P).mp
    rw [h6, h7]
    exact hN.1

/-- Double-and-add agrees with repeated addition. -/
theorem scalar_multiplication_eq_multiple (p : Nat) (a b n : Int) (hp : p.Prime)
    (hp2 : p ≠ 2) (hdisc : ¬ (4 * a ^ 3 + 27 * b ^ 2 ≡ 0 [ZMOD p])) (P : Point)
    (hP : P.infinity = true ∨ (InField ⟨p, a, b, n⟩ P ∧ OnCurve ⟨p, a, b, n⟩ P)) (k : Nat) :
    SamePoint (scalar_multiplication ⟨p, a, b, n⟩ P (k : Int)) (multiple ⟨p, a, b, n⟩ P k) := by
  haveI : Fact p.Prime := ⟨hp⟩
  obtain ⟨P', hP'⟩ := rep_exists hp2 a b n hdisc P hP
  exact rep_inj (rep_scalar_multiplication hp2 a b n hP' k) (rep_multiple hp2 a b n hP' k)

/-- `point_doubling` keeps a finite point of the curve on the curve. -/
theorem onCurve_double {p : Nat} [Fact p.Prime] (hp2 : p ≠ 2) (a b n : Int) (P : Point)
    (hinf : P.infinity = false) (hF : InField ⟨p, a, b, n⟩ P) (hC : OnCurve ⟨p, a, b, n⟩ P) :
    (point_doubling ⟨p, a, b, n⟩ P).infinity = true ∨
      ((point_doubling ⟨p, a, b, n⟩ P).infinity = false ∧
        InField ⟨p, a, b, n⟩ (point_doubling ⟨p, a, b, n⟩ P) ∧
        OnCurve ⟨p, a, b, n⟩ (point_doubling ⟨p, a, b, n⟩ P)) := by
  obtain ⟨hx0, hx1, hy0, hy1⟩ := hF
  by_cases hy : P.y = 0
  · left
    simp [point_doubling, point_is_infinity, hinf, hy, point_set_infinity]
  · right
    have hE := (equation_iff_onCurve a b n P).mpr hC
    have hYne : (P.y : ZMod p) ≠ (curve p a b).negY (P.x : ZMod p) (P.y : ZMod p) := by
      intro hcon
      have h2 : 2 * (P.y : ZMod p) = 0 := by
        have : (curve p a b).negY (P.x : ZMod p) (P.y : ZMod p) = -(P.y : ZMod p) := by
          simp [curve]
        rw [this] at hcon
        linear_combination hcon
      rcases mul_eq_zero.mp h2 with h3 | h3
      · exact two_ne_zero_zmod hp2 h3
      · exact cast_ne_zero_of_range hy0 hy1 hy h3
    obtain ⟨R, hR, hRinf, hRx0, hRx1, hRy0, hRy1, hRX, hRY⟩ :=
      point_doubling_finite hp2 a b n P hinf hy0 hy1 hy
    rw [hR]
    refine ⟨hRinf, ⟨hRx0, hRx1, hRy0, hRy1⟩, ?_⟩
    apply (equation_iff_onCurve a b n R).mp
    have hadd := equation_add hE hE (fun _ => hYne)
    rw [slope_of_Y_ne rfl hYne] at hadd
    have e1 : (R.x : ZMod p) = (curve p a b).addX (P.x : ZMod p) (P.x : ZMod p)
        ((3 * (P.x : ZMod p) ^ 2 + 2 * (curve p a b).a₂ * (P.x : ZMod p) + (curve p a b).a₄ -
          (curve p a b).a₁ * (P.y : ZMod p)) /
          ((P.y : ZMod p) - (curve p a b).negY (P.x : ZMod p) (P.y : ZMod p))) := by
      rw [hRX]
      simp [curve]
      ring
    have e2 : (R.y : ZMod p) = (curve p a b).addY (P.x : ZMod p) (P.x : ZMod p) (P.y : ZMod p)
        ((3 * (P.x : ZMod p) ^ 2 + 2 * (curve p a b).a₂ * (P.x : ZMod p) + (curve p a b).a₄ -
          (curve p a b).a₁ * (P.y : ZMod p)) /
          ((P.y : ZMod p) - (curve p a b).negY (P.x : ZMod p) (P.y : ZMod p))) := by
      rw [hRY, hRX]
      simp [curve]
      ring
    rw [e1, e2]
    exact hadd

/-- `point_addition` keeps finite points of the curve on the curve. -/
theorem onCurve_add {p : Nat} [Fact p.Prime] (hp2 : p ≠ 2) (a b n : Int) (P Q : Point)
    (hinf : P.infinity = false) (hF : InField ⟨p, a, b, n⟩ P) (hC : OnCurve ⟨p, a, b, n⟩ P)
    (hinfQ : Q.infinity = false) (hFQ : InField ⟨p, a, b, n⟩ Q)
    (hCQ : OnCurve ⟨p, a, b, n⟩ Q) :
    (point_addition ⟨p, a, b, n⟩ P Q).infinity = true ∨
      ((point_addition ⟨p, a, b, n⟩ P Q).infinity = false ∧
        InField ⟨p, a, b, n⟩ (point_addition ⟨p, a, b, n⟩ P Q) ∧
        OnCurve ⟨p, a, b, n⟩ (point_addition ⟨p, a, b, n⟩ P Q)) := by
  by_cases hx : P.x = Q.x
  · by_cases hs : mpz_mod (P.y + Q.y) p = 0
    · left
      simp [point_addition, point_is_infinity, hinf, hinfQ, hx, hs, point_set_infinity]
    · have : point_addition ⟨p, a, b, n⟩ P Q = point_doubling ⟨p, a, b, n⟩ P := by
        simp [point_addition, point_is_infinity, hinf, hinfQ, hx, hs]
      rw [this]
      exact onCurve_double hp2 a b n P hinf hF hC
  · right
    obtain ⟨hx0, hx1, hy0, hy1⟩ := hF
    obtain ⟨hqx0, hqx1, hqy0, hqy1⟩ := hFQ
    have hE := (equation_iff_onCurve a b n P).mpr hC
    have hEQ := (equation_iff_onCurve a b n Q).mpr hCQ
    have hXX : (P.x : ZMod p) ≠ (Q.x : ZMod p) := fun hcon =>
      hx (eq_of_cast_eq_of_range hx0 hx1 hqx0 hqx1 hcon)
    obtain ⟨R, hR, hRinf, hRx0, hRx1, hRy0, hRy1, hRX, hRY⟩ :=
      point_addition_finite a b n P Q hinf hinfQ hx0 hx1 hqx0 hqx1 hx
    rw [hR]
    refine ⟨hRinf, ⟨hRx0, hRx1, hRy0, hRy1⟩, ?_⟩
    apply (equation_iff_onCurve a b n R).mp
    have hadd := equation_add hE hEQ (fun h => absurd h hXX)
    rw [slope_of_X_ne hXX] at hadd
    have hsl : ((P.y : ZMod p) - Q.y) / ((P.x : ZMod p) - Q.x) =
        ((Q.y : ZMod p) - P.y) / ((Q.x : ZMod p) - P.x) := by
      rw [← neg_sub (Q.y : ZMod p) P.y, ← neg_sub (Q.x : ZMod p) P.x, neg_div_neg_eq]
    rw [hsl] at hadd
    have e1 : (R.x : ZMod p) = (curve p a b).addX (P.x : ZMod p) (Q.x : ZMod p)
        (((Q.y : ZMod p) - P.y) / ((Q.x : ZMod p) - P.x)) := by
      rw [hRX]
      simp [curve]
    have e2 : (R.y : ZMod p) = (curve p a b).addY (P.x : ZMod p) (Q.x : ZMod p) (P.y : ZMod p)
        (((Q.y : ZMod p) - P.y) / ((Q.x : ZMod p) - P.x)) := by
      rw [hRY, hRX]
      simp [curve]
      ring
    rw [e1, e2]
    exact hadd

/-! ## Evaluation with supplied inverses -/

theorem mpz_invert_unique (rop x h : Int) (p : Nat) (hp : 0 < p)
    (hh : is_inverse x h p = true) : (mpz_invert rop x p).1 = h := by
  unfold is_inverse at hh
  obtain ⟨h0, h1, h2⟩ := of_decide_eq_true hh
  have hp1 : (1 : Int) % (p : Int) = 1 := by
    by_cases hp' : p = 1
    · subst hp'
      simp at h2
    · have : (1 : Int) < (p : Int) := by
        have : 1 < p := by omega
        exact_mod_cast this
      exact Int.emod_eq_of_lt (by norm_num) this
  have hmod : x * h ≡ 1 [ZMOD p] := by
    unfold Int.ModEq
    rw [h2, hp1]
  have hco : Int.gcd x p = 1 := by
    apply Int.isCoprime_iff_gcd_eq_one.mp
    have hd : (p : Int) ∣ x * h - 1 := (Int.modEq_iff_dvd.mp hmod.symm)
    obtain ⟨c, hc⟩ := hd
    exact ⟨h, -c, by linear_combination hc⟩
  obtain ⟨_, g0, g1, g2⟩ := mpz_invert_of_coprime rop x p hp hco
  have e : (mpz_invert rop x p).1 ≡ h [ZMOD p] := by
    calc (mpz_invert rop x p).1 = (mpz_invert rop x p).1 * 1 := (mul_one _).symm
      _ ≡ (mpz_invert rop x p).1 * (x * h) [ZMOD p] := Int.ModEq.mul_left _ hmod.symm
      _ = x * (mpz_invert rop x p).1 * h := by ring
      _ ≡ 1 * h [ZMOD p] := Int.ModEq.mul_right _ g2
      _ = h := one_mul _
  unfold Int.ModEq at e
  rwa [Int.emod_eq_of_lt g0 g1, Int.emod_eq_of_lt h0 h1] at e

theorem natCast_toNat_of_pos {z : Int} (hz : 0 < z) : ((z.toNat : Nat) : Int) = z :=
  Int.toNat_of_nonneg (le_of_lt hz)

theorem point_doubling_hint_sound (EC : EllipticCurve) (hp : 0 < EC.p) (P R : Point)
    (h : Int) (hR : point_doubling_hint EC P h = some R) : point_doubling EC P = R := by
  unfold point_doubling_hint at hR
  unfold point_doubling
  dsimp only at hR ⊢
  by_cases h1 : point_is_infinity P = true
  · rw [if_pos h1] at hR ⊢
    exact Option.some.inj hR
  · rw [if_neg h1] at hR ⊢
    by_cases h2 : P.y = 0
    · rw [if_pos h2] at hR ⊢
      exact Option.some.inj hR
    · rw [if_neg h2] at hR ⊢
      by_cases h3 : is_inverse (P.y * 2) h EC.p = true
      · rw [if_pos h3] at hR
        have hinv : (mpz_invert (P.y * 2) (P.y * 2) EC.p).1 = h := by
          have := mpz_invert_unique (P.y * 2) (P.y * 2) h EC.p.toNat
            (by have := natCast_toNat_of_pos hp; omega)
            (by rw [natCast_toNat_of_pos hp]; exact h3)
          rwa [natCast_toNat_of_pos hp] at this
        rw [hinv]
        exact Option.some.inj hR
      · rw [if_neg h3] at hR
        exact absurd hR (by simp)

theorem point_addition_hint_sound (EC : EllipticCurve) (hp : 0 < EC.p) (P Q R : Point)
    (h : Int) (hR : point_addition_hint EC P Q h = some R) : point_addition EC P Q = R := by
  unfold point_addition_hint at hR
  unfold point_addition
  dsimp only at hR ⊢
  by_cases h1 : point_is_infinity P = true
  · rw [if_pos h1] at hR ⊢
    exact Option.some.inj hR
  · rw [if_neg h1] at hR ⊢
    by_cases h2 : point_is_infinity Q = true
    · rw [if_pos h2] at hR ⊢
      exact Option.some.inj hR
    · rw [if_neg h2] at hR ⊢
      by_cases h3 : P.x = Q.x
      · rw [if_pos h3] at hR ⊢
        by_cases h4 : mpz_mod (P.y + Q.y) EC.p = 0
        · rw [if_pos h4] at hR ⊢
          exact Option.some.inj hR
        · rw [if_neg h4] at hR ⊢
          exact point_doubling_hint_sound EC hp P R h hR
      · rw [if_neg h3] at hR ⊢
        by_cases h5 : is_inverse (Q.x - P.x) h EC.p = true
        · rw [if_pos h5] at hR
          have hinv : (mpz_invert (Q.x - P.x) (Q.x - P.x) EC.p).1 = h := by
            have := mpz_invert_unique (Q.x - P.x) (Q.x - P.x) h EC.p.toNat
              (by have := natCast_toNat_of_pos hp; omega)
              (by rw [natCast_toNat_of_pos hp]; exact h5)
            rwa [natCast_toNat_of_pos hp] at this
          rw [hinv]
          exact Option.some.inj hR
        · rw [if_neg h5] at hR
          exact absurd hR (by simp)

theorem scalar_multiplication_loop_hint_sound (EC : EllipticCurve) (hp : 0 < EC.p)
    (Q : Point) (m : Int) (i : Nat) (R : Point) (hints : List (Int × Int)) (S : Point)
    (hS : scalar_multiplication_loop_hint EC Q m i R hints = some S) :
    scalar_multiplication_loop EC Q m i R = S := by
  induction i generalizing R hints with
  | zero =>
    simp only [scalar_multiplication_loop_hint, Option.some.injEq] at hS
    simpa [scalar_multiplication_loop] using hS
  | succ i ih =>
    cases hints with
    | nil => simp [scalar_multiplication_loop_hint] at hS
    | cons h hs =>
      rw [scalar_multiplication_loop_hint] at hS
      rw [scalar_multiplication_loop]
      split at hS
      · exact absurd hS (by simp)
      · rename_i D hD
        split at hS
        · exact absurd hS (by simp)
        · rename_i A hA
          have hD' : (if (!point_is_infinity R) = true then point_copy (point_doubling EC R)
              else R) = D := by
            by_cases hi : (!point_is_infinity R) = true
            · rw [if_pos hi] at hD ⊢
              exact point_doubling_hint_sound EC hp R D h.1 hD
            · rw [if_neg hi] at hD ⊢
              exact Option.some.inj hD
          have hA' : (if mpz_tstbit m i = true then
              if point_is_infinity D = true then point_copy Q
              else point_copy (point_addition EC D Q)
            else D) = A := by
            by_cases hb : mpz_tstbit m i = true
            · rw [if_pos hb] at hA ⊢
              by_cases hi : point_is_infinity D = true
              · rw [if_pos hi] at hA ⊢
                exact Option.some.inj hA
              · rw [if_neg hi] at hA ⊢
                exact point_addition_hint_sound EC hp D Q A h.2 hA
            · rw [if_neg hb] at hA ⊢
              exact Option.some.inj hA
          rw [hD', hA']
          exact ih A hs hS

/-- A point returned by the evaluation with hints is the point `scalar_multiplication`
returns. -/
theorem scalar_multiplication_hint_sound (EC : EllipticCurve) (hp : 0 < EC.p) (P : Point)
    (m : Int) (hints : List (Int × Int)) (S : Point)
    (hS : scalar_multiplication_hint EC P m hints = some S) :
    scalar_multiplication EC P m = S :=
  scalar_multiplication_loop_hint_sound EC hp _ m _ _ hints S hS

/-! ## Primality certificates -/

set_option maxRecDepth 100000 in
theorem secp256k1_certificates_ok :
    lucas_chain_ok [] secp256k1_prime_certificates = true := by decide!

theorem powmod_eq (a m : Nat) (fuel e : Nat) (h : e ≤ fuel) :
    powmod a m fuel e = a ^ e % m := by
  induction fuel generalizing e with
  | zero =>
    have : e = 0 := Nat.le_zero.mp h
    subst this
    simp [powmod]
  | succ fuel ih =>
    by_cases he : e = 0
    · subst he
      simp [powmod]
    · rw [powmod, if_neg he]
      have ih' := ih (e / 2) (by omega)
      simp only [ih']
      have hsq : a ^ (e / 2) % m * (a ^ (e / 2) % m) % m = a ^ (2 * (e / 2)) % m := by
        rw [← Nat.mul_mod, ← pow_add, two_mul]
      by_cases hodd : e % 2 = 1
      · rw [if_pos hodd, hsq, Nat.mod_mul_mod, ← pow_succ]
        congr 2
        omega
      · rw [if_neg hodd, hsq]
        congr 2
        omega

theorem no_divisor_from_sound (n : Nat) (fuel d : Nat) (h : no_divisor_from n fuel d = true)
    (k : Nat) (hk : d ≤ k) (hkk : k * k ≤ n) : ¬ k ∣ n := by
  induction fuel generalizing d with
  | zero =>
    simp only [no_divisor_from, decide_eq_true_eq] at h
    have : d * d ≤ k * k := Nat.mul_le_mul hk hk
    omega
  | succ fuel ih =>
    rw [no_divisor_from] at h
    by_cases h1 : n < d * d
    · have : d * d ≤ k * k := Nat.mul_le_mul hk hk
      omega
    · rw [if_neg h1] at h
      by_cases h2 : n % d = 0
      · rw [if_pos h2] at h
        exact absurd h (by simp)
      · rw [if_neg h2] at h
        rcases Nat.eq_or_lt_of_le hk with hdk | hdk
        · subst hdk
          intro hdvd
          exact h2 (Nat.mod_eq_zero_of_dvd hdvd)
        · exact ih (d + 1) h hdk

theorem is_small_prime_sound (n : Nat) (h : is_small_prime n = true) : n.Prime := by
  unfold is_small_prime at h
  rw [Bool.and_eq_true, decide_eq_true_eq] at h
  obtain ⟨h2, hdiv⟩ := h
  rw [Nat.prime_def_le_sqrt]
  refine ⟨h2, fun m hm hms => ?_⟩
  exact no_divisor_from_sound n n 2 hdiv m hm (Nat.le_sqrt.mp hms)

theorem lucas_entry_sound (known : List Nat) (hknown : ∀ k ∈ known, k.Prime) (c : LucasEntry)
    (h : lucas_entry_ok known c = true) : c.q.Prime := by
  unfold lucas_entry_ok at h
  simp only [Bool.and_eq_true, decide_eq_true_eq, List.all_eq_true, Bool.or_eq_true] at h
  obtain ⟨⟨⟨h2, hprod⟩, hpow⟩, hfac⟩ := h
  have hq1 : 1 % c.q = 1 := Nat.mod_eq_of_lt (by omega)
  apply lucas_primality c.q (c.a : ZMod c.q)
  · rw [powmod_eq _ _ _ _ le_rfl] at hpow
    have : ((c.a ^ (c.q - 1) : Nat) : ZMod c.q) = ((1 : Nat) : ZMod c.q) := by
      rw [ZMod.natCast_eq_natCast_iff', hpow, hq1]
    simpa using this
  · intro r hr hdvd hcon
    rw [← hprod] at hdvd
    obtain ⟨x, hx, hrx⟩ := (Prime.dvd_prod_iff (Nat.prime_iff.mp hr)).mp hdvd
    obtain ⟨f, hf, rfl⟩ := List.mem_map.mp hx
    have hrf : r ∣ f.1 := hr.dvd_of_dvd_pow hrx
    obtain ⟨hfp, hne⟩ := hfac f hf
    have hfprime : f.1.Prime := by
      rcases hfp with hk | hs
      · exact hknown _ (by simpa using hk)
      · exact is_small_prime_sound _ hs
    have hrf' : r = f.1 := (Nat.prime_dvd_prime_iff_eq hr hfprime).mp hrf
    subst hrf'
    apply hne
    rw [powmod_eq _ _ _ _ (Nat.div_le_self _ _)]
    have : ((c.a ^ ((c.q - 1) / f.1) : Nat) : ZMod c.q) = ((1 : Nat) : ZMod c.q) := by
      simpa using hcon
    rw [ZMod.natCast_eq_natCast_iff', hq1] at this
    exact this

theorem lucas_chain_sound (known : List Nat) (hknown : ∀ k ∈ known, k.Prime)
    (cs : List LucasEntry) (h : lucas_chain_ok known cs = true) :
    ∀ c ∈ cs, c.q.Prime := by
  induction cs generalizing known with
  | nil => simp
  | cons c cs ih =>
    rw [lucas_chain_ok, Bool.and_eq_true] at h
    have hc := lucas_entry_sound known hknown c h.1
    intro d hd
    rcases List.mem_cons.mp hd with hdc | hd
    · rw [hdc]
      exact hc
    · refine ih (c.q :: known) ?_ h.2 d hd
      intro k hk
      rcases List.mem_cons.mp hk with hkc | hk
      · rw [hkc]
        exact hc
      · exact hknown k hk

/-! ## SHA-256, `hex2bin` and WIF -/

theorem sha256_length (data : List Byte) : (sha256 data).length = 32 := by
  simp [sha256, sha256_endian_reverse32]

theorem alphabetAt_zero : alphabetAt 0 = '1' := by decide

theorem symbol_indices_map (ds : List Nat) (hds : ∀ d ∈ ds, d < 58) :
    symbol_indices (ds.map alphabetAt) = some ds := by
  induction ds with
  | nil => rfl
  | cons d ds ih =>
    have hd := strchr_alphabetAt ⟨d, hds d (by simp)⟩
    simp only at hd
    simp only [List.map_cons, symbol_indices, hd, ih (fun x hx => hds x (by simp [hx]))]

theorem toByte_val (x : Byte) : toByte x.val = x := by
  apply Fin.ext
  exact toByte_val_of_lt x.isLt

theorem spec_base58_encode_eq (b : List Byte) :
    spec_base58_encode b =
      (List.replicate (leadingZeros b) 0 ++ (Nat.digits 58 (beVal b)).reverse).map
        alphabetAt := by
  rw [spec_base58_encode, List.map_append, List.map_replicate, alphabetAt_zero]

theorem digits58_lt (v : Nat) :
    ∀ d ∈ List.replicate (leadingZeros b) 0 ++ (Nat.digits 58 v).reverse, d < 58 := by
  intro d hd
  rcases List.mem_append.mp hd with h | h
  · rw [List.eq_of_mem_replicate h]; norm_num
  · exact Nat.digits_lt_base (by norm_num) (List.mem_reverse.mp h)

/-- The decoding of section 4.5 inverts the encoding of section 4.5. -/
theorem spec_base58_decode_encode (b : List Byte) :
    spec_base58_decode (spec_base58_encode b) = some b := by
  have hds := digits58_lt (b := b) (beVal b)
  have hz : ((spec_base58_encode b).takeWhile (fun c => c = '1')).length = leadingZeros b := by
    rw [spec_base58_encode_eq, ← alphabetAt_zero, takeWhile_one_alphabet _ hds,
      List.takeWhile_append_of_pos (by
        intro a ha
        simp [List.eq_of_mem_replicate ha]), takeWhile_zero_digits_reverse]
    simp
  have hdrop : (spec_base58_encode b).drop (leadingZeros b) =
      (Nat.digits 58 (beVal b)).reverse.map alphabetAt := by
    rw [spec_base58_encode]
    exact List.drop_left' (by simp)
  have hidx : symbol_indices ((Nat.digits 58 (beVal b)).reverse.map alphabetAt) =
      some (Nat.digits 58 (beVal b)).reverse :=
    symbol_indices_map _ (fun d hd => Nat.digits_lt_base (by norm_num) (List.mem_reverse.mp hd))
  have hval : accum58 0 (Nat.digits 58 (beVal b)).reverse = beVal b := by
    rw [accum58_eq, zero_mul, zero_add, List.reverse_reverse, Nat.ofDigits_digits]
  have hbytes : (Nat.digits 256 (beVal b)).reverse.map toByte = b.drop (leadingZeros b) := by
    have hn : NoLeadingZero (b.drop (leadingZeros b)) := by
      rw [drop_leadingZeros]; exact noLeadingZero_dropWhile _
    have := digits_beVal hn
    rw [beVal_drop_leadingZeros] at this
    rw [this]
    simp only [List.map_reverse, List.reverse_reverse, List.map_map]
    have : (toByte ∘ fun (x : Byte) => x.val) = id := by
      funext x
      exact toByte_val x
    rw [this, List.map_id]
  unfold spec_base58_decode
  simp only [hz, hdrop, hidx, hval, hbytes, replicate_append_drop_leadingZeros]

theorem spec_base58_encode_length (b : List Byte) :
    (spec_base58_encode b).length ≤ 2 * b.length := by
  have h1 := encode_loop_fuel (b.drop (leadingZeros b)) (b.length - leadingZeros b) (by simp)
  rw [beVal_drop_leadingZeros] at h1
  have h2 : leadingZeros b ≤ b.length := by
    unfold leadingZeros
    exact (List.takeWhile_sublist _).length_le
  simp only [spec_base58_encode, List.length_append, List.length_replicate, List.length_map,
    List.length_reverse]
  omega

theorem hexval_not_special {c : Char} (h : (hexval c).isSome = true) :
    isspace c = false ∧ c ≠ '+' ∧ c ≠ '-' ∧ c ≠ 'x' ∧ c ≠ 'X' := by
  refine ⟨?_, ?_, ?_, ?_, ?_⟩
  · by_contra hs
    have hs' : isspace c = true := by simpa using hs
    simp only [isspace, Bool.or_eq_true, decide_eq_true_eq] at hs'
    rcases hs' with ((((rfl | rfl) | rfl) | rfl) | rfl) | rfl <;> exact absurd h (by decide)
  all_goals
    rintro rfl
    exact absurd h (by decide)

theorem hexval_lt {c : Char} {d : Nat} (h : hexval c = some d) : d < 16 := by
  unfold hexval at h
  split_ifs at h with h1 h2 h3
  all_goals
    have := Option.some.inj h
    omega

/-- On two hexadecimal digits `sscanf("%02x")` reads both. -/
theorem sscanf_02x_digits (c0 c1 : Char) (rest : List Char) (d0 d1 : Nat)
    (h0 : hexval c0 = some d0) (h1 : hexval c1 = some d1) :
    sscanf_02x (c0 :: c1 :: rest) = some (16 * d0 + d1) := by
  obtain ⟨hs, hp, hm, _, _⟩ := hexval_not_special (c := c0) (by rw [h0]; rfl)
  obtain ⟨_, _, _, hx, hX⟩ := hexval_not_special (c := c1) (by rw [h1]; rfl)
  unfold sscanf_02x
  rw [List.dropWhile_cons_of_neg (by simp [hs])]
  simp [hp, hm, h0, h1, hx, hX]

/-- C2: for every byte string `b` (the empty one and those with leading zero bytes
included) `base58_decode (base58_encode b)` succeeds and returns exactly `b`, with the
same length. -/
theorem C2_base58_roundtrip (b : List Byte) :
    base58_decode (base58_encode b) = some b ∧
      (base58_decode (base58_encode b)).map List.length = some b.length := by
  rw [base58_decode_encode]
  exact ⟨rfl, rfl⟩

/-- C3: for every payload `d`, `base58_decode_check (base58_encode_check d)` succeeds and
returns exactly `d` (with `result_len` the length of `d`), whatever hash function with
32-byte digests is used as SHA-256 on both sides. -/
theorem C3_base58check_roundtrip (SHA256 : List Byte → List Byte)
    (hlen : ∀ x, (SHA256 x).length = SHA256_DIGEST_LENGTH) (d : List Byte) :
    base58_decode_check SHA256 (base58_encode_check SHA256 d) = some d ∧
      (base58_decode_check SHA256 (base58_encode_check SHA256 d)).map List.length =
        some d.length := by
  rw [base58_decode_check_encode_check SHA256 hlen]
  exact ⟨rfl, rfl⟩

/-- Witness of C3: the hash function `zeroHash` and the payload `01 02 03`. -/
theorem C3_base58check_roundtrip_witness :
    (∀ x : List Byte, (zeroHash x).length = SHA256_DIGEST_LENGTH) ∧
      (base58_decode_check zeroHash (base58_encode_check zeroHash [1, 2, 3]) =
          some [1, 2, 3] ∧
        (base58_decode_check zeroHash (base58_encode_check zeroHash [1, 2, 3])).map
          List.length = some [(1 : Byte), 2, 3].length) :=
  ⟨fun _ => rfl, C3_base58check_roundtrip zeroHash (fun _ => rfl) [1, 2, 3]⟩

/-- Two finite points of the curve with the same `x` whose `y` do not add up to a multiple
of `p` are equal. -/
theorem y_eq_of_x_eq {p : Nat} [Fact p.Prime] (a b n : Int) (P Q : Point)
    (hF : InField ⟨p, a, b, n⟩ P) (hC : OnCurve ⟨p, a, b, n⟩ P)
    (hFQ : InField ⟨p, a, b, n⟩ Q) (hCQ : OnCurve ⟨p, a, b, n⟩ Q)
    (hx : P.x = Q.x) (hs : ¬ (P.y + Q.y ≡ 0 [ZMOD p])) : P.y = Q.y := by
  obtain ⟨_, _, hy0, hy1⟩ := hF
  obtain ⟨_, _, hqy0, hqy1⟩ := hFQ
  have h1 : ((P.y ^ 2 : Int) : ZMod p) = ((P.x ^ 3 + a * P.x + b : Int) : ZMod p) :=
    (ZMod.intCast_eq_intCast_iff _ _ _).mpr hC
  have h2 : ((Q.y ^ 2 : Int) : ZMod p) = ((Q.x ^ 3 + a * Q.x + b : Int) : ZMod p) :=
    (ZMod.intCast_eq_intCast_iff _ _ _).mpr hCQ
  rw [← hx, ← h1] at h2
  push_cast at h2
  have h3 : ((P.y : ZMod p) - Q.y) * ((P.y : ZMod p) + Q.y) = 0 := by
    linear_combination -h2
  rcases mul_eq_zero.mp h3 with h4 | h4
  · exact eq_of_cast_eq_of_range hy0 hy1 hqy0 hqy1 (sub_eq_zero.mp h4)
  · exfalso
    apply hs
    have : ((P.y + Q.y : Int) : ZMod p) = ((0 : Int) : ZMod p) := by
      push_cast
      exact h4
    exact (ZMod.intCast_eq_intCast_iff _ _ _).mp this

theorem mpz_mod_eq_zero_iff_modEq (x : Int) (p : Nat) : mpz_mod x p = 0 ↔ x ≡ 0 [ZMOD p] := by
  unfold mpz_mod Int.ModEq
  simp

/-! ## The claims on ecc.c -/

/-- C1: for every prime `p > 3`, coefficients `a`, `b` with `4a³ + 27b²` not congruent to
0 modulo `p`, every point `P` that is infinity or has coordinates in `[0, p)` on the curve,
and every integer `k ≥ 0`, `scalar_multiplication(EC, P, k)` is the group multiple `k·P`
built by repeated `point_addition` from the point at infinity, points at infinity being
equal whatever coordinates they store. -/
theorem C1_scalar_multiplication_is_multiple (p : Nat) (a b n : Int) (hp : p.Prime)
    (hp3 : 3 < p) (hdisc : ¬ (4 * a ^ 3 + 27 * b ^ 2 ≡ 0 [ZMOD p])) (P : Point)
    (hP : P.infinity = true ∨ (InField ⟨p, a, b, n⟩ P ∧ OnCurve ⟨p, a, b, n⟩ P)) (k : Nat) :
    SamePoint (scalar_multiplication ⟨p, a, b, n⟩ P (k : Int)) (multiple ⟨p, a, b, n⟩ P k) :=
  scalar_multiplication_eq_multiple p a b n hp (by omega) hdisc P hP k

/-- Witness of C1: the curve `toyCurve`, the point `(5, 1)` and `k = 19`. -/
theorem C1_scalar_multiplication_is_multiple_witness :
    Nat.Prime 17 ∧ 3 < 17 ∧ ¬ (4 * (2 : Int) ^ 3 + 27 * (2 : Int) ^ 2 ≡ 0 [ZMOD (17 : Nat)]) ∧
      (toyP.infinity = true ∨ (InField toyCurve toyP ∧ OnCurve toyCurve toyP)) ∧
      SamePoint (scalar_multiplication toyCurve toyP ((19 : Nat) : Int))
        (multiple toyCurve toyP 19) :=
  ⟨by norm_num, by norm_num, by decide, Or.inr (by decide),
    C1_scalar_multiplication_is_multiple 17 2 2 19 (by norm_num) (by norm_num) (by decide)
      toyP (Or.inr (by decide)) 19⟩

/-- C5: for every prime `p > 2`, coefficients `a`, `b` and non-infinity points `P`, `Q`
with coordinates in `[0, p)` on the curve, `point_doubling(P)` and `point_addition(P, Q)`
each return the point at infinity or a point that satisfies the curve congruence. -/
theorem C5_curve_invariant_preserved (p : Nat) (a b n : Int) (hp : p.Prime) (hp2 : 2 < p)
    (P Q : Point) (hP : P.infinity = false) (hPF : InField ⟨p, a, b, n⟩ P)
    (hPC : OnCurve ⟨p, a, b, n⟩ P) (hQ : Q.infinity = false)
    (hQF : InField ⟨p, a, b, n⟩ Q) (hQC : OnCurve ⟨p, a, b, n⟩ Q) :
    ((point_doubling ⟨p, a, b, n⟩ P).infinity = true ∨
        OnCurve ⟨p, a, b, n⟩ (point_doubling ⟨p, a, b, n⟩ P)) ∧
      ((point_addition ⟨p, a, b, n⟩ P Q).infinity = true ∨
        OnCurve ⟨p, a, b, n⟩ (point_addition ⟨p, a, b, n⟩ P Q)) := by
  haveI : Fact p.Prime := ⟨hp⟩
  have hp2' : p ≠ 2 := by omega
  constructor
  · rcases onCurve_double hp2' a b n P hP hPF hPC with h | ⟨_, _, h⟩
    · exact Or.inl h
    · exact Or.inr h
  · rcases onCurve_add hp2' a b n P Q hP hPF hPC hQ hQF hQC with h | ⟨_, _, h⟩
    · exact Or.inl h
    · exact Or.inr h

/-- Witness of C5: the points `(5, 1)` and `(6, 3)` of `toyCurve`. -/
theorem C5_curve_invariant_preserved_witness :
    Nat.Prime 17 ∧ 2 < 17 ∧
      (toyP.infinity = false ∧ InField toyCurve toyP ∧ OnCurve toyCurve toyP) ∧
      (toyQ.infinity = false ∧ InField toyCurve toyQ ∧ OnCurve toyCurve toyQ) ∧
      (((point_doubling toyCurve toyP).infinity = true ∨
          OnCurve toyCurve (point_doubling toyCurve toyP)) ∧
        ((point_addition toyCurve toyP toyQ).infinity = true ∨
          OnCurve toyCurve (point_addition toyCurve toyP toyQ))) :=
  ⟨by norm_num, by norm_num, by decide, by decide,
    C5_curve_invariant_preserved 17 2 2 19 (by norm_num) (by norm_num) toyP toyQ
      rfl (by decide) (by decide) rfl (by decide) (by decide)⟩

/-- C8: for every prime `p > 2` and point `P` with coordinates in `[0, p)`,
`point_doubling` returns infinity if `P` is infinity or `P.y = 0`; otherwise it returns
the non-infinity point `(x', y')` with `λ = (3x² + a)·(2y)⁻¹ mod p`,
`x' = (λ² − 2x) mod p` and `y' = (λ(x − x') − y) mod p`, where `(2y)⁻¹` is the inverse of
`2y` modulo `p` in `[0, p)`. -/
theorem C8_point_doubling_formula (p : Nat) (a b n : Int) (hp : p.Prime) (hp2 : 2 < p)
    (P : Point) (hPF : InField ⟨p, a, b, n⟩ P) :
    ((P.infinity = true ∨ P.y = 0) → (point_doubling ⟨p, a, b, n⟩ P).infinity = true) ∧
      (P.infinity = false → P.y ≠ 0 →
        ∃ inv lam x' y' : Int, 0 ≤ inv ∧ inv < p ∧ 2 * P.y * inv ≡ 1 [ZMOD p] ∧
          lam = ((3 * P.x ^ 2 + a) * inv) % p ∧
          x' = (lam ^ 2 - 2 * P.x) % p ∧
          y' = (lam * (P.x - x') - P.y) % p ∧
          point_doubling ⟨p, a, b, n⟩ P = ⟨x', y', false⟩) := by
  haveI : Fact p.Prime := ⟨hp⟩
  have hp2' : p ≠ 2 := by omega
  obtain ⟨_, _, hy0, hy1⟩ := hPF
  constructor
  · rintro (h | h)
    · simp [point_doubling, point_is_infinity, h, point_set_infinity]
    · by_cases hinf : P.infinity = true
      · simp [point_doubling, point_is_infinity, hinf, point_set_infinity]
      · simp [point_doubling, point_is_infinity, hinf, h, point_set_infinity]
  · intro hinf hy
    have hne : ((P.y * 2 : Int) : ZMod p) ≠ 0 := by
      push_cast
      exact mul_ne_zero (cast_ne_zero_of_range hy0 hy1 hy) (two_ne_zero_zmod hp2')
    obtain ⟨_, h1, h2, h3⟩ := mpz_invert_of_coprime (P.y * 2) (P.y * 2) p hp.pos
      (gcd_eq_one_of_cast_ne_zero hp hne)
    refine ⟨(mpz_invert (P.y * 2) (P.y * 2) p).1, _, _, _, h1, h2, ?_, rfl, rfl, rfl, ?_⟩
    · rw [mul_comm 2 P.y]; exact h3
    · simp only [point_doubling, point_is_infinity, hinf, hy, if_false, Bool.false_eq_true,
        mpz_mod]
      have e1 : (P.x * P.x * 3 + a) = (3 * P.x ^ 2 + a) := by ring
      rw [e1]
      generalize ((3 * P.x ^ 2 + a) * (mpz_invert (P.y * 2) (P.y * 2) p).1) % (p : Int) = lam
      have e2 : lam * lam - P.x * 2 = lam ^ 2 - 2 * P.x := by ring
      rw [e2]

/-- Witness of C8: doubling `(5, 1)` on `toyCurve`. -/
theorem C8_point_doubling_formula_witness :
    Nat.Prime 17 ∧ 2 < 17 ∧ InField toyCurve toyP ∧
      (((toyP.infinity = true ∨ toyP.y = 0) →
          (point_doubling toyCurve toyP).infinity = true) ∧
        (toyP.infinity = false → toyP.y ≠ 0 →
          ∃ inv lam x' y' : Int, 0 ≤ inv ∧ inv < (17 : Nat) ∧
            2 * toyP.y * inv ≡ 1 [ZMOD (17 : Nat)] ∧
            lam = ((3 * toyP.x ^ 2 + 2) * inv) % (17 : Nat) ∧
            x' = (lam ^ 2 - 2 * toyP.x) % (17 : Nat) ∧
            y' = (lam * (toyP.x - x') - toyP.y) % (17 : Nat) ∧
            point_doubling toyCurve toyP = ⟨x', y', false⟩)) :=
  ⟨by norm_num, by norm_num, by decide,
    C8_point_doubling_formula 17 2 2 19 (by norm_num) (by norm_num) toyP (by decide)⟩

/-- C9: for every prime `p` and points `P`, `Q` with coordinates in `[0, p)`,
`point_addition(P, Q)` returns `Q` if `P` is infinity and `P` if `Q` is infinity (as
points: when both are infinity the result is the stored `Q`); if `x_P = x_Q` it returns
infinity when `y_P + y_Q ≡ 0 (mod p)` and `point_doubling(P)` otherwise; and if
`x_P ≠ x_Q` it returns the non-infinity point `(x', y')` with
`λ = (y_Q − y_P)·(x_Q − x_P)⁻¹ mod p`, `x' = (λ² − x_P − x_Q) mod p` and
`y' = (λ(x_P − x') − y_P) mod p`. -/
theorem C9_point_addition_formula (p : Nat) (a b n : Int) (hp : p.Prime) (P Q : Point)
    (hPF : InField ⟨p, a, b, n⟩ P) (hQF : InField ⟨p, a, b, n⟩ Q) :
    (P.infinity = true → point_addition ⟨p, a, b, n⟩ P Q = Q) ∧
      (Q.infinity = true → SamePoint (point_addition ⟨p, a, b, n⟩ P Q) P) ∧
      (P.infinity = false → Q.infinity = true → point_addition ⟨p, a, b, n⟩ P Q = P) ∧
      (P.infinity = false → Q.infinity = false → P.x = Q.x → P.y + Q.y ≡ 0 [ZMOD p] →
        (point_addition ⟨p, a, b, n⟩ P Q).infinity = true) ∧
      (P.infinity = false → Q.infinity = false → P.x = Q.x → ¬ (P.y + Q.y ≡ 0 [ZMOD p]) →
        point_addition ⟨p, a, b, n⟩ P Q = point_doubling ⟨p, a, b, n⟩ P) ∧
      (P.infinity = false → Q.infinity = false → P.x ≠ Q.x →
        ∃ inv lam x' y' : Int, 0 ≤ inv ∧ inv < p ∧ (Q.x - P.x) * inv ≡ 1 [ZMOD p] ∧
          lam = ((Q.y - P.y) * inv) % p ∧
          x' = (lam ^ 2 - P.x - Q.x) % p ∧
          y' = (lam * (P.x - x') - P.y) % p ∧
          point_addition ⟨p, a, b, n⟩ P Q = ⟨x', y', false⟩) := by
  haveI : Fact p.Prime := ⟨hp⟩
  obtain ⟨hx0, hx1, _, _⟩ := hPF
  obtain ⟨hqx0, hqx1, _, _⟩ := hQF
  refine ⟨?_, ?_, ?_, ?_, ?_, ?_⟩
  · intro h
    simp [point_addition, point_is_infinity, h, point_copy_eq]
  · intro hQ
    by_cases hPi : P.infinity = true
    · left
      refine ⟨?_, hPi⟩
      simp [point_addition, point_is_infinity, hPi, point_copy_eq, hQ]
    · right
      simp [point_addition, point_is_infinity, hPi, hQ, point_copy_eq]
  · intro hPi hQ
    simp [point_addition, point_is_infinity, hPi, hQ, point_copy_eq]
  · intro hPi hQ hx hs
    have := (mpz_mod_eq_zero_iff_modEq _ p).mpr hs
    simp [point_addition, point_is_infinity, hPi, hQ, hx, this, point_set_infinity]
  · intro hPi hQ hx hs
    have : ¬ mpz_mod (P.y + Q.y) p = 0 := fun h => hs ((mpz_mod_eq_zero_iff_modEq _ p).mp h)
    simp [point_addition, point_is_infinity, hPi, hQ, hx, this]
  · intro hPi hQ hx
    have hne : ((Q.x - P.x : Int) : ZMod p) ≠ 0 := by
      intro h
      have h' : (Q.x : ZMod p) = (P.x : ZMod p) := by
        push_cast at h
        exact sub_eq_zero.mp h
      exact hx (eq_of_cast_eq_of_range hqx0 hqx1 hx0 hx1 h').symm
    obtain ⟨_, h1, h2, h3⟩ := mpz_invert_of_coprime (Q.x - P.x) (Q.x - P.x) p hp.pos
      (gcd_eq_one_of_cast_ne_zero hp hne)
    refine ⟨(mpz_invert (Q.x - P.x) (Q.x - P.x) p).1, _, _, _, h1, h2, h3, rfl, rfl, rfl, ?_⟩
    simp only [point_addition, point_is_infinity, hPi, hQ, hx, if_false, Bool.false_eq_true,
      mpz_mod]
    generalize ((Q.y - P.y) * (mpz_invert (Q.x - P.x) (Q.x - P.x) p).1) % (p : Int) = lam
    have e2 : lam * lam - P.x - Q.x = lam ^ 2 - P.x - Q.x := by ring
    rw [e2]

/-- Witness of C9: adding `(5, 1)` and `(6, 3)` on `toyCurve`. -/
theorem C9_point_addition_formula_witness :
    Nat.Prime 17 ∧ InField toyCurve toyP ∧ InField toyCurve toyQ ∧
      ((toyP.infinity = true → point_addition toyCurve toyP toyQ = toyQ) ∧
        (toyQ.infinity = true → SamePoint (point_addition toyCurve toyP toyQ) toyP) ∧
        (toyP.infinity = false → toyQ.infinity = true →
          point_addition toyCurve toyP toyQ = toyP) ∧
        (toyP.infinity = false → toyQ.infinity = false → toyP.x = toyQ.x →
          toyP.y + toyQ.y ≡ 0 [ZMOD (17 : Nat)] →
          (point_addition toyCurve toyP toyQ).infinity = true) ∧
        (toyP.infinity = false → toyQ.infinity = false → toyP.x = toyQ.x →
          ¬ (toyP.y + toyQ.y ≡ 0 [ZMOD (17 : Nat)]) →
          point_addition toyCurve toyP toyQ = point_doubling toyCurve toyP) ∧
        (toyP.infinity = false → toyQ.infinity = false → toyP.x ≠ toyQ.x →
          ∃ inv lam x' y' : Int, 0 ≤ inv ∧ inv < (17 : Nat) ∧
            (toyQ.x - toyP.x) * inv ≡ 1 [ZMOD (17 : Nat)] ∧
            lam = ((toyQ.y - toyP.y) * inv) % (17 : Nat) ∧
            x' = (lam ^ 2 - toyP.x - toyQ.x) % (17 : Nat) ∧
            y' = (lam * (toyP.x - x') - toyP.y) % (17 : Nat) ∧
            point_addition toyCurve toyP toyQ = ⟨x', y', false⟩)) :=
  ⟨by norm_num, by decide, by decide,
    C9_point_addition_formula 17 2 2 19 (by norm_num) toyP toyQ (by decide) (by decide)⟩

/-- C10: for every prime `p` and non-infinity points `P`, `Q` with coordinates in `[0, p)`
on the curve, if `x_P = x_Q` and `y_P + y_Q` is not congruent to 0 modulo `p` then
`P = Q`; the branch of `point_addition` that delegates to `point_doubling(P)` is taken
for equal points only. -/
theorem C10_doubling_branch_equal_points (p : Nat) (a b n : Int) (hp : p.Prime)
    (P Q : Point) (hP : P.infinity = false) (hPF : InField ⟨p, a, b, n⟩ P)
    (hPC : OnCurve ⟨p, a, b, n⟩ P) (hQ : Q.infinity = false)
    (hQF : InField ⟨p, a, b, n⟩ Q) (hQC : OnCurve ⟨p, a, b, n⟩ Q)
    (hx : P.x = Q.x) (hs : ¬ (P.y + Q.y ≡ 0 [ZMOD p])) :
    P.y = Q.y ∧ P = Q ∧
      point_addition ⟨p, a, b, n⟩ P Q = point_doubling ⟨p, a, b, n⟩ P := by
  haveI : Fact p.Prime := ⟨hp⟩
  have hy := y_eq_of_x_eq a b n P Q hPF hPC hQF hQC hx hs
  refine ⟨hy, ?_, ?_⟩
  · cases P
    cases Q
    simp only [Point.mk.injEq]
    exact ⟨hx, hy, hP.trans hQ.symm⟩
  · have : ¬ mpz_mod (P.y + Q.y) p = 0 := fun h => hs ((mpz_mod_eq_zero_iff_modEq _ p).mp h)
    simp [point_addition, point_is_infinity, hP, hQ, hx, this]

/-- Witness of C10: `P = Q = (5, 1)` on `toyCurve`. -/
theorem C10_doubling_branch_equal_points_witness :
    Nat.Prime 17 ∧ (toyP.infinity = false ∧ InField toyCurve toyP ∧ OnCurve toyCurve toyP) ∧
      toyP.x = toyP.x ∧ ¬ (toyP.y + toyP.y ≡ 0 [ZMOD (17 : Nat)]) ∧
      (toyP.y = toyP.y ∧ toyP = toyP ∧
        point_addition toyCurve toyP toyP = point_doubling toyCurve toyP) :=
  ⟨by norm_num, by decide, rfl, by decide,
    C10_doubling_branch_equal_points 17 2 2 19 (by norm_num) toyP toyP
      rfl (by decide) (by decide) rfl (by decide) (by decide) rfl (by decide)⟩

/-! ## secp256k1 -/

theorem EC_constant_P_prime : Nat.Prime EC_constant_P.toNat := by
  have h := lucas_chain_sound [] (by simp) secp256k1_prime_certificates
    secp256k1_certificates_ok
  exact h ⟨EC_constant_P.toNat, 3,
    [(2, 1), (3, 1), (7, 1), (13441, 1),
      (205115282021455665897114700593932402728804164701536103180137503955397371, 1)]⟩
    (by simp [secp256k1_prime_certificates, EC_constant_P])

theorem EC_constant_N_prime : Nat.Prime EC_constant_N.toNat := by
  have h := lucas_chain_sound [] (by simp) secp256k1_prime_certificates
    secp256k1_certificates_ok
  exact h ⟨EC_constant_N.toNat, 7,
    [(2, 6), (3, 1), (149, 1), (631, 1), (107361793816595537, 1),
      (174723607534414371449, 1), (341948486974166000522343609283189, 1)]⟩
    (by simp [secp256k1_prime_certificates, EC_constant_N])

theorem secp256k1_eq : secp256k1 = ⟨(EC_constant_P.toNat : Nat), 0, 7, EC_constant_N⟩ := by
  decide

theorem secp256k1_p_ne_two : EC_constant_P.toNat ≠ 2 := by decide

theorem secp256k1_disc :
    ¬ (4 * (0 : Int) ^ 3 + 27 * (7 : Int) ^ 2 ≡ 0 [ZMOD (EC_constant_P.toNat : Nat)]) := by
  decide

theorem secp256k1_G_valid :
    InField ⟨(EC_constant_P.toNat : Nat), 0, 7, EC_constant_N⟩ secp256k1_G ∧
      OnCurve ⟨(EC_constant_P.toNat : Nat), 0, 7, EC_constant_N⟩ secp256k1_G := by
  decide

set_option maxRecDepth 100000 in
theorem secp256k1_order_hints_ok :
    scalar_multiplication_hint secp256k1 secp256k1_G EC_constant_N secp256k1_order_hints =
      some point_set_infinity := by
  decide!

/-- On secp256k1, `scalar_multiplication(EC, G, n)` is the point at infinity. -/
theorem secp256k1_order :
    scalar_multiplication secp256k1 secp256k1_G EC_constant_N = point_set_infinity :=
  scalar_multiplication_hint_sound secp256k1 (by decide) _ _ _ _ secp256k1_order_hints_ok

theorem rep_eq_zero_of_infinity {p : Nat} {a b : Int} {P : Point}
    {P' : (curve p a b).Point} (h : Rep p a b P P') (hinf : P.infinity = true) : P' = 0 := by
  cases P' with
  | zero => rfl
  | @some X Y hN =>
    have := ((rep_some_iff hN).mp h).1
    rw [hinf] at this
    exact absurd this (by simp)

theorem rep_ne_zero_of_finite {p : Nat} {a b : Int} {P : Point}
    {P' : (curve p a b).Point} (h : Rep p a b P P') (hinf : P.infinity = false) : P' ≠ 0 := by
  intro h0
  rw [h0] at h
  have : P.infinity = true := h
  rw [hinf] at this
  exact absurd this (by simp)

/-- When `n` is prime and `scalar_multiplication(EC, G, n)` is infinity for a finite point
`G` of the curve, the multiples `k·G` with `0 < k < n` are finite points. -/
theorem multiple_finite_of_prime_order (p : Nat) (hp : p.Prime) (hp2 : p ≠ 2)
    (a b N : Int) (hdisc : ¬ (4 * a ^ 3 + 27 * b ^ 2 ≡ 0 [ZMOD p])) (n : Nat) (hn : n.Prime)
    (G : Point) (hGfin : G.infinity = false)
    (hG : InField ⟨p, a, b, N⟩ G ∧ OnCurve ⟨p, a, b, N⟩ G)
    (hnG : (scalar_multiplication ⟨p, a, b, N⟩ G (n : Int)).infinity = true)
    (k : Nat) (hk0 : 0 < k) (hkn : k < n) :
    (scalar_multiplication ⟨p, a, b, N⟩ G (k : Int)).infinity = false := by
  haveI : Fact p.Prime := ⟨hp⟩
  obtain ⟨G', hG'⟩ := rep_exists hp2 a b N hdisc G (Or.inr hG)
  have hnG' : n • G' = 0 :=
    rep_eq_zero_of_infinity (rep_scalar_multiplication hp2 a b N hG' n) hnG
  have hG0 : G' ≠ 0 := rep_ne_zero_of_finite hG' hGfin
  have hk := rep_scalar_multiplication hp2 a b N hG' k
  by_contra hcon
  have hinf : (scalar_multiplication ⟨p, a, b, N⟩ G (k : Int)).infinity = true := by
    simpa using hcon
  have hkG : k • G' = 0 := rep_eq_zero_of_infinity hk hinf
  have hord : addOrderOf G' ∣ n := addOrderOf_dvd_of_nsmul_eq_zero hnG'
  rcases (Nat.dvd_prime hn).mp hord with h1 | h1
  · exact hG0 (AddMonoid.addOrderOf_eq_one_iff.mp h1)
  · have hdk : addOrderOf G' ∣ k := addOrderOf_dvd_of_nsmul_eq_zero hkG
    rw [h1] at hdk
    have := Nat.le_of_dvd hk0 hdk
    omega

/-- The point returned by `scalar_multiplication` on a valid point is infinity or a point
of the curve. -/
theorem scalar_multiplication_valid (p : Nat) (hp : p.Prime) (hp2 : p ≠ 2)
    (a b N : Int) (hdisc : ¬ (4 * a ^ 3 + 27 * b ^ 2 ≡ 0 [ZMOD p]))
    (G : Point) (hG : InField ⟨p, a, b, N⟩ G ∧ OnCurve ⟨p, a, b, N⟩ G) (k : Nat) :
    (scalar_multiplication ⟨p, a, b, N⟩ G (k : Int)).infinity = true ∨
      OnCurve ⟨p, a, b, N⟩ (scalar_multiplication ⟨p, a, b, N⟩ G (k : Int)) := by
  haveI : Fact p.Prime := ⟨hp⟩
  obtain ⟨G', hG'⟩ := rep_exists hp2 a b N hdisc G (Or.inr hG)
  rcases valid_of_rep N (rep_scalar_multiplication hp2 a b N hG' k) with h | ⟨_, _, h⟩
  · exact Or.inl h
  · exact Or.inr h

theorem EC_constant_P_cast : ((EC_constant_P.toNat : Nat) : Int) = EC_constant_P := by decide

theorem EC_constant_N_cast : ((EC_constant_N.toNat : Nat) : Int) = EC_constant_N := by decide

/-- On secp256k1 the multiples `k·G` with `0 < k < n` are finite points. -/
theorem secp256k1_multiple_finite (k : Nat) (hk0 : 0 < k) (hkn : k < EC_constant_N.toNat) :
    (scalar_multiplication secp256k1 secp256k1_G (k : Int)).infinity = false := by
  have hnG : (scalar_multiplication ⟨(EC_constant_P.toNat : Nat), 0, 7, EC_constant_N⟩
      secp256k1_G ((EC_constant_N.toNat : Nat) : Int)).infinity = true := by
    rw [← secp256k1_eq, EC_constant_N_cast, secp256k1_order]
    rfl
  have h := multiple_finite_of_prime_order EC_constant_P.toNat EC_constant_P_prime
    secp256k1_p_ne_two 0 7 EC_constant_N secp256k1_disc EC_constant_N.toNat
    EC_constant_N_prime secp256k1_G rfl secp256k1_G_valid hnG k hk0 hkn
  rw [← secp256k1_eq] at h
  exact h

/-- C6: with the secp256k1 constants of Brain.c and `p` prime, for every scalar `k` in
`[1, n − 1]` the point returned by `scalar_multiplication(EC, G, k)` is infinity or
satisfies `y² ≡ x³ + 7 (mod p)`. -/
theorem C6_secp256k1_multiples_on_curve (hp : Nat.Prime EC_constant_P.toNat) (k : Int)
    (hk : 1 ≤ k ∧ k ≤ EC_constant_N - 1) :
    (scalar_multiplication secp256k1 secp256k1_G k).infinity = true ∨
      (scalar_multiplication secp256k1 secp256k1_G k).y ^ 2 ≡
        (scalar_multiplication secp256k1 secp256k1_G k).x ^ 3 + 7 [ZMOD EC_constant_P] := by
  have hkcast : ((k.toNat : Nat) : Int) = k := Int.toNat_of_nonneg (by omega)
  have h := scalar_multiplication_valid EC_constant_P.toNat hp secp256k1_p_ne_two 0 7
    EC_constant_N secp256k1_disc secp256k1_G secp256k1_G_valid k.toNat
  rw [← secp256k1_eq, hkcast] at h
  rcases h with h | h
  · exact Or.inl h
  · right
    have h' : (scalar_multiplication secp256k1 secp256k1_G k).y ^ 2 ≡
        (scalar_multiplication secp256k1 secp256k1_G k).x ^ 3 +
          0 * (scalar_multiplication secp256k1 secp256k1_G k).x + 7
          [ZMOD EC_constant_P] := h
    rw [zero_mul, add_zero] at h'
    exact h'

/-- Witness of C6: the scalar `k = 1`, with the primality of `EC_constant_P` established
by its Lucas certificate. -/
theorem C6_secp256k1_multiples_on_curve_witness :
    Nat.Prime EC_constant_P.toNat ∧ ((1 : Int) ≤ 1 ∧ (1 : Int) ≤ EC_constant_N - 1) ∧
      ((scalar_multiplication secp256k1 secp256k1_G 1).infinity = true ∨
        (scalar_multiplication secp256k1 secp256k1_G 1).y ^ 2 ≡
          (scalar_multiplication secp256k1 secp256k1_G 1).x ^ 3 + 7 [ZMOD EC_constant_P]) :=
  ⟨EC_constant_P_prime, by decide,
    C6_secp256k1_multiples_on_curve EC_constant_P_prime 1 (by decide)⟩

/-- C7: with the secp256k1 constants of Brain.c, for every scalar `k` in `[1, n − 1]` the
point returned by `scalar_multiplication(EC, G, k)` is not the point at infinity. -/
theorem C7_secp256k1_multiples_finite (k : Int) (hk : 1 ≤ k ∧ k ≤ EC_constant_N - 1) :
    (scalar_multiplication secp256k1 secp256k1_G k).infinity = false := by
  have hkcast : ((k.toNat : Nat) : Int) = k := Int.toNat_of_nonneg (by omega)
  have hN := EC_constant_N_cast
  have h := secp256k1_multiple_finite k.toNat (by omega) (by omega)
  rwa [hkcast] at h

/-- Witness of C7: the scalar `k = n − 1`. -/
theorem C7_secp256k1_multiples_finite_witness :
    ((1 : Int) ≤ EC_constant_N - 1 ∧ EC_constant_N - 1 ≤ EC_constant_N - 1) ∧
      (scalar_multiplication secp256k1 secp256k1_G (EC_constant_N - 1)).infinity = false :=
  ⟨by decide, C7_secp256k1_multiples_finite (EC_constant_N - 1) (by decide)⟩


/-! ## The claim on WIF -/

/-- C11: for every modulus `p > 0` and every non-infinity point `P` with coordinates in
`[0, p)`, `point_addition(P, point_negation(P))` and `point_addition(point_negation(P), P)`
are the point at infinity, and `point_negation(point_negation(P)) = P`. -/
theorem C11_negation_is_inverse (p a b n : Int) (P : Point)
    (hP : 0 < p ∧ P.infinity = false ∧ InField ⟨p, a, b, n⟩ P) :
    point_addition ⟨p, a, b, n⟩ P (point_negation ⟨p, a, b, n⟩ P) = point_set_infinity ∧
      point_addition ⟨p, a, b, n⟩ (point_negation ⟨p, a, b, n⟩ P) P = point_set_infinity ∧
      point_negation ⟨p, a, b, n⟩ (point_negation ⟨p, a, b, n⟩ P) = P := by
  obtain ⟨_, hinf, _⟩ := hP
  have h0 : mpz_mod p p = 0 := by simp [mpz_mod]
  refine ⟨?_, ?_, ?_⟩
  · simp [point_addition, point_negation, point_is_infinity, point_copy, hinf, h0]
  · simp [point_addition, point_negation, point_is_infinity, point_copy, hinf, h0]
  · cases P with
    | mk x y inf =>
      simp only at hinf
      subst hinf
      simp [point_negation, point_is_infinity, point_copy]

/-- Witness of C11: the point `(5, 1)` of the curve over `ZMod 17`. -/
theorem C11_negation_is_inverse_witness :
    ((0 : Int) < 17 ∧ toyP.infinity = false ∧ InField ⟨17, 2, 2, 19⟩ toyP) ∧
      point_addition ⟨17, 2, 2, 19⟩ toyP (point_negation ⟨17, 2, 2, 19⟩ toyP)
        = point_set_infinity ∧
      point_addition ⟨17, 2, 2, 19⟩ (point_negation ⟨17, 2, 2, 19⟩ toyP) toyP
        = point_set_infinity ∧
      point_negation ⟨17, 2, 2, 19⟩ (point_negation ⟨17, 2, 2, 19⟩ toyP) = toyP :=
  ⟨by decide, C11_negation_is_inverse 17 2 2 19 toyP (by decide)⟩


/-! ## Closed forms of the Base58 functions -/

theorem takeWhile_one_digits (z : Nat) (v : Nat) :
    ((List.replicate z '1' ++ (Nat.digits 58 v).reverse.map alphabetAt).takeWhile
      (fun c => c = '1')).length = z := by
  have h : List.replicate z '1' ++ (Nat.digits 58 v).reverse.map alphabetAt =
      (List.replicate z 0 ++ (Nat.digits 58 v).reverse).map alphabetAt := by
    rw [List.map_append, List.map_replicate, alphabetAt_zero]
  have hds' : ∀ d ∈ List.replicate z 0 ++ (Nat.digits 58 v).reverse, d < 58 := by
    intro d hd
    rcases List.mem_append.mp hd with h | h
    · rw [List.eq_of_mem_replicate h]; norm_num
    · exact Nat.digits_lt_base (by norm_num) (List.mem_reverse.mp h)
  rw [h, ← alphabetAt_zero, takeWhile_one_alphabet _ hds',
    List.takeWhile_append_of_pos (by
      intro a ha
      simp [List.eq_of_mem_replicate ha]), takeWhile_zero_digits_reverse]
  simp

/-- C12: for every byte string `b` with `z` leading zero bytes, `base58_encode(b)` is `z`
characters `1` followed by the base-58 digits of the big-endian value of `b`, most
significant first, without a leading zero digit and with no digit at all when the value is
0, each digit `d` written as the `d`-th symbol of the alphabet
`123456789ABCDEFGHJKLMNPQRSTUVWXYZabcdefghijkmnopqrstuvwxyz`; the output has exactly `z`
leading `1` characters. -/
theorem C12_base58_encode_closed_form (b : List Byte) :
    BASE58_ALPHABET = "123456789ABCDEFGHJKLMNPQRSTUVWXYZabcdefghijkmnopqrstuvwxyz".toList ∧
      ∃ ds : List Nat, (∀ d ∈ ds, d < 58) ∧ ds.head? ≠ some 0 ∧ accum58 0 ds = beVal b ∧
        (beVal b = 0 → ds = []) ∧
        base58_encode b = List.replicate (leadingZeros b) '1' ++ ds.map alphabetAt ∧
        ((base58_encode b).takeWhile (fun c => c = '1')).length = leadingZeros b := by
  refine ⟨rfl, (Nat.digits 58 (beVal b)).reverse, ?_, ?_, ?_, ?_, ?_, ?_⟩
  · intro d hd
    exact Nat.digits_lt_base (by norm_num) (List.mem_reverse.mp hd)
  · intro h
    have := takeWhile_zero_digits_reverse (beVal b)
    cases hd : (Nat.digits 58 (beVal b)).reverse with
    | nil => rw [hd] at h; simp at h
    | cons x xs =>
      rw [hd] at h this
      simp only [List.head?_cons, Option.some.injEq] at h
      subst h
      simp at this
  · rw [accum58_eq, zero_mul, zero_add, List.reverse_reverse, Nat.ofDigits_digits]
  · intro h0
    rw [h0]
    simp
  · rw [base58_encode_eq, alphabetAt_zero]
  · rw [base58_encode_eq, alphabetAt_zero]
    exact takeWhile_one_digits _ _

theorem strchr_alphabet_of_mem {c : Char} (h : c ∈ BASE58_ALPHABET) :
    ∃ d, d < 58 ∧ strchr_alphabet c = some d ∧ alphabetAt d = c := by
  have hi : BASE58_ALPHABET.indexOf c < BASE58_ALPHABET.length := List.indexOf_lt_length.mpr h
  refine ⟨BASE58_ALPHABET.indexOf c, hi, ?_, ?_⟩
  · simp only [strchr_alphabet]
    rw [if_pos hi]
  · unfold alphabetAt
    rw [List.getD_eq_getElem _ _ hi]
    exact List.getElem_indexOf hi

theorem strchr_alphabet_of_not_mem {c : Char} (h : c ∉ BASE58_ALPHABET) :
    strchr_alphabet c = none := by
  simp only [strchr_alphabet]
  rw [if_neg]
  intro hi
  exact h (List.indexOf_lt_length.mp hi)

theorem symbol_indices_of_mem (s : List Char) (hs : ∀ c ∈ s, c ∈ BASE58_ALPHABET) :
    ∃ ds, (∀ d ∈ ds, d < 58) ∧ symbol_indices s = some ds ∧ ds.map alphabetAt = s := by
  induction s with
  | nil => exact ⟨[], by simp, rfl, rfl⟩
  | cons c cs ih =>
    obtain ⟨ds, h1, h2, h3⟩ := ih (fun x hx => hs x (by simp [hx]))
    obtain ⟨d, hd, hc, ha⟩ := strchr_alphabet_of_mem (hs c (by simp))
    refine ⟨d :: ds, ?_, ?_, ?_⟩
    · intro x hx
      rcases List.mem_cons.mp hx with rfl | hx
      · exact hd
      · exact h1 x hx
    · simp only [symbol_indices, hc, h2]
    · simp only [List.map_cons, ha, h3]

theorem takeWhile_one_map (ds : List Nat) (hds : ∀ d ∈ ds, d < 58) :
    ((ds.map alphabetAt).takeWhile (fun c => c = '1')).length =
      (ds.takeWhile (fun d => d = 0)).length := by
  rw [← alphabetAt_zero]
  exact takeWhile_one_alphabet ds hds

/-- The bytes `base58_decode` returns on a string of alphabet symbols with digit values
`ds`. -/
theorem base58_decode_map (ds : List Nat) (hds : ∀ d ∈ ds, d < 58) :
    base58_decode (ds.map alphabetAt) =
      some (List.replicate (ds.takeWhile (fun d => d = 0)).length 0 ++
        (Nat.digits 256 (accum58 0 ds)).reverse.map toByte) := by
  obtain ⟨out, h1, h2, h3⟩ := base58_decode_digits ds hds
  have h4 := digits_beVal h2
  rw [h3] at h4
  rw [h1, h4]
  simp only [List.map_reverse, List.reverse_reverse, List.map_map]
  have : (toByte ∘ fun (x : Byte) => x.val) = id := by
    funext x
    exact toByte_val x
  rw [this, List.map_id]

/-- C13: for every string `s` made only of alphabet symbols, with `z` leading `1`
characters, `base58_decode(s)` succeeds and returns `z` zero bytes followed by the minimal
big-endian byte representation (no leading zero byte, empty when the value is 0) of the
integer obtained by accumulating `value = value * 58 + symbolIndex` over the characters of
`s`. -/
theorem C13_base58_decode_closed_form (s : List Char) (hs : ∀ c ∈ s, c ∈ BASE58_ALPHABET) :
    ∃ (ds : List Nat) (out : List Byte), symbol_indices s = some ds ∧
      base58_decode s =
        some (List.replicate (s.takeWhile (fun c => c = '1')).length 0 ++ out) ∧
      NoLeadingZero out ∧ beVal out = accum58 0 ds ∧ (accum58 0 ds = 0 → out = []) ∧
      out = (Nat.digits 256 (accum58 0 ds)).reverse.map toByte := by
  obtain ⟨ds, hds, hsym, hmap⟩ := symbol_indices_of_mem s hs
  obtain ⟨out, h1, h2, h3⟩ := base58_decode_digits ds hds
  have h5 := base58_decode_map ds hds
  rw [h1] at h5
  have h6 := List.append_cancel_left (Option.some.inj h5)
  refine ⟨ds, out, hsym, ?_, h2, h3, ?_, h6⟩
  · rw [← hmap, takeWhile_one_map ds hds]
    exact h1
  · intro h0
    exact beVal_eq_zero_of_noLeadingZero h2 (by rw [h3, h0])

/-- Witness of C13: the string `11z` decodes to two zero bytes and the byte 57. -/
theorem C13_base58_decode_closed_form_witness :
    (∀ c ∈ ['1', '1', 'z'], c ∈ BASE58_ALPHABET) ∧
      ∃ (ds : List Nat) (out : List Byte), symbol_indices ['1', '1', 'z'] = some ds ∧
        base58_decode ['1', '1', 'z'] =
          some (List.replicate (['1', '1', 'z'].takeWhile (fun c => c = '1')).length 0 ++
            out) ∧
        NoLeadingZero out ∧ beVal out = accum58 0 ds ∧ (accum58 0 ds = 0 → out = []) ∧
        out = (Nat.digits 256 (accum58 0 ds)).reverse.map toByte :=
  ⟨by decide, C13_base58_decode_closed_form ['1', '1', 'z'] (by decide)⟩

theorem decode_loop_illegal (cs : List Char) (h : ∃ c ∈ cs, c ∉ BASE58_ALPHABET)
    (bin : List Byte) : decode_loop cs bin = none := by
  induction cs generalizing bin with
  | nil => simp at h
  | cons c cs ih =>
    obtain ⟨x, hx, hn⟩ := h
    unfold decode_loop
    cases hc : strchr_alphabet c with
    | none => rfl
    | some digit =>
      simp only
      split_ifs with hcarry
      · rfl
      · rcases List.mem_cons.mp hx with rfl | hx
        · rw [strchr_alphabet_of_not_mem hn] at hc
          cases hc
        · exact ih ⟨x, hx, hn⟩ _

/-- C14 (amended): for every string `s` that, after its leading spaces, contains at least
one character outside the 58-symbol alphabet, `base58_decode(s)` fails. -/
theorem C14_base58_decode_rejects (s : List Char)
    (h : ∃ c ∈ s.dropWhile (fun c => c = ' '), c ∉ BASE58_ALPHABET) :
    base58_decode s = none := by
  unfold base58_decode
  simp only [decode_loop_illegal _ h]

/-- Witness of C14 (amended): the space inside `1 2` is rejected. -/
theorem C14_base58_decode_rejects_witness :
    (∃ c ∈ ['1', ' ', '2'].dropWhile (fun c => c = ' '), c ∉ BASE58_ALPHABET) ∧
      base58_decode ['1', ' ', '2'] = none :=
  ⟨⟨' ', by decide, by decide⟩,
    C14_base58_decode_rejects ['1', ' ', '2'] ⟨' ', by decide, by decide⟩⟩

/-- C14 as stated fails: the string made of a space and the symbol `2` contains a character
outside the alphabet, and `base58_decode` skips the leading space and returns the byte
`0x01`. -/
theorem C14_leading_space_accepted :
    ' ' ∈ [' ', '2'] ∧ ' ' ∉ BASE58_ALPHABET ∧ base58_decode [' ', '2'] = some [1] := by
  decide

/-- C15: `base58_decode_check(s)` succeeds if and only if `base58_decode(s)` succeeds with
at least 4 bytes whose last 4 equal the first 4 bytes of `SHA256(SHA256(preceding bytes))`;
it then returns the bytes preceding the last 4, so `result_len` is the decoded length minus
4. -/
theorem C15_base58_decode_check_iff (SHA256 : List Byte → List Byte) (s : List Char)
    (payload : List Byte) :
    base58_decode_check SHA256 s = some payload ↔
      ∃ bin, base58_decode s = some bin ∧ 4 ≤ bin.length ∧
        bin.drop (bin.length - 4) = (SHA256 (SHA256 (bin.take (bin.length - 4)))).take 4 ∧
        payload = bin.take (bin.length - 4) ∧ payload.length = bin.length - 4 := by
  unfold base58_decode_check
  cases hd : base58_decode s with
  | none => simp
  | some bin =>
    simp only [Option.some.injEq, exists_eq_left']
    by_cases hlen : bin.length < 4
    · rw [if_pos hlen]
      constructor
      · intro h; cases h
      · rintro ⟨h4, _⟩; omega
    · rw [if_neg hlen]
      have hdrop : ((bin.drop (bin.length - 4)).take 4) = bin.drop (bin.length - 4) := by
        apply List.take_of_length_le
        rw [List.length_drop]; omega
      simp only [hdrop]
      constructor
      · intro h
        split_ifs at h with hne
        refine ⟨by omega, ?_, (Option.some.inj h).symm, ?_⟩
        · exact (not_not.mp hne).symm
        · rw [← Option.some.inj h, List.length_take]; omega
      · rintro ⟨_, h2, h3, _⟩
        rw [if_neg (by rw [h2]; simp), h3]


/-! ## `generate_strpublickey` -/

theorem hex_digits_succ (fuel n : Nat) (hn : n ≠ 0) :
    hex_digits (fuel + 1) n = hex_digits fuel (n / 16) ++ [hex_digit (n % 16)] := by
  rw [hex_digits, if_neg hn]

/-- The positional digits of `n` on `k` places. -/
theorem range_map_digits_succ (k n : Nat) :
    (List.range (k + 1)).map (fun i => hex_digit (n / 16 ^ (k - i) % 16)) =
      (List.range k).map (fun i => hex_digit (n / 16 / 16 ^ (k - 1 - i) % 16)) ++
        [hex_digit (n % 16)] := by
  rw [List.range_succ, List.map_append]
  congr 1
  · apply List.map_congr_left
    intro i hi
    have hik : i < k := List.mem_range.mp hi
    have : k - i = (k - 1 - i) + 1 := by omega
    rw [this, pow_succ, Nat.div_div_eq_div_mul, mul_comm]
  · simp

/-- Padding the digits written by `hex_digits` to `k` places gives the positional digits of
`n`, when `n < 16 ^ k`. -/
theorem pad_hex_digits (k fuel n : Nat) (hfuel : n ≤ fuel) (hn : n < 16 ^ k) :
    List.replicate (k - (hex_digits fuel n).length) '0' ++ hex_digits fuel n =
      (List.range k).map (fun i => hex_digit (n / 16 ^ (k - 1 - i) % 16)) := by
  induction k generalizing fuel n with
  | zero =>
    have h0 : n = 0 := by simpa using hn
    subst h0
    cases fuel <;> simp [hex_digits]
  | succ k ih =>
    have hr := range_map_digits_succ k n
    simp only [Nat.add_sub_cancel] at hr ⊢
    rw [hr]
    by_cases h0 : n = 0
    · subst h0
      have hz : hex_digits fuel 0 = [] := by cases fuel <;> simp [hex_digits]
      have ih0 := ih 0 0 (le_refl 0) (by positivity)
      simp only [hex_digits, List.length_nil, Nat.sub_zero, List.append_nil] at ih0
      simp only [Nat.zero_div] at ih0 ⊢
      rw [hz, ← ih0]
      simp only [List.length_nil, Nat.sub_zero, List.append_nil, Nat.zero_mod]
      rw [List.replicate_succ']
      rfl
    · obtain ⟨f, rfl⟩ : ∃ f, fuel = f + 1 := ⟨fuel - 1, by omega⟩
      have hdiv : n / 16 ≤ f := by omega
      have hlt : n / 16 < 16 ^ k := by
        rw [pow_succ] at hn
        exact Nat.div_lt_of_lt_mul (by rw [mul_comm]; exact hn)
      rw [hex_digits_succ f n h0, ← ih f (n / 16) hdiv hlt]
      simp only [List.length_append, List.length_singleton, Nat.add_sub_add_right,
        List.append_assoc]

theorem gmp_Zx_64_eq (x : Int) (h0 : 0 ≤ x) (h1 : x < 2 ^ 256) :
    gmp_Zx_64 x = hex64 x.toNat := by
  obtain ⟨n, rfl⟩ := Int.eq_ofNat_of_zero_le h0
  have hn : n < 16 ^ 64 := by
    have : (n : Int) < ((2 ^ 256 : Nat) : Int) := by exact_mod_cast h1
    have h2 : n < 2 ^ 256 := by exact_mod_cast this
    calc n < 2 ^ 256 := h2
      _ = 16 ^ 64 := by norm_num
  unfold gmp_Zx_64 hex64
  simp only [Int.natAbs_ofNat, Int.toNat_ofNat]
  rw [if_neg (by omega)]
  exact pad_hex_digits 64 n n (le_refl n) hn

theorem hex64_length (x : Nat) : (hex64 x).length = 64 := by
  simp [hex64]

theorem generate_strpublickey_eq (P : Point) (hx : 0 ≤ P.x ∧ P.x < 2 ^ 256)
    (hy : 0 ≤ P.y ∧ P.y < 2 ^ 256) :
    generate_strpublickey P true =
        (if P.y % 2 = 0 then ['0', '2'] else ['0', '3']) ++ hex64 P.x.toNat ∧
      generate_strpublickey P false = ['0', '4'] ++ hex64 P.x.toNat ++ hex64 P.y.toNat := by
  have hX := gmp_Zx_64_eq P.x hx.1 hx.2
  have hY := gmp_Zx_64_eq P.y hy.1 hy.2
  have hbit : mpz_tstbit P.y 0 = false ↔ P.y % 2 = 0 := by
    obtain ⟨n, hn⟩ := Int.eq_ofNat_of_zero_le hy.1
    rw [hn]
    change Nat.testBit n 0 = false ↔ _
    simp only [Nat.testBit_zero]
    constructor
    · intro h
      have : n % 2 = 0 := by
        rcases Nat.mod_two_eq_zero_or_one n with h2 | h2
        · exact h2
        · rw [h2] at h; simp at h
      omega
    · intro h
      have : n % 2 = 0 := by omega
      rw [this]; simp
  constructor
  · unfold generate_strpublickey
    rw [if_pos rfl, hX]
    by_cases hp : P.y % 2 = 0
    · rw [if_pos (hbit.mpr hp), if_pos hp]
      apply List.take_of_length_le
      simp [hex64_length]
    · rw [if_neg (fun h => hp (hbit.mp h)), if_neg hp]
      apply List.take_of_length_le
      simp [hex64_length]
  · unfold generate_strpublickey
    rw [if_neg (by simp), hX, hY]
    apply List.take_of_length_le
    simp [hex64_length]

theorem hex_bytes_length (s : List Char) : (hex_bytes s).length = s.length / 2 := by
  induction s using hex_bytes.induct with
  | case1 c0 c1 rest ih =>
    simp only [hex_bytes, List.length_cons, ih]
    omega
  | case2 s h =>
    match s, h with
    | [], _ => rfl
    | [_], _ => simp [hex_bytes]
    | c0 :: c1 :: rest, h => exact absurd rfl (h c0 c1 rest)

/-- C19 (amended): `generate_strpublickey` does not read the flag `infinity`. For every
point with the flag set and stored coordinates `0 ≤ x, y < 2 ^ 256` it writes the same
string as for the finite point with these coordinates: 66 characters when `compress` is
true, 130 otherwise. -/
theorem C19_infinity_not_checked (P : Point)
    (hP : P.infinity = true ∧ (0 ≤ P.x ∧ P.x < 2 ^ 256) ∧ (0 ≤ P.y ∧ P.y < 2 ^ 256))
    (compress : Bool) :
    generate_strpublickey P compress =
        generate_strpublickey { x := P.x, y := P.y, infinity := false } compress ∧
      generate_strpublickey P compress =
        (if compress then (if P.y % 2 = 0 then ['0', '2'] else ['0', '3']) ++ hex64 P.x.toNat
          else ['0', '4'] ++ hex64 P.x.toNat ++ hex64 P.y.toNat) ∧
      (generate_strpublickey P compress).length = (if compress then 66 else 130) := by
  obtain ⟨_, hx, hy⟩ := hP
  obtain ⟨h1, h2⟩ := generate_strpublickey_eq P hx hy
  refine ⟨rfl, ?_, ?_⟩
  · cases compress with
    | true => rw [if_pos rfl]; exact h1
    | false => rw [if_neg (by simp)]; exact h2
  · cases compress with
    | true =>
      rw [h1, if_pos rfl]
      split_ifs <;> simp [hex64_length]
    | false =>
      rw [h2, if_neg (by simp)]
      simp [hex64_length]

/-- Witness of C19 (amended): the point written by `point_set_infinity`. -/
theorem C19_infinity_not_checked_witness :
    (point_set_infinity.infinity = true ∧
      (0 ≤ point_set_infinity.x ∧ point_set_infinity.x < 2 ^ 256) ∧
      (0 ≤ point_set_infinity.y ∧ point_set_infinity.y < 2 ^ 256)) ∧
      generate_strpublickey point_set_infinity true =
        generate_strpublickey
          { x := point_set_infinity.x, y := point_set_infinity.y, infinity := false } true ∧
      generate_strpublickey point_set_infinity true =
        (if true = true then
          (if point_set_infinity.y % 2 = 0 then ['0', '2'] else ['0', '3']) ++
            hex64 point_set_infinity.x.toNat
          else ['0', '4'] ++ hex64 point_set_infinity.x.toNat ++
            hex64 point_set_infinity.y.toNat) ∧
      (generate_strpublickey point_set_infinity true).length =
        (if true = true then 66 else 130) :=
  ⟨by simp [point_set_infinity],
    C19_infinity_not_checked point_set_infinity (by simp [point_set_infinity]) true⟩

/-- C19 as stated fails: for the point at infinity written by `point_set_infinity`,
`generate_strpublickey` reports nothing and leaves a public-key string in `dst`, for both
values of `compress`. -/
theorem C19_infinity_is_serialized :
    point_set_infinity.infinity = true ∧
      generate_strpublickey point_set_infinity true =
        '0' :: '2' :: List.replicate 64 '0' ∧
      generate_strpublickey point_set_infinity false =
        '0' :: '4' :: List.replicate 128 '0' := by
  decide


/-! ## `hex2bin`, WIF and addresses -/

theorem hex2bin_loop_eq (hex : List Char) (hhex : ∀ c ∈ hex, (hexval c).isSome = true)
    (n i : Nat) (hlen : hex.length = 2 * (i + n)) :
    hex2bin_loop hex n i = some (hex_bytes (hex.drop (2 * i))) := by
  induction n generalizing i with
  | zero =>
    have : hex.drop (2 * i) = [] := List.drop_eq_nil_of_le (by omega)
    rw [this]
    rfl
  | succ n ih =>
    have hb := ih (i + 1) (by omega)
    have hdl : (hex.drop (2 * i)).length = 2 * n + 2 := by
      rw [List.length_drop]; omega
    match hd : hex.drop (2 * i), hdl with
    | c0 :: c1 :: rest, _ =>
      have hm0 : c0 ∈ hex := List.mem_of_mem_drop (by rw [hd]; simp)
      have hm1 : c1 ∈ hex := List.mem_of_mem_drop (by rw [hd]; simp)
      obtain ⟨d0, h0⟩ := Option.isSome_iff_exists.mp (hhex c0 hm0)
      obtain ⟨d1, h1⟩ := Option.isSome_iff_exists.mp (hhex c1 hm1)
      have hrest : hex.drop (2 * (i + 1)) = rest := by
        have : 2 * (i + 1) = 2 * i + 2 := by ring
        rw [this, ← List.drop_drop, hd]
        rfl
      rw [hex2bin_loop, hd, sscanf_02x_digits c0 c1 rest d0 d1 h0 h1, hb, hrest]
      simp only [hex_bytes, h0, h1, Option.getD_some]

/-- On a string of `2·n` hexadecimal digits `hex2bin` yields the bytes the string
denotes. -/
theorem hex2bin_eq (hex : List Char) (n : Nat) (hlen : hex.length = 2 * n)
    (hhex : ∀ c ∈ hex, (hexval c).isSome = true) :
    hex2bin hex n = some (hex_bytes hex) := by
  unfold hex2bin
  rw [if_neg (by omega)]
  have := hex2bin_loop_eq hex hhex n 0 (by omega)
  simpa using this

set_option maxRecDepth 100000 in
theorem sprintf_02x_spec : ∀ b : Byte,
    (∀ c ∈ sprintf_02x b, c ∈ "0123456789abcdef".toList) ∧
      hex_bytes (sprintf_02x b) = [b] := by
  decide!

theorem hex_bytes_append_pair (c0 c1 : Char) (rest : List Char) :
    hex_bytes (c0 :: c1 :: rest) = hex_bytes [c0, c1] ++ hex_bytes rest := by
  simp [hex_bytes]

theorem flatMap_sprintf_02x (bs : List Byte) :
    (bs.flatMap sprintf_02x).length = 2 * bs.length ∧
      (∀ c ∈ bs.flatMap sprintf_02x, c ∈ "0123456789abcdef".toList) ∧
      hex_bytes (bs.flatMap sprintf_02x) = bs := by
  induction bs with
  | nil => exact ⟨rfl, by simp, rfl⟩
  | cons b bs ih =>
    obtain ⟨h1, h2, h3⟩ := ih
    obtain ⟨s1, s2⟩ := sprintf_02x_spec b
    refine ⟨?_, ?_, ?_⟩
    · simp only [List.flatMap_cons, List.length_append, h1, List.length_cons]
      simp [sprintf_02x]
      omega
    · intro c hc
      simp only [List.flatMap_cons, List.mem_append] at hc
      rcases hc with hc | hc
      · exact s1 c hc
      · exact h2 c hc
    · simp only [List.flatMap_cons]
      have : sprintf_02x b ++ bs.flatMap sprintf_02x =
          (sprintf_02x b).head! :: (sprintf_02x b).tail.head! :: bs.flatMap sprintf_02x := by
        simp [sprintf_02x]
      rw [this, hex_bytes_append_pair, h3]
      have : [(sprintf_02x b).head!, (sprintf_02x b).tail.head!] = sprintf_02x b := by
        simp [sprintf_02x]
      rw [this, s2]
      rfl

theorem digits_split_zeros (ds : List Nat) :
    ds = List.replicate (ds.takeWhile (fun d => d = 0)).length 0 ++
      ds.drop (ds.takeWhile (fun d => d = 0)).length := by
  have h1 : ds.takeWhile (fun d => d = 0) =
      List.replicate (ds.takeWhile (fun d => d = 0)).length 0 := by
    apply List.eq_replicate_of_mem
    intro x hx
    simpa using List.mem_takeWhile_imp hx
  have h2 : ds.take (ds.takeWhile (fun d => d = 0)).length = ds.takeWhile (fun d => d = 0) := by
    have h := List.takeWhile_append_dropWhile (fun d => decide (d = 0)) ds
    conv_lhs => arg 2; rw [← h]
    exact List.take_left _ _
  conv_lhs => rw [← List.take_append_drop (ds.takeWhile (fun d => d = 0)).length ds]
  rw [h2, ← h1]

/-- On a string of alphabet symbols the decoding of section 4.5 and `base58_decode`
agree. -/
theorem spec_base58_decode_eq (s : List Char) (hs : ∀ c ∈ s, c ∈ BASE58_ALPHABET) :
    spec_base58_decode s = base58_decode s := by
  obtain ⟨ds, hds, _, hmap⟩ := symbol_indices_of_mem s hs
  have hz := takeWhile_one_map ds hds
  rw [hmap] at hz
  have hsplit := digits_split_zeros ds
  have hdrop : s.drop (ds.takeWhile (fun d => d = 0)).length =
      (ds.drop (ds.takeWhile (fun d => d = 0)).length).map alphabetAt := by
    rw [← hmap, List.map_drop]
  have hidx := symbol_indices_map (ds.drop (ds.takeWhile (fun d => d = 0)).length)
    (fun d hd => hds d (List.mem_of_mem_drop hd))
  have hacc : accum58 0 (ds.drop (ds.takeWhile (fun d => d = 0)).length) = accum58 0 ds := by
    conv_rhs => rw [hsplit]
    rw [accum58_zero_replicate]
  have hcode := base58_decode_map ds hds
  rw [hmap] at hcode
  unfold spec_base58_decode
  simp only [hdrop, hidx, hacc, hcode, hz]

set_option maxRecDepth 100000 in
theorem toyWif_decode : base58_decode toyWif = some toyWifBytes := by
  decide!

set_option maxRecDepth 100000 in
theorem toyWif_checksum :
    toyWifBytes.drop (toyWifBytes.length - 4) =
      (sha256 (sha256 (toyWifBytes.take (toyWifBytes.length - 4)))).take 4 := by
  decide!

theorem wif_to_private_key_of_decode (wif : List Char) (d : List Byte) (hex_len : Nat)
    (hd : spec_base58_decode wif = some d) (h100 : d.length ≤ 100) :
    wif_to_private_key wif hex_len =
      if d.length ≠ 37 ∧ d.length ≠ 38 then none
      else if d.getD 0 0 ≠ 0x80 then none
      else if (sha256 (sha256 (d.take (d.length - 4)))).take 4 ≠ d.drop (d.length - 4)
        then none
      else if hex_len < 65 then none
      else some (((d.drop 1).take 32).flatMap sprintf_02x, decide (d.length = 38)) := by
  simp only [wif_to_private_key, b58tobin, hd, if_pos h100]

/-- C16: `wif_to_private_key` returns failure for every input whose Base58 decoding fails,
whose decoding is not exactly 37 or 38 bytes long, does not start with the version byte
`0x80`, or whose last 4 bytes differ from the first 4 bytes of
`SHA256(SHA256(preceding bytes))`; for every other input, with `hex_len ≥ 65`, it succeeds,
writes the decoded bytes 1..32 as 64 lowercase hexadecimal digits and sets `compressed` to
true exactly when the decoded length is 38. The Base58 decoding is the one of section 4.5
of the specification, which `b58tobin` is modelled from. -/
theorem C16_wif_to_private_key_cases (wif : List Char) (hex_len : Nat) :
    (spec_base58_decode wif = none → wif_to_private_key wif hex_len = none) ∧
      ∀ d, spec_base58_decode wif = some d →
        ((d.length ≠ 37 ∧ d.length ≠ 38) → wif_to_private_key wif hex_len = none) ∧
        (d.head? ≠ some 0x80 → wif_to_private_key wif hex_len = none) ∧
        (d.drop (d.length - 4) ≠ (sha256 (sha256 (d.take (d.length - 4)))).take 4 →
          wif_to_private_key wif hex_len = none) ∧
        ((d.length = 37 ∨ d.length = 38) → d.head? = some 0x80 →
          d.drop (d.length - 4) = (sha256 (sha256 (d.take (d.length - 4)))).take 4 →
          65 ≤ hex_len →
          wif_to_private_key wif hex_len =
              some (((d.drop 1).take 32).flatMap sprintf_02x, decide (d.length = 38)) ∧
            (((d.drop 1).take 32).flatMap sprintf_02x).length = 64 ∧
            (∀ c ∈ ((d.drop 1).take 32).flatMap sprintf_02x,
              c ∈ "0123456789abcdef".toList) ∧
            hex_bytes (((d.drop 1).take 32).flatMap sprintf_02x) = (d.drop 1).take 32) := by
  refine ⟨?_, ?_⟩
  · intro h
    simp [wif_to_private_key, b58tobin, h]
  · intro d hd
    have hget : d.getD 0 0 = 0x80 ↔ d.head? = some 0x80 := by
      cases d with
      | nil => simp only [List.getD_nil, List.head?_nil]; decide
      | cons x xs => simp
    by_cases h100 : d.length ≤ 100
    · have hw := wif_to_private_key_of_decode wif d hex_len hd h100
      refine ⟨?_, ?_, ?_, ?_⟩
      · intro hl
        rw [hw, if_pos hl]
      · intro hh
        rw [hw]
        by_cases hl : d.length ≠ 37 ∧ d.length ≠ 38
        · rw [if_pos hl]
        · rw [if_neg hl, if_pos (fun hg => hh (hget.mp hg))]
      · intro hs
        rw [hw]
        by_cases hl : d.length ≠ 37 ∧ d.length ≠ 38
        · rw [if_pos hl]
        · rw [if_neg hl]
          by_cases hg : d.getD 0 0 ≠ 0x80
          · rw [if_pos hg]
          · rw [if_neg hg, if_pos (fun h => hs h.symm)]
      · intro hl hh hs hx
        have hfl := flatMap_sprintf_02x ((d.drop 1).take 32)
        have hlen32 : ((d.drop 1).take 32).length = 32 := by
          rw [List.length_take, List.length_drop]
          omega
        refine ⟨?_, by rw [hfl.1, hlen32], hfl.2.1, hfl.2.2⟩
        rw [hw, if_neg (by omega), if_neg (not_not.mpr (hget.mpr hh)),
          if_neg (not_not.mpr hs.symm), if_neg (by omega)]
    · have hw : wif_to_private_key wif hex_len = none := by
        simp only [wif_to_private_key, b58tobin, hd, if_neg h100]
      refine ⟨fun _ => hw, fun _ => hw, fun _ => hw, ?_⟩
      intro hl
      omega

/-- Witness of C16: the WIF string `toyWif` of the key `toyPrivHex` decodes to 37 bytes that
pass every check, and `wif_to_private_key` returns the key with `compressed = false`. -/
theorem C16_wif_to_private_key_cases_witness :
    spec_base58_decode toyWif = some toyWifBytes ∧
      (toyWifBytes.length = 37 ∨ toyWifBytes.length = 38) ∧
      toyWifBytes.head? = some 0x80 ∧
      toyWifBytes.drop (toyWifBytes.length - 4) =
        (sha256 (sha256 (toyWifBytes.take (toyWifBytes.length - 4)))).take 4 ∧
      65 ≤ 65 ∧
      wif_to_private_key toyWif 65 = some (toyPrivHex, false) :=
  ⟨(spec_base58_decode_eq toyWif (by decide)).trans toyWif_decode, Or.inl rfl, rfl,
    toyWif_checksum, le_refl _,
    (((C16_wif_to_private_key_cases toyWif 65).2 toyWifBytes
      ((spec_base58_decode_eq toyWif (by decide)).trans toyWif_decode)).2.2.2
        (Or.inl rfl) rfl toyWif_checksum (le_refl _)).1.trans (by decide)⟩

/-- C17: for every private key given as 64 hexadecimal digits (bytes `s`) and flag `c`,
`private_key_to_wif` with a 100-byte output buffer succeeds and writes the Base58 encoding
of `payload ‖ SHA256(SHA256(payload))[0:4]`, where `payload = 0x80 ‖ s` (33 bytes) when `c`
is false and `0x80 ‖ s ‖ 0x01` (34 bytes) when `c` is true; it fails when the string is not
exactly 64 characters long. The Base58 encoding is the one of section 4.5 of the
specification, which `b58enc` is modelled from. -/
theorem C17_private_key_to_wif (priv_hex : List Char) (c : Bool) :
    (priv_hex.length = 64 → (∀ ch ∈ priv_hex, (hexval ch).isSome = true) →
      (hex_bytes priv_hex).length = 32 ∧
      ((0x80 : Byte) :: hex_bytes priv_hex ++ (if c then [0x01] else [])).length =
        (if c then 34 else 33) ∧
      private_key_to_wif priv_hex c 100 = some (spec_base58_encode (with_checksum
        ((0x80 : Byte) :: hex_bytes priv_hex ++ (if c then [0x01] else []))))) ∧
      (priv_hex.length ≠ 64 → ∀ wif_len, private_key_to_wif priv_hex c wif_len = none) := by
  refine ⟨?_, ?_⟩
  · intro hlen hhex
    have hb := hex2bin_eq priv_hex 32 (by omega) hhex
    have hl : (hex_bytes priv_hex).length = 32 := by rw [hex_bytes_length, hlen]
    have h4 : ∀ d : List Byte, ((sha256 (sha256 d)).take 4).length = 4 := by
      intro d
      rw [List.length_take, sha256_length]
      rfl
    refine ⟨hl, ?_, ?_⟩
    · cases c <;> simp [hl]
    · have henc : ∀ full : List Byte, full.length ≤ 38 →
          b58enc 100 full = some (spec_base58_encode full) := by
        intro full hfull
        have := spec_base58_encode_length full
        simp only [b58enc]
        rw [if_pos (by omega)]
      simp only [private_key_to_wif, hb, with_checksum]
      cases c with
      | false =>
        simp only [Bool.false_eq_true, if_false, List.append_nil]
        apply henc
        simp [h4, hl]
      | true =>
        simp only [if_true]
        apply henc
        simp [h4, hl]
  · intro hlen wif_len
    simp only [private_key_to_wif, hex2bin]
    rw [if_pos (by omega)]

/-- Witness of C17: the key `toyPrivHex`, compressed. -/
theorem C17_private_key_to_wif_witness :
    toyPrivHex.length = 64 ∧ (∀ ch ∈ toyPrivHex, (hexval ch).isSome = true) ∧
      (hex_bytes toyPrivHex).length = 32 ∧
      ((0x80 : Byte) :: hex_bytes toyPrivHex ++ (if true then [0x01] else [])).length =
        (if true then 34 else 33) ∧
      private_key_to_wif toyPrivHex true 100 = some (spec_base58_encode (with_checksum
        ((0x80 : Byte) :: hex_bytes toyPrivHex ++ (if true then [0x01] else [])))) :=
  ⟨by decide, by decide,
    (C17_private_key_to_wif toyPrivHex true).1 (by decide) (by decide)⟩


theorem with_checksum_length (V : List Byte) : (with_checksum V).length = V.length + 4 := by
  simp [with_checksum, sha256_length]

theorem base58check_encode_eq (version : Byte) (hash20 : List Byte)
    (h : hash20.length = 20) :
    base58check_encode version hash20 100 =
      some (spec_base58_encode (with_checksum (version :: hash20))) := by
  have htake : hash20.take 20 = hash20 := List.take_of_length_le (by omega)
  have hlen := with_checksum_length (version :: hash20)
  have := spec_base58_encode_length (with_checksum (version :: hash20))
  simp only [base58check_encode, htake, b58enc]
  rw [List.length_cons, h] at hlen
  change (if (spec_base58_encode (with_checksum (version :: hash20))).length < 100 then _
    else _) = _
  rw [if_pos (by omega)]
  rfl

/-- C20: for every public key given as valid even-length hexadecimal text (bytes `K`, which
fit the 100-byte buffer `pub_bin`), `public_key_to_address` returns: for `P2PKH` the Base58
encoding of `V ‖ SHA256(SHA256(V))[0:4]` with `V = 0x00 ‖ hash160(K)`; for `P2SH` the same
with `V = 0x05 ‖ hash160(K)`; for `P2SH-P2WPKH` the same with
`V = 0x05 ‖ hash160(0x00 0x14 ‖ hash160(K))`, where `hash160(x) = RIPEMD160(SHA256(x))`;
the encoded bytes are always 25 long. The Base58 encoding is the one of section 4.5 of the
specification, which `b58enc` is modelled from; `RMD160Data` is any function with 20-byte
digests. -/
theorem C20_base58_addresses (RMD160Data : List Byte → List Byte)
    (hrmd : ∀ x, (RMD160Data x).length = 20)
    (segwit_addr_encode : List Char → Nat → List Byte → Option (List Char))
    (public_key_hex : List Char)
    (hhex : (∀ c ∈ public_key_hex, (hexval c).isSome = true) ∧
      public_key_hex.length % 2 = 0 ∧ public_key_hex.length ≤ 200) :
    (public_key_to_address RMD160Data segwit_addr_encode public_key_hex "P2PKH".toList =
        some (spec_base58_encode (with_checksum
          (0x00 :: RMD160Data (sha256 (hex_bytes public_key_hex))))) ∧
      (with_checksum (0x00 :: RMD160Data (sha256 (hex_bytes public_key_hex)))).length = 25) ∧
    (public_key_to_address RMD160Data segwit_addr_encode public_key_hex "P2SH".toList =
        some (spec_base58_encode (with_checksum
          (0x05 :: RMD160Data (sha256 (hex_bytes public_key_hex))))) ∧
      (with_checksum (0x05 :: RMD160Data (sha256 (hex_bytes public_key_hex)))).length = 25) ∧
    (public_key_to_address RMD160Data segwit_addr_encode public_key_hex
          "P2SH-P2WPKH".toList =
        some (spec_base58_encode (with_checksum
          (0x05 :: RMD160Data (sha256
            ([0x00, 0x14] ++ RMD160Data (sha256 (hex_bytes public_key_hex))))))) ∧
      (with_checksum (0x05 :: RMD160Data (sha256
        ([0x00, 0x14] ++ RMD160Data (sha256 (hex_bytes public_key_hex)))))).length = 25) := by
  obtain ⟨hdig, heven, _⟩ := hhex
  have hb := hex2bin_eq public_key_hex (public_key_hex.length / 2) (by omega) hdig
  have htake : ∀ x, (RMD160Data x).take 20 = RMD160Data x := fun x =>
    List.take_of_length_le (by rw [hrmd])
  have hlen : ∀ (v : Byte) (x : List Byte), (with_checksum (v :: RMD160Data x)).length = 25 := by
    intro v x
    rw [with_checksum_length, List.length_cons, hrmd]
  refine ⟨⟨?_, hlen _ _⟩, ⟨?_, hlen _ _⟩, ⟨?_, hlen _ _⟩⟩
  · simp only [public_key_to_address, hb, hash160]
    rw [if_pos trivial]
    exact base58check_encode_eq _ _ (hrmd _)
  · simp only [public_key_to_address, hb, hash160]
    rw [if_pos trivial]
    exact base58check_encode_eq _ _ (hrmd _)
  · simp only [public_key_to_address, hb, hash160, htake]
    rw [if_pos trivial]
    exact base58check_encode_eq _ _ (hrmd _)

/-- Witness of C20: the compressed public key of the secp256k1 generator, with the stand-in
`zeroHash20` for RIPEMD-160. -/
theorem C20_base58_addresses_witness :
    (∀ x, (zeroHash20 x).length = 20) ∧
      ((∀ c ∈ generate_strpublickey secp256k1_G true, (hexval c).isSome = true) ∧
        (generate_strpublickey secp256k1_G true).length % 2 = 0 ∧
        (generate_strpublickey secp256k1_G true).length ≤ 200) ∧
      public_key_to_address zeroHash20 (fun _ _ _ => none)
          (generate_strpublickey secp256k1_G true) "P2PKH".toList =
        some (spec_base58_encode (with_checksum
          (0x00 :: zeroHash20 (sha256 (hex_bytes (generate_strpublickey secp256k1_G true)))))) :=
  ⟨fun _ => rfl, by decide,
    (C20_base58_addresses zeroHash20 (fun _ => rfl) (fun _ _ _ => none)
      (generate_strpublickey secp256k1_G true) (by decide)).1.1⟩


/-! ## The SegWit branches of `public_key_to_address` -/

/-- C21: for every public key given as valid even-length hexadecimal text (bytes `K`, which
fit the 100-byte buffer `pub_bin`), `public_key_to_address` returns the result of
`segwit_addr_encode` with hrp `bc` and: witness version 0 and program `hash160(K)` (20
bytes) for `BECH32`; witness version 1 and program `hash160(K)` for `BECH32M`; witness
version 0 and program `SHA256(K)` (32 bytes) for `P2WSH`; witness version 0 and program
`SHA256(0x00 0x14 ‖ hash160(K))` (32 bytes) for `P2WSH-P2WPKH`; it returns `NULL` whenever
`segwit_addr_encode` does not return 1. `segwit_addr_encode` is any function, `RMD160Data`
any function with 20-byte digests. -/
theorem C21_segwit_addresses (RMD160Data : List Byte → List Byte)
    (hrmd : ∀ x, (RMD160Data x).length = 20)
    (segwit_addr_encode : List Char → Nat → List Byte → Option (List Char))
    (public_key_hex : List Char)
    (hhex : (∀ c ∈ public_key_hex, (hexval c).isSome = true) ∧
      public_key_hex.length % 2 = 0 ∧ public_key_hex.length ≤ 200) :
    (public_key_to_address RMD160Data segwit_addr_encode public_key_hex "BECH32".toList =
        segwit_addr_encode "bc".toList 0 (RMD160Data (sha256 (hex_bytes public_key_hex))) ∧
      public_key_to_address RMD160Data segwit_addr_encode public_key_hex "BECH32M".toList =
        segwit_addr_encode "bc".toList 1 (RMD160Data (sha256 (hex_bytes public_key_hex))) ∧
      (RMD160Data (sha256 (hex_bytes public_key_hex))).length = 20) ∧
    (public_key_to_address RMD160Data segwit_addr_encode public_key_hex "P2WSH".toList =
        segwit_addr_encode "bc".toList 0 (sha256 (hex_bytes public_key_hex)) ∧
      (sha256 (hex_bytes public_key_hex)).length = 32) ∧
    (public_key_to_address RMD160Data segwit_addr_encode public_key_hex
          "P2WSH-P2WPKH".toList =
        segwit_addr_encode "bc".toList 0
          (sha256 ([0x00, 0x14] ++ RMD160Data (sha256 (hex_bytes public_key_hex)))) ∧
      (sha256 ([0x00, 0x14] ++ RMD160Data (sha256 (hex_bytes public_key_hex)))).length
        = 32) := by
  obtain ⟨hdig, heven, _⟩ := hhex
  have hb := hex2bin_eq public_key_hex (public_key_hex.length / 2) (by omega) hdig
  have htake : ∀ x, (RMD160Data x).take 20 = RMD160Data x := fun x =>
    List.take_of_length_le (by rw [hrmd])
  refine ⟨⟨?_, ?_, hrmd _⟩, ⟨?_, sha256_length _⟩, ⟨?_, sha256_length _⟩⟩
  · simp only [public_key_to_address, hb, hash160, htake]
    rw [if_neg (by decide), if_neg (by decide),
      if_pos trivial]
  · simp only [public_key_to_address, hb, hash160, htake]
    rw [if_neg (by decide), if_neg (by decide), if_neg (by decide),
      if_pos trivial]
  · simp only [public_key_to_address, hb, hash160, htake]
    rw [if_neg (by decide), if_neg (by decide), if_neg (by decide), if_neg (by decide),
      if_neg (by decide), if_pos trivial]
  · simp only [public_key_to_address, hb, hash160, htake]
    rw [if_neg (by decide), if_neg (by decide), if_neg (by decide), if_neg (by decide),
      if_neg (by decide), if_neg (by decide), if_pos trivial]

/-- Witness of C21: the compressed public key of the secp256k1 generator, with stand-ins
for RIPEMD-160 and for `segwit_addr_encode` (which here fails for witness version 1). -/
theorem C21_segwit_addresses_witness :
    (∀ x, (zeroHash20 x).length = 20) ∧
      ((∀ c ∈ generate_strpublickey secp256k1_G true, (hexval c).isSome = true) ∧
        (generate_strpublickey secp256k1_G true).length % 2 = 0 ∧
        (generate_strpublickey secp256k1_G true).length ≤ 200) ∧
      public_key_to_address zeroHash20 (fun hrp v _ => if v = 0 then some hrp else none)
          (generate_strpublickey secp256k1_G true) "BECH32M".toList = none :=
  ⟨fun _ => rfl, by decide,
    (C21_segwit_addresses zeroHash20 (fun _ => rfl)
      (fun hrp v _ => if v = 0 then some hrp else none)
      (generate_strpublickey secp256k1_G true) (by decide)).1.2.1⟩

/-- C22: for every public-key text (of at most 200 characters, so that the decoded key
fits the 100-byte buffer `pub_bin`) and every `address_type` that is not exactly one of
`P2PKH`, `P2SH`, `P2SH-P2WPKH`, `BECH32`, `BECH32M`, `P2WSH`, `P2WSH-P2WPKH` (the comparison
is case-sensitive), `public_key_to_address` returns `NULL`. -/
theorem C22_unknown_address_type (RMD160Data : List Byte → List Byte)
    (segwit_addr_encode : List Char → Nat → List Byte → Option (List Char))
    (public_key_hex address_type : List Char) (_hlen : public_key_hex.length ≤ 200)
    (h : address_type ∉ ["P2PKH".toList, "P2SH".toList, "P2SH-P2WPKH".toList,
      "BECH32".toList, "BECH32M".toList, "P2WSH".toList, "P2WSH-P2WPKH".toList]) :
    public_key_to_address RMD160Data segwit_addr_encode public_key_hex address_type
      = none := by
  simp only [List.mem_cons, List.mem_singleton, List.not_mem_nil, or_false, not_or] at h
  obtain ⟨h1, h2, h3, h4, h5, h6, h7⟩ := h
  cases hb : hex2bin public_key_hex (public_key_hex.length / 2) with
  | none => simp only [public_key_to_address, hb]
  | some pub_bin =>
    simp only [public_key_to_address, hb]
    rw [if_neg h1, if_neg h2, if_neg h4, if_neg h5, if_neg h3, if_neg h6, if_neg h7]

/-- Witness of C22: the lowercase tag `p2pkh` is not recognised. -/
theorem C22_unknown_address_type_witness :
    (generate_strpublickey secp256k1_G true).length ≤ 200 ∧
      "p2pkh".toList ∉ ["P2PKH".toList, "P2SH".toList, "P2SH-P2WPKH".toList,
        "BECH32".toList, "BECH32M".toList, "P2WSH".toList, "P2WSH-P2WPKH".toList] ∧
      public_key_to_address zeroHash20 (fun _ _ _ => none)
        (generate_strpublickey secp256k1_G true) "p2pkh".toList = none :=
  ⟨by decide, by decide, C22_unknown_address_type zeroHash20 (fun _ _ _ => none)
    (generate_strpublickey secp256k1_G true) "p2pkh".toList (by decide) (by decide)⟩


/-! ## Failure reporting and ranges in ecc.c and `hex2bin` -/

/-- C23 (amended): `point_doubling` and `point_addition` report no failure. They ignore the
return value of `mpz_invert`: for a modulus `p ≠ 0`, when the value to be inverted (`2·y`,
respectively `x_Q − x_P`) has no inverse modulo `p`, they still return a non-infinity
point, whose two coordinates are computed from the value `mpz_invert` leaves in `inv` and
reduced modulo `p`. -/
theorem C23_inverse_failure_ignored (EC : EllipticCurve) (_hp : EC.p ≠ 0) (P Q : Point) :
    (P.infinity = false → P.y ≠ 0 → (mpz_invert (P.y * 2) (P.y * 2) EC.p).2 = false →
      point_doubling EC P =
        (let slope := (P.x * P.x * 3 + EC.a) * (mpz_invert (P.y * 2) (P.y * 2) EC.p).1 % EC.p
         let Rx := (slope * slope - P.x * 2) % EC.p
         { x := Rx, y := (slope * (P.x - Rx) - P.y) % EC.p, infinity := false })) ∧
    (P.infinity = false → Q.infinity = false → P.x ≠ Q.x →
      (mpz_invert (Q.x - P.x) (Q.x - P.x) EC.p).2 = false →
      point_addition EC P Q =
        (let slope := (Q.y - P.y) * (mpz_invert (Q.x - P.x) (Q.x - P.x) EC.p).1 % EC.p
         let Rx := (slope * slope - P.x - Q.x) % EC.p
         { x := Rx, y := (slope * (P.x - Rx) - P.y) % EC.p, infinity := false })) := by
  refine ⟨?_, ?_⟩
  · intro hP hy _
    simp [point_doubling, point_is_infinity, hP, hy, mpz_mod]
  · intro hP hQ hx _
    simp [point_addition, point_is_infinity, hP, hQ, hx, mpz_mod]

/-- Witness of C23 (amended): modulo 15 neither `2·3` nor `4 − 1` has an inverse, and both
operations return a finite point, `(7, 9)` and `(4, 5)`. -/
theorem C23_inverse_failure_ignored_witness :
    ((15 : Int) ≠ 0 ∧ (mpz_invert (3 * 2) (3 * 2) 15).2 = false ∧
      point_doubling ⟨15, 0, 0, 0⟩ ⟨1, 3, false⟩ = ⟨7, 9, false⟩) ∧
    ((mpz_invert (4 - 1) (4 - 1) 15).2 = false ∧
      point_addition ⟨15, 0, 0, 0⟩ ⟨1, 1, false⟩ ⟨4, 2, false⟩ = ⟨4, 5, false⟩) :=
  ⟨⟨by decide, by decide,
      ((C23_inverse_failure_ignored ⟨15, 0, 0, 0⟩ (by decide) ⟨1, 3, false⟩
        ⟨1, 3, false⟩).1 rfl (by decide) (by decide)).trans (by decide)⟩,
    ⟨by decide,
      ((C23_inverse_failure_ignored ⟨15, 0, 0, 0⟩ (by decide) ⟨1, 1, false⟩
        ⟨4, 2, false⟩).2 rfl rfl (by decide) (by decide)).trans (by decide)⟩⟩

/-- C23 as stated fails: modulo 15 the value `2·3 = 6` has no inverse (no `k` in `[0, 15)`
gives `6·k ≡ 1`), `mpz_invert` returns 0, and `point_doubling` returns the finite point
`(7, 9)` without any report; likewise `4 − 1 = 3` has no inverse and `point_addition`
returns the finite point `(4, 5)`. -/
theorem C23_non_invertible_not_reported :
    (∀ k : Fin 15, (6 * k.val) % 15 ≠ 1) ∧
      (mpz_invert 6 6 15).2 = false ∧
      point_doubling ⟨15, 0, 0, 0⟩ ⟨1, 3, false⟩ = ⟨7, 9, false⟩ ∧
      (∀ k : Fin 15, (3 * k.val) % 15 ≠ 1) ∧
      (mpz_invert 3 3 15).2 = false ∧
      point_addition ⟨15, 0, 0, 0⟩ ⟨1, 1, false⟩ ⟨4, 2, false⟩ = ⟨4, 5, false⟩ := by
  decide

/-- C24 fails on the code: `hex2bin` reads each byte with `sscanf("%02x")`, which skips
white space, accepts a sign and stops at the first character that is not a hexadecimal
digit. The two-character strings `1g`, ` 1` and `-1` contain a character that is not a
hexadecimal digit, and `hex2bin` with `n = 1` returns 0 on each of them, storing `0x01`,
`0x01` and `0xff`. -/
theorem C24_hex2bin_accepts_non_hex :
    (hexval 'g' = none ∧ hex2bin ['1', 'g'] 1 = some [0x01]) ∧
      (hexval ' ' = none ∧ hex2bin [' ', '1'] 1 = some [0x01]) ∧
      (hexval '-' = none ∧ hex2bin ['-', '1'] 1 = some [0xff]) := by
  decide

/-- C25: for every modulus `p > 0` and operands whose coordinates lie in `[0, p)`, every
non-infinity point returned by `point_doubling` or `point_addition` has both coordinates in
`[0, p)`. -/
theorem C25_coordinates_in_range (p a b n : Int) (hp : 0 < p) (P Q : Point)
    (hP : InField ⟨p, a, b, n⟩ P) (hQ : InField ⟨p, a, b, n⟩ Q) :
    ((point_doubling ⟨p, a, b, n⟩ P).infinity = false →
        InField ⟨p, a, b, n⟩ (point_doubling ⟨p, a, b, n⟩ P)) ∧
      ((point_addition ⟨p, a, b, n⟩ P Q).infinity = false →
        InField ⟨p, a, b, n⟩ (point_addition ⟨p, a, b, n⟩ P Q)) := by
  have hmod : ∀ z : Int, 0 ≤ mpz_mod z p ∧ mpz_mod z p < p := fun z =>
    ⟨Int.emod_nonneg z (ne_of_gt hp), Int.emod_lt_of_pos z hp⟩
  have hdbl : (point_doubling ⟨p, a, b, n⟩ P).infinity = false →
      InField ⟨p, a, b, n⟩ (point_doubling ⟨p, a, b, n⟩ P) := by
    intro h
    unfold point_doubling at h ⊢
    by_cases h1 : point_is_infinity P = true
    · rw [if_pos h1] at h; exact absurd h (by decide)
    · rw [if_neg h1] at h ⊢
      by_cases h2 : P.y = 0
      · rw [if_pos h2] at h; exact absurd h (by decide)
      · rw [if_neg h2]
        exact ⟨(hmod _).1, (hmod _).2, (hmod _).1, (hmod _).2⟩
  refine ⟨hdbl, ?_⟩
  intro h
  unfold point_addition at h ⊢
  by_cases h1 : point_is_infinity P = true
  · rw [if_pos h1]; exact hQ
  · rw [if_neg h1] at h ⊢
    by_cases h2 : point_is_infinity Q = true
    · rw [if_pos h2]; exact hP
    · rw [if_neg h2] at h ⊢
      by_cases h3 : P.x = Q.x
      · rw [if_pos h3] at h ⊢
        simp only at h ⊢
        by_cases h4 : mpz_mod (P.y + Q.y) p = 0
        · rw [if_pos h4] at h; exact absurd h (by decide)
        · rw [if_neg h4] at h ⊢
          exact hdbl h
      · rw [if_neg h3]
        exact ⟨(hmod _).1, (hmod _).2, (hmod _).1, (hmod _).2⟩

/-- Witness of C25: the points `(5, 1)` and `(6, 3)` of the curve over `ZMod 17`. -/
theorem C25_coordinates_in_range_witness :
    ((0 : Int) < 17 ∧ InField ⟨17, 2, 2, 19⟩ toyP ∧ InField ⟨17, 2, 2, 19⟩ toyQ) ∧
      ((point_doubling ⟨17, 2, 2, 19⟩ toyP).infinity = false →
        InField ⟨17, 2, 2, 19⟩ (point_doubling ⟨17, 2, 2, 19⟩ toyP)) ∧
      ((point_addition ⟨17, 2, 2, 19⟩ toyP toyQ).infinity = false →
        InField ⟨17, 2, 2, 19⟩ (point_addition ⟨17, 2, 2, 19⟩ toyP toyQ)) :=
  ⟨by decide, C25_coordinates_in_range 17 2 2 19 (by decide) toyP toyQ (by decide)
    (by decide)⟩

/-- C26 fails on the code for `y = 0`: on the curve `y² = x³ − x` over `ZMod 17` the point
`(1, 0)` has its coordinates in `[0, 17)`, and `point_negation` returns `(1, 17)`, whose
`y` is not in `[0, 17)`; `point_doubling` of that result is not the point at infinity,
although `(1, 0)` has order 2. For `y ≠ 0` the result `p − y` is in range. -/
theorem C26_negation_of_zero_y_out_of_range :
    (InField ⟨17, 16, 0, 16⟩ ⟨1, 0, false⟩ ∧ OnCurve ⟨17, 16, 0, 16⟩ ⟨1, 0, false⟩) ∧
      point_negation ⟨17, 16, 0, 16⟩ ⟨1, 0, false⟩ = ⟨1, 17, false⟩ ∧
      ¬ InField ⟨17, 16, 0, 16⟩ (point_negation ⟨17, 16, 0, 16⟩ ⟨1, 0, false⟩) ∧
      (point_doubling ⟨17, 16, 0, 16⟩ ⟨1, 0, false⟩).infinity = true ∧
      (point_doubling ⟨17, 16, 0, 16⟩
        (point_negation ⟨17, 16, 0, 16⟩ ⟨1, 0, false⟩)).infinity = false ∧
      ∀ (p a b n : Int) (P : Point), 0 < p → P.infinity = false → InField ⟨p, a, b, n⟩ P →
        P.y ≠ 0 → InField ⟨p, a, b, n⟩ (point_negation ⟨p, a, b, n⟩ P) := by
  refine ⟨by decide, by decide, by decide, by decide, by decide, ?_⟩
  intro p a b n P _ hinf hP hy
  obtain ⟨h1, h2, h3, h4⟩ := hP
  simp only [point_negation, point_is_infinity, hinf, point_copy]
  dsimp only at h1 h2 h3 h4
  have hy0 : 0 < P.y := lt_of_le_of_ne h3 (Ne.symm hy)
  refine ⟨h1, h2, ?_, ?_⟩
  · simp only [Bool.false_eq_true, if_false]; omega
  · simp only [Bool.false_eq_true, if_false]; omega


/-! ## `scalar_multiplication` against the plain double-and-add loop -/

theorem point_doubling_infinity (EC : EllipticCurve) (P : Point)
    (h : (point_doubling EC P).infinity = true) : point_doubling EC P = point_set_infinity := by
  unfold point_doubling at h ⊢
  by_cases h1 : point_is_infinity P = true
  · rw [if_pos h1]
  · rw [if_neg h1] at h ⊢
    by_cases h2 : P.y = 0
    · rw [if_pos h2]
    · rw [if_neg h2] at h
      exact absurd h (by simp)

theorem point_addition_infinity (EC : EllipticCurve) (P Q : Point) (hP : P.infinity = false)
    (hQ : Q.infinity = false) (h : (point_addition EC P Q).infinity = true) :
    point_addition EC P Q = point_set_infinity := by
  unfold point_addition at h ⊢
  have h1 : ¬ point_is_infinity P = true := by simp [point_is_infinity, hP]
  have h2 : ¬ point_is_infinity Q = true := by simp [point_is_infinity, hQ]
  rw [if_neg h1, if_neg h2] at h ⊢
  by_cases h3 : P.x = Q.x
  · rw [if_pos h3] at h ⊢
    simp only at h ⊢
    by_cases h4 : mpz_mod (P.y + Q.y) EC.p = 0
    · rw [if_pos h4]
    · rw [if_neg h4] at h ⊢
      exact point_doubling_infinity EC P h
  · rw [if_neg h3] at h
    exact absurd h (by simp)

/-- One pass of both loops keeps the accumulators the same point. -/
theorem scalar_loop_same (EC : EllipticCurve) (P : Point) (k : Int) (i : Nat) (R R' : Point)
    (h : SamePoint R R') :
    SamePoint (scalar_multiplication_loop EC (point_copy P) k i R)
      (plain_double_and_add_loop EC P k i R') := by
  induction i generalizing R R' with
  | zero => exact h
  | succ i ih =>
    rw [scalar_multiplication_loop, plain_double_and_add_loop]
    apply ih
    simp only [point_copy_eq, point_is_infinity]
    rcases h with ⟨hR, hR'⟩ | rfl
    · have hd : point_doubling EC R' = point_set_infinity := by
        simp [point_doubling, point_is_infinity, hR']
      simp only [hR, hd, Bool.not_true, Bool.false_eq_true, if_false]
      by_cases hb : mpz_tstbit k i = true
      · rw [if_pos hb, if_pos hb]
        right
        simp [point_addition, point_is_infinity, point_set_infinity, point_copy_eq]
      · rw [if_neg hb, if_neg hb]
        left
        exact ⟨hR, rfl⟩
    · by_cases hR : R.infinity = true
      · have hd : point_doubling EC R = point_set_infinity := by
          simp [point_doubling, point_is_infinity, hR]
        simp only [hR, hd, Bool.not_true, Bool.false_eq_true, if_false]
        by_cases hb : mpz_tstbit k i = true
        · rw [if_pos hb, if_pos hb]
          right
          simp [point_addition, point_is_infinity, point_set_infinity, point_copy_eq]
        · rw [if_neg hb, if_neg hb]
          left
          exact ⟨hR, rfl⟩
      · have hRf : R.infinity = false := by simpa using hR
        simp only [hRf, Bool.not_false, if_true]
        by_cases hb : mpz_tstbit k i = true
        · rw [if_pos hb, if_pos hb]
          by_cases hd : (point_doubling EC R).infinity = true
          · rw [if_pos hd]
            right
            simp [point_addition, point_is_infinity, hd, point_copy_eq]
          · rw [if_neg hd]
            right
            rfl
        · rw [if_neg hb, if_neg hb]
          right
          rfl

/-- For a finite `P` both loops keep equal accumulators, which are the point written by
`point_set_infinity` whenever they are infinite. -/
theorem scalar_loop_eq (EC : EllipticCurve) (P : Point) (hP : P.infinity = false) (k : Int)
    (i : Nat) (R : Point) (hR : R.infinity = true → R = point_set_infinity) :
    scalar_multiplication_loop EC (point_copy P) k i R =
      plain_double_and_add_loop EC P k i R := by
  induction i generalizing R with
  | zero => rfl
  | succ i ih =>
    rw [scalar_multiplication_loop, plain_double_and_add_loop]
    simp only [point_copy_eq, point_is_infinity]
    have h1 : (if (!R.infinity) = true then point_doubling EC R else R) =
        point_doubling EC R := by
      by_cases hi : R.infinity = true
      · have hd : point_doubling EC R = point_set_infinity := by
          simp [point_doubling, point_is_infinity, hi]
        simp only [hi, Bool.not_true, Bool.false_eq_true, if_false, hd]
        exact hR hi
      · have hRf : R.infinity = false := by simpa using hi
        simp only [hRf, Bool.not_false, if_true]
    rw [h1]
    by_cases hb : mpz_tstbit k i = true
    · rw [if_pos hb, if_pos hb]
      by_cases hd : (point_doubling EC R).infinity = true
      · rw [if_pos hd]
        have : point_addition EC (point_doubling EC R) P = P := by
          simp [point_addition, point_is_infinity, hd, point_copy_eq]
        rw [this]
        exact ih P (fun h => absurd h (by simp [hP]))
      · rw [if_neg hd]
        have hdf : (point_doubling EC R).infinity = false := by simpa using hd
        exact ih _ (point_addition_infinity EC _ P hdf hP)
    · rw [if_neg hb, if_neg hb]
      exact ih _ (point_doubling_infinity EC R)

/-- A leading zero bit does not change the result of the plain loop. -/
theorem plain_double_and_add_succ (EC : EllipticCurve) (P : Point) (k : Int) (n : Nat)
    (hbit : mpz_tstbit k n = false) :
    plain_double_and_add EC P k (n + 1) = plain_double_and_add EC P k n := by
  unfold plain_double_and_add
  rw [plain_double_and_add_loop]
  have hd : point_doubling EC point_set_infinity = point_set_infinity := by
    simp [point_doubling, point_is_infinity, point_set_infinity]
  simp only [hd, hbit, Bool.false_eq_true, if_false]

theorem plain_double_and_add_extra (EC : EllipticCurve) (P : Point) (k n m : Nat)
    (hk : k < 2 ^ n) (hnm : n ≤ m) :
    plain_double_and_add EC P (k : Int) m = plain_double_and_add EC P (k : Int) n := by
  induction m with
  | zero =>
    have : n = 0 := by omega
    rw [this]
  | succ m ih =>
    by_cases h : n = m + 1
    · rw [h]
    · have hle : n ≤ m := by omega
      have hbit : mpz_tstbit (k : Int) m = false := by
        rw [mpz_tstbit_natCast]
        apply Nat.testBit_eq_false_of_lt
        exact lt_of_lt_of_le hk (Nat.pow_le_pow_right (by norm_num) hle)
      rw [plain_double_and_add_succ EC P k m hbit]
      exact ih hle

theorem plain_double_and_add_bits (EC : EllipticCurve) (P : Point) (k n m : Nat)
    (hn : k < 2 ^ n) (hm : k < 2 ^ m) :
    plain_double_and_add EC P (k : Int) n = plain_double_and_add EC P (k : Int) m := by
  rcases Nat.le_total n m with h | h
  · exact (plain_double_and_add_extra EC P k n m hn h).symm
  · exact plain_double_and_add_extra EC P k m n hm h

/-- C29: for every curve, point `P` and integer `k ≥ 0`, `scalar_multiplication` (which
skips the doubling while `R` is infinity, copies `P` instead of adding when `R` is
infinity, and iterates over `mpz_sizeinbase(k, 2)` bits, which is 1 for `k = 0`) returns
the same point as the plain most-significant-bit-first loop "`R = infinity`; for each bit
of `k` from high to low: `R = double(R)`; if the bit is 1, `R = add(R, P)`", run over any
number `nbits` of low bits that holds `k`; the two results are equal as stored values when
`P` is not the point at infinity, and it returns infinity for `k = 0`. -/
theorem C29_scalar_multiplication_refines_plain_loop (EC : EllipticCurve) (P : Point)
    (k : Nat) :
    (∀ nbits, k < 2 ^ nbits →
        SamePoint (scalar_multiplication EC P k) (plain_double_and_add EC P k nbits)) ∧
      (P.infinity = false → ∀ nbits, k < 2 ^ nbits →
        scalar_multiplication EC P k = plain_double_and_add EC P k nbits) ∧
      mpz_sizeinbase2 0 = 1 ∧
      scalar_multiplication EC P 0 = point_set_infinity := by
  have hk := lt_two_pow_sizeinbase2 k
  refine ⟨?_, ?_, rfl, ?_⟩
  · intro nbits hn
    rw [plain_double_and_add_bits EC P k nbits _ hn hk]
    exact scalar_loop_same EC P k _ _ _ (Or.inr rfl)
  · intro hP nbits hn
    rw [plain_double_and_add_bits EC P k nbits _ hn hk]
    exact scalar_loop_eq EC P hP k _ _ (fun _ => rfl)
  · have b00 : mpz_tstbit 0 0 = false := by decide
    simp [scalar_multiplication, mpz_sizeinbase2, scalar_multiplication_loop,
      point_is_infinity, point_set_infinity, b00]

/-- Witness of C29: `5·(5, 1)` on the curve over `ZMod 17`, the plain loop run over 3 and
over 8 bits. -/
theorem C29_scalar_multiplication_refines_plain_loop_witness :
    toyP.infinity = false ∧ 5 < 2 ^ 3 ∧ 5 < 2 ^ 8 ∧
      scalar_multiplication toyCurve toyP (5 : Nat) =
        plain_double_and_add toyCurve toyP (5 : Nat) 3 ∧
      scalar_multiplication toyCurve toyP (5 : Nat) =
        plain_double_and_add toyCurve toyP (5 : Nat) 8 :=
  ⟨rfl, by decide, by decide,
    (C29_scalar_multiplication_refines_plain_loop toyCurve toyP 5).2.1 rfl 3 (by decide),
    (C29_scalar_multiplication_refines_plain_loop toyCurve toyP 5).2.1 rfl 8 (by decide)⟩

/-- C30: for every curve and every non-infinity point `P`,
`scalar_multiplication(EC, P, 2)` returns exactly the point returned by
`point_doubling(EC, P)`, and `scalar_multiplication(EC, P, 1)` returns `P`. -/
theorem C30_small_scalars (EC : EllipticCurve) (P : Point) (hP : P.infinity = false) :
    scalar_multiplication EC P 2 = point_doubling EC P ∧
      scalar_multiplication EC P 1 = P := by
  have h2 : mpz_sizeinbase2 2 = 2 := by decide
  have h1 : mpz_sizeinbase2 1 = 1 := by decide
  have b21 : mpz_tstbit 2 1 = true := by decide
  have b20 : mpz_tstbit 2 0 = false := by decide
  have b10 : mpz_tstbit 1 0 = true := by decide
  constructor
  · simp [scalar_multiplication, h2, scalar_multiplication_loop, point_is_infinity,
      point_set_infinity, point_copy_eq, b21, b20, hP]
  · simp [scalar_multiplication, h1, scalar_multiplication_loop, point_is_infinity,
      point_set_infinity, point_copy_eq, b10]

/-- Witness of C30: the generator `G` of secp256k1, as in `test_ecc.c`. -/
theorem C30_small_scalars_witness :
    secp256k1_G.infinity = false ∧
      scalar_multiplication secp256k1 secp256k1_G 2 = point_doubling secp256k1 secp256k1_G ∧
      scalar_multiplication secp256k1 secp256k1_G 1 = secp256k1_G :=
  ⟨rfl, C30_small_scalars secp256k1 secp256k1_G rfl⟩


/-! ## Bech32 (section 4.6) -/

/-- C27 (amended): `segwit_addr_encode` with hrp `bc`, witness version 0 and the 20-byte
program `751e76e8199196d454941c45d1b3a31c0ef64b8e` produces the string
`bc1qw508d6qejxtdg4y5r3zarvarrs80vjuwsng254`, and `segwit_addr_decode` of that string with
hrp `bc` succeeds and returns witness version 0 and the same 20 bytes. -/
theorem C27_segwit_vector :
    segwit_addr_encode "bc".toList 0 prog20 =
        some "bc1qw508d6qejxtdg4y5r3zarvarrs80vjuwsng254".toList ∧
      segwit_addr_decode "bc".toList "bc1qw508d6qejxtdg4y5r3zarvarrs80vjuwsng254".toList =
        some (0, prog20) := by
  decide!

/-- C27 as stated fails: the string `bc1qw508d6qejxtdg4y5r3zarvary0c5xw7kv8f3t5` is not
what `segwit_addr_encode` produces for the program
`751e76e8199196d454941c45d1b3a31c0ef64b8e`, and `segwit_addr_decode` rejects it: its
checksum residue is 0, which is neither of the two constants. It differs in its last
character from the address `bc1qw508d6qejxtdg4y5r3zarvary0c5xw7kv8f3t4` of the program
`751e76e8199196d454941c45d1b3a323f1433bd6`. -/
theorem C27_reference_string_invalid :
    segwit_addr_encode "bc".toList 0 prog20 ≠
        some "bc1qw508d6qejxtdg4y5r3zarvary0c5xw7kv8f3t5".toList ∧
      segwit_addr_decode "bc".toList "bc1qw508d6qejxtdg4y5r3zarvary0c5xw7kv8f3t5".toList =
        none ∧
      bech32_polymod (bech32_hrp_expand "bc".toList ++
        ((bech32_values "qw508d6qejxtdg4y5r3zarvary0c5xw7kv8f3t5".toList).getD [])) = 0 ∧
      segwit_addr_decode "bc".toList "bc1qw508d6qejxtdg4y5r3zarvary0c5xw7kv8f3t4".toList =
        some (0, hex_bytes "751e76e8199196d454941c45d1b3a323f1433bd6".toList) := by
  decide!

theorem decode_loop_append (a b : List Char) (bin : List Byte) :
    decode_loop (a ++ b) bin = (decode_loop a bin).bind (fun mid => decode_loop b mid) := by
  induction a generalizing bin with
  | nil => rfl
  | cons c cs ih =>
    simp only [List.cons_append, decode_loop]
    cases strchr_alphabet c with
    | none => rfl
    | some digit =>
      simp only
      split_ifs
      · rfl
      · exact ih _

/-- On a string of alphabet symbols the loop of `base58_decode` runs to its end on the
buffer of `L * 733 / 1000 + 1` zero bytes. -/
theorem decode_loop_completes (s : List Char) (hs : ∀ c ∈ s, c ∈ BASE58_ALPHABET) :
    ∃ ds out, symbol_indices s = some ds ∧
      accum58 0 ds < 256 ^ (s.length * 733 / 1000 + 1) ∧
      decode_loop s (List.replicate (s.length * 733 / 1000 + 1) 0) = some out := by
  obtain ⟨ds, hds, hsym, hmap⟩ := symbol_indices_of_mem s hs
  have hlen : ds.length = s.length := by rw [← hmap, List.length_map]
  have hval : accum58 0 ds < 256 ^ (s.length * 733 / 1000 + 1) := by
    rw [accum58_eq, zero_mul, zero_add, ← hlen]
    have h1 : Nat.ofDigits 58 ds.reverse < 58 ^ ds.reverse.length :=
      Nat.ofDigits_lt_base_pow_length (by norm_num) (fun x hx => hds x (by simpa using hx))
    rw [List.length_reverse] at h1
    exact lt_trans h1 (pow58_lt_pow256 _)
  have hbound : accum58 (beVal (List.replicate (s.length * 733 / 1000 + 1) (0 : Byte))) ds <
      256 ^ (List.replicate (s.length * 733 / 1000 + 1) (0 : Byte)).length := by
    rw [beVal_replicate_zero, List.length_replicate]
    exact hval
  obtain ⟨out, ho, _, _⟩ := decode_loop_spec ds hds _ hbound
  rw [hmap] at ho
  exact ⟨ds, out, hsym, hval, ho⟩

/-- C33: for every string `s` made only of Base58 alphabet symbols, of any length `L`, the
overflow branch of `base58_decode` (`carry != 0` after a multiply-by-58 step) is never
taken: the value of `s` fits in the `L * 733 / 1000 + 1` bytes that are allocated, at every
character the loop has reached the character with a buffer on which the step leaves
`carry = 0`, and `base58_decode` does not fail. -/
theorem C33_base58_decode_no_overflow (s : List Char) (hs : ∀ c ∈ s, c ∈ BASE58_ALPHABET) :
    (∃ ds, symbol_indices s = some ds ∧
        accum58 0 ds < 256 ^ (s.length * 733 / 1000 + 1)) ∧
      (∀ pre c post, s = pre ++ c :: post →
        ∃ bin digit, decode_loop pre (List.replicate (s.length * 733 / 1000 + 1) 0) = some bin ∧
          strchr_alphabet c = some digit ∧ (mul58add bin digit).2 = 0) ∧
      ∃ out, base58_decode s = some out := by
  obtain ⟨ds, out, hsym, hval, hloop⟩ := decode_loop_completes s hs
  refine ⟨⟨ds, hsym, hval⟩, ?_, ?_⟩
  · intro pre c post hsplit
    have h := hloop
    conv at h => lhs; arg 1; rw [hsplit]
    rw [decode_loop_append] at h
    cases hpre : decode_loop pre (List.replicate (s.length * 733 / 1000 + 1) 0) with
    | none => rw [hpre] at h; cases h
    | some bin =>
      rw [hpre] at h
      simp only [Option.some_bind, decode_loop] at h
      cases hc : strchr_alphabet c with
      | none => rw [hc] at h; cases h
      | some digit =>
        rw [hc] at h
        simp only at h
        refine ⟨bin, digit, rfl, rfl, ?_⟩
        by_contra hne
        rw [if_pos hne] at h
        cases h
  · obtain ⟨es, hes, _, hmap⟩ := symbol_indices_of_mem s hs
    rw [← hmap]
    exact ⟨_, base58_decode_map es hes⟩

/-- Witness of C33: the two-character string `zz`, whose value 3363 fits in the two bytes
allocated for it. -/
theorem C33_base58_decode_no_overflow_witness :
    (∀ c ∈ ['z', 'z'], c ∈ BASE58_ALPHABET) ∧
      ((∃ ds, symbol_indices ['z', 'z'] = some ds ∧
          accum58 0 ds < 256 ^ (['z', 'z'].length * 733 / 1000 + 1)) ∧
        (∀ pre c post, ['z', 'z'] = pre ++ c :: post →
          ∃ bin digit,
            decode_loop pre (List.replicate (['z', 'z'].length * 733 / 1000 + 1) 0) =
              some bin ∧
            strchr_alphabet c = some digit ∧ (mul58add bin digit).2 = 0) ∧
        ∃ out, base58_decode ['z', 'z'] = some out) :=
  ⟨by decide, C33_base58_decode_no_overflow ['z', 'z'] (by decide)⟩

theorem leadingZeros_replicate_append (z : Nat) {out : List Byte} (h : NoLeadingZero out) :
    leadingZeros (List.replicate z 0 ++ out) = z := by
  unfold leadingZeros
  rw [List.takeWhile_append_of_pos (by
    intro a ha
    simp [List.eq_of_mem_replicate ha])]
  have h0 : out.takeWhile (fun x => x = 0) = [] := by
    cases out with
    | nil => rfl
    | cons x xs =>
      have hx : x ≠ 0 := h x (by simp)
      rw [List.takeWhile_cons_of_neg (by simpa using hx)]
  rw [h0]
  simp

theorem beVal_replicate_append (z : Nat) {out : List Byte} (h : NoLeadingZero out) :
    beVal (List.replicate z 0 ++ out) = beVal out := by
  have h1 := beVal_drop_leadingZeros (List.replicate z 0 ++ out)
  rw [leadingZeros_replicate_append z h, List.drop_left' (List.length_replicate z 0)] at h1
  exact h1.symm

/-- The base-58 digits of the value of a digit string are the digits of the string after
its leading zeros. -/
theorem digits_accum58 (ds : List Nat) (hds : ∀ d ∈ ds, d < 58) :
    (Nat.digits 58 (accum58 0 ds)).reverse =
      ds.drop (ds.takeWhile (fun d => d = 0)).length := by
  have hsplit := digits_split_zeros ds
  have hdrop : ds.drop (ds.takeWhile (fun d => d = 0)).length =
      ds.dropWhile (fun d => d = 0) := by
    have h := List.takeWhile_append_dropWhile (fun d => decide (d = 0)) ds
    conv_lhs => arg 2; rw [← h]
    exact List.drop_left' rfl
  have hval : accum58 0 ds = Nat.ofDigits 58 (ds.dropWhile (fun d => d = 0)).reverse := by
    conv_lhs => rw [hsplit]
    rw [accum58_zero_replicate, accum58_eq, zero_mul, zero_add, hdrop]
  rw [hval, hdrop, Nat.digits_ofDigits 58 (by norm_num), List.reverse_reverse]
  · intro l hl
    exact hds l (List.dropWhile_sublist _ |>.subset (List.mem_reverse.mp hl))
  · intro hne
    rw [List.getLast_reverse]
    have := List.head_dropWhile_not (fun d => decide (d = 0)) ds
      (by simpa using hne)
    simpa using this

/-- Encoding inverts decoding on strings of alphabet symbols. -/
theorem base58_encode_decode (s : List Char) (hs : ∀ c ∈ s, c ∈ BASE58_ALPHABET) :
    ∃ b, base58_decode s = some b ∧ base58_encode b = s := by
  obtain ⟨ds, hds, _, hmap⟩ := symbol_indices_of_mem s hs
  obtain ⟨out, h1, h2, h3⟩ := base58_decode_digits ds hds
  rw [hmap] at h1
  refine ⟨_, h1, ?_⟩
  rw [base58_encode_eq, leadingZeros_replicate_append _ h2, beVal_replicate_append _ h2, h3,
    digits_accum58 ds hds, ← List.map_replicate, ← List.map_append, ← digits_split_zeros]
  exact hmap

/-- C34: for every string `s` made only of Base58 alphabet symbols (no leading spaces),
`base58_decode(s)` succeeds with some bytes `b` and `base58_encode(b) = s`; hence
`base58_decode` is injective on such strings: a string `t` of alphabet symbols with the
same decoding as `s` is `s`. -/
theorem C34_base58_encode_decode (s : List Char) (hs : ∀ c ∈ s, c ∈ BASE58_ALPHABET) :
    (∃ b, base58_decode s = some b ∧ base58_encode b = s) ∧
      ∀ t : List Char, (∀ c ∈ t, c ∈ BASE58_ALPHABET) →
        base58_decode t = base58_decode s → t = s := by
  obtain ⟨b, hb1, hb2⟩ := base58_encode_decode s hs
  refine ⟨⟨b, hb1, hb2⟩, ?_⟩
  intro t ht heq
  obtain ⟨b', hb1', hb2'⟩ := base58_encode_decode t ht
  rw [hb1, hb1'] at heq
  rw [← hb2, ← hb2', Option.some.inj heq]

/-- Witness of C34: the string `11z`. -/
theorem C34_base58_encode_decode_witness :
    (∀ c ∈ ['1', '1', 'z'], c ∈ BASE58_ALPHABET) ∧
      ((∃ b, base58_decode ['1', '1', 'z'] = some b ∧ base58_encode b = ['1', '1', 'z']) ∧
        ∀ t : List Char, (∀ c ∈ t, c ∈ BASE58_ALPHABET) →
          base58_decode t = base58_decode ['1', '1', 'z'] → t = ['1', '1', 'z']) :=
  ⟨by decide, C34_base58_encode_decode ['1', '1', 'z'] (by decide)⟩


/-! ## SHA-256 test vectors -/

/-- C37: the function `sha256` computes SHA-256 on the two standard vectors: the 3-byte
input `abc` gives `ba7816bf8f01cfea414140de5dae2223b00361a396177a9cb410ff61f20015ad` and the
empty input gives `e3b0c44298fc1c149afbf4c8996fb92427ae41e4649b934ca495991b7852b855`. -/
theorem C37_sha256_vectors :
    sha256 [0x61, 0x62, 0x63] =
        hex_bytes "ba7816bf8f01cfea414140de5dae2223b00361a396177a9cb410ff61f20015ad".toList ∧
      sha256 [] =
        hex_bytes "e3b0c44298fc1c149afbf4c8996fb92427ae41e4649b934ca495991b7852b855".toList := by
  decide!

/-! ## Sizes of the Base58 buffers -/

theorem pow256_lt_pow58 (k : Nat) : 256 ^ k < 58 ^ (k * 138 / 100 + 1) := by
  have hbase : (256 : Nat) ^ 100 ≤ 58 ^ 138 := by norm_num
  have hexp : 138 * k < 100 * (k * 138 / 100 + 1) := by omega
  have h1 : ((256 : Nat) ^ k) ^ 100 < (58 ^ (k * 138 / 100 + 1)) ^ 100 := by
    calc ((256 : Nat) ^ k) ^ 100 = (256 ^ 100) ^ k := by rw [← pow_mul, ← pow_mul, mul_comm]
      _ ≤ (58 ^ 138) ^ k := Nat.pow_le_pow_left hbase k
      _ = 58 ^ (138 * k) := by rw [← pow_mul]
      _ < 58 ^ (100 * (k * 138 / 100 + 1)) := Nat.pow_lt_pow_right (by norm_num) hexp
      _ = (58 ^ (k * 138 / 100 + 1)) ^ 100 := by rw [← pow_mul, mul_comm]
  exact lt_of_pow_lt_pow_left₀ 100 (Nat.zero_le _) h1

theorem leadingZeros_le (bs : List Byte) : leadingZeros bs ≤ bs.length := by
  unfold leadingZeros
  exact (List.takeWhile_sublist _).length_le

theorem beVal_lt_of_leadingZeros (bs : List Byte) :
    beVal bs < 256 ^ (bs.length - leadingZeros bs) := by
  have h := beVal_lt (bs.drop (leadingZeros bs))
  rw [beVal_drop_leadingZeros, List.length_drop] at h
  exact h

theorem base58_encode_length (data : List Byte) :
    (base58_encode data).length =
      leadingZeros data + (Nat.digits 58 (beVal data)).length := by
  rw [base58_encode_eq]
  simp

/-- C38: for every byte string of length `n`, the string built by `base58_encode` has at
most `n * 138 / 100 + 1` characters (integer division), so with its terminating NUL it
fits in the `n * 138 / 100 + 2` bytes allocated for it. -/
theorem C38_base58_encode_fits (data : List Byte) :
    (base58_encode data).length ≤ data.length * 138 / 100 + 1 ∧
      (base58_encode data).length + 1 ≤ data.length * 138 / 100 + 2 := by
  have hz := leadingZeros_le data
  have hv := beVal_lt_of_leadingZeros data
  have hd := digits58_length_le
    (lt_trans hv (pow256_lt_pow58 (data.length - leadingZeros data)))
  rw [base58_encode_length]
  omega


/-! ## The first character and the length of Base58Check addresses -/

theorem spec_base58_encode_eq_base58_encode (b : List Byte) :
    spec_base58_encode b = base58_encode b := by
  rw [base58_encode_eq, spec_base58_encode, alphabetAt_zero]

/-- The number of base-58 digits of `v` and its most significant digit, for
`58 ^ k ≤ v < 58 ^ (k + 1)`. -/
theorem digits58_top (k : Nat) : ∀ v : Nat, 58 ^ k ≤ v → v < 58 ^ (k + 1) →
    (Nat.digits 58 v).length = k + 1 ∧ (Nat.digits 58 v).reverse.head? = some (v / 58 ^ k) := by
  induction k with
  | zero =>
    intro v h1 h2
    have hv : 0 < v := by simpa using h1
    rw [Nat.digits_of_lt 58 v (by omega) (by simpa using h2)]
    simp
  | succ k ih =>
    intro v h1 h2
    have hv : 0 < v := lt_of_lt_of_le (by positivity) h1
    have hq1 : 58 ^ k ≤ v / 58 := by
      rw [Nat.le_div_iff_mul_le (by norm_num)]
      rw [pow_succ] at h1
      exact h1
    have hq2 : v / 58 < 58 ^ (k + 1) := by
      rw [Nat.div_lt_iff_lt_mul (by norm_num)]
      rw [pow_succ] at h2
      exact h2
    obtain ⟨hl, hh⟩ := ih (v / 58) hq1 hq2
    rw [Nat.digits_def' (by norm_num) hv]
    refine ⟨by rw [List.length_cons, hl], ?_⟩
    rw [List.reverse_cons, List.head?_append_of_ne_nil _ (by
      intro hnil
      have := congrArg List.length hnil
      rw [List.length_reverse, hl] at this
      cases this), hh, Nat.div_div_eq_div_mul, pow_succ, mul_comm]

theorem leadingZeros_of_head_ne_zero (b : List Byte) (x : Byte) (h : b.head? = some x)
    (hx : x ≠ 0) : leadingZeros b = 0 := by
  cases b with
  | nil => rfl
  | cons y ys =>
    simp only [List.head?_cons, Option.some.injEq] at h
    subst h
    unfold leadingZeros
    rw [List.takeWhile_cons_of_neg (by simpa using hx)]
    rfl

/-- The Base58 encoding of 25 bytes that start with `0x05` has 34 symbols and starts with
`3`. -/
theorem base58_encode_25_of_05 (b : List Byte) (hlen : b.length = 25)
    (hhead : b.head? = some 0x05) :
    (base58_encode b).length = 34 ∧ (base58_encode b).head? = some '3' := by
  cases b with
  | nil => cases hhead
  | cons y ys =>
    have hz := leadingZeros_of_head_ne_zero (y :: ys) 0x05 hhead (by decide)
    simp only [List.head?_cons, Option.some.injEq] at hhead
    subst hhead
    have hys : ys.length = 24 := by simpa using hlen
    have hv := beVal_cons 0x05 ys
    have hlt := beVal_lt ys
    rw [hys] at hv hlt
    have h5 : ((0x05 : Byte).val : Nat) = 5 := rfl
    rw [h5] at hv
    have hlo : (2 : Nat) * 58 ^ 33 ≤ 5 * 256 ^ 24 := by norm_num
    have hhi : (6 : Nat) * 256 ^ 24 ≤ 3 * 58 ^ 33 := by norm_num
    have h1 : 58 ^ 33 ≤ beVal ((0x05 : Byte) :: ys) := by omega
    have h2 : beVal ((0x05 : Byte) :: ys) < 58 ^ (33 + 1) := by
      rw [pow_succ]
      omega
    obtain ⟨hl, hh⟩ := digits58_top 33 _ h1 h2
    have hq : beVal ((0x05 : Byte) :: ys) / 58 ^ 33 = 2 := by
      apply Nat.div_eq_of_lt_le
      · omega
      · omega
    rw [base58_encode_eq, hz, List.replicate_zero, List.nil_append, List.length_map,
      List.length_reverse, hl, List.head?_map, hh, hq]
    exact ⟨rfl, by decide⟩

/-- The address `public_key_to_address` returns for the variants `P2SH` and `P2SH-P2WPKH`
is the Base58 encoding of 25 bytes that start with `0x05`. -/
theorem p2sh_address_form (RMD160Data : List Byte → List Byte)
    (hrmd : ∀ x, (RMD160Data x).length = 20)
    (segwit_addr_encode : List Char → Nat → List Byte → Option (List Char))
    (public_key_hex addr : List Char)
    (h : public_key_to_address RMD160Data segwit_addr_encode public_key_hex "P2SH".toList =
        some addr ∨
      public_key_to_address RMD160Data segwit_addr_encode public_key_hex
        "P2SH-P2WPKH".toList = some addr) :
    ∃ b : List Byte, b.length = 25 ∧ b.head? = some 0x05 ∧ addr = base58_encode b := by
  have key : ∀ h20 : List Byte, h20.length = 20 →
      base58check_encode 0x05 h20 100 = some addr →
      ∃ b : List Byte, b.length = 25 ∧ b.head? = some 0x05 ∧ addr = base58_encode b := by
    intro h20 hl he
    rw [base58check_encode_eq _ _ hl, spec_base58_encode_eq_base58_encode] at he
    refine ⟨_, ?_, ?_, (Option.some.inj he).symm⟩
    · rw [with_checksum_length, List.length_cons, hl]
    · rfl
  cases hb : hex2bin public_key_hex (public_key_hex.length / 2) with
  | none =>
    simp only [public_key_to_address, hb] at h
    rcases h with h | h <;> cases h
  | some pub_bin =>
    simp only [public_key_to_address, hb, hash160] at h
    rcases h with h | h
    · rw [if_neg (by decide), if_pos trivial] at h
      exact key _ (hrmd _) h
    · rw [if_neg (by decide), if_neg (by decide), if_neg (by decide), if_neg (by decide),
        if_pos trivial] at h
      exact key _ (hrmd _) h

/-- C31: every address that `public_key_to_address` returns for the variants `P2SH` and
`P2SH-P2WPKH` (on a key text of at most 200 characters, so that the decoded key fits the
100-byte buffer `pub_bin`) has 34 characters and starts with the character `3`; and for
every 25-byte string whose first byte is `0x05`, the Base58 encoding (`base58_encode`,
which `b58enc` is taken to agree with) has exactly 34 characters and its first character
is `3`. `RMD160Data` is any function with 20-byte digests, `segwit_addr_encode` any
function. -/
theorem C31_p2sh_starts_with_3 (RMD160Data : List Byte → List Byte)
    (hrmd : ∀ x, (RMD160Data x).length = 20)
    (segwit_addr_encode : List Char → Nat → List Byte → Option (List Char)) :
    (∀ public_key_hex addr : List Char, public_key_hex.length ≤ 200 →
      (public_key_to_address RMD160Data segwit_addr_encode public_key_hex "P2SH".toList =
          some addr ∨
        public_key_to_address RMD160Data segwit_addr_encode public_key_hex
          "P2SH-P2WPKH".toList = some addr) →
      addr.length = 34 ∧ addr.head? = some '3') ∧
    ∀ b : List Byte, b.length = 25 → b.head? = some 0x05 →
      (base58_encode b).length = 34 ∧ (base58_encode b).head? = some '3' := by
  refine ⟨?_, base58_encode_25_of_05⟩
  intro public_key_hex addr _ h
  obtain ⟨b, hl, hh, rfl⟩ :=
    p2sh_address_form RMD160Data hrmd segwit_addr_encode public_key_hex addr h
  exact base58_encode_25_of_05 b hl hh

/-- Witness of C31: with the stand-in `zeroHash20` for RIPEMD-160, the `P2SH` address of the
compressed secp256k1 generator key is returned, has 34 characters and starts with `3`; so
does the encoding of `0x05` followed by 24 zero bytes. -/
theorem C31_p2sh_starts_with_3_witness :
    (∀ x, (zeroHash20 x).length = 20) ∧
      (generate_strpublickey secp256k1_G true).length ≤ 200 ∧
      (∃ addr, public_key_to_address zeroHash20 (fun _ _ _ => none)
          (generate_strpublickey secp256k1_G true) "P2SH".toList = some addr ∧
        addr.length = 34 ∧ addr.head? = some '3') ∧
      (base58_encode (0x05 :: List.replicate 24 0)).length = 34 ∧
      (base58_encode (0x05 :: List.replicate 24 0)).head? = some '3' := by
  have hb := hex2bin_eq (generate_strpublickey secp256k1_G true)
    ((generate_strpublickey secp256k1_G true).length / 2) (by decide) (by decide)
  obtain ⟨addr, ha⟩ : ∃ addr, public_key_to_address zeroHash20 (fun _ _ _ => none)
      (generate_strpublickey secp256k1_G true) "P2SH".toList = some addr := by
    simp only [public_key_to_address, hb, hash160]
    rw [if_neg (by decide), if_pos trivial]
    exact ⟨_, base58check_encode_eq _ _ rfl⟩
  exact ⟨fun _ => rfl, by decide,
    ⟨addr, ha, (C31_p2sh_starts_with_3 zeroHash20 (fun _ => rfl) (fun _ _ _ => none)).1
      _ addr (by decide) (Or.inl ha)⟩,
    (C31_p2sh_starts_with_3 zeroHash20 (fun _ => rfl) (fun _ _ _ => none)).2
      (0x05 :: List.replicate 24 0) rfl rfl⟩

theorem pow256_le_pow58_add (k : Nat) (hk : k ≤ 24) : 256 ^ k ≤ 58 ^ (k + 9) := by
  have h24 : (256 : Nat) ^ 24 ≤ 58 ^ 33 := by norm_num
  have h1 : (256 : Nat) ^ k * 58 ^ (24 - k) ≤ 58 ^ (k + 9) * 58 ^ (24 - k) := by
    calc (256 : Nat) ^ k * 58 ^ (24 - k) ≤ 256 ^ k * 256 ^ (24 - k) :=
          Nat.mul_le_mul_left _ (Nat.pow_le_pow_left (by norm_num) _)
      _ = 256 ^ 24 := by rw [← pow_add]; congr 1; omega
      _ ≤ 58 ^ 33 := h24
      _ = 58 ^ (k + 9) * 58 ^ (24 - k) := by rw [← pow_add]; congr 1; omega
  exact Nat.le_of_mul_le_mul_right h1 (by positivity)

/-- The Base58 encoding of 25 bytes that start with `0x00` starts with `1` and has at most
34 symbols. -/
theorem base58_encode_25_of_00 (b : List Byte) (hlen : b.length = 25)
    (hhead : b.head? = some 0x00) :
    (base58_encode b).head? = some '1' ∧ (base58_encode b).length ≤ 34 := by
  have hz1 : 1 ≤ leadingZeros b := by
    cases b with
    | nil => cases hhead
    | cons y ys =>
      simp only [List.head?_cons, Option.some.injEq] at hhead
      subst hhead
      unfold leadingZeros
      rw [List.takeWhile_cons_of_pos (by simp)]
      simp
  have hz2 := leadingZeros_le b
  have hv := beVal_lt_of_leadingZeros b
  have hk : b.length - leadingZeros b ≤ 24 := by omega
  have hd := digits58_length_le (lt_of_lt_of_le hv (pow256_le_pow58_add _ hk))
  constructor
  · rw [base58_encode_eq]
    obtain ⟨z, hz⟩ : ∃ z, leadingZeros b = z + 1 := ⟨leadingZeros b - 1, by omega⟩
    rw [hz, List.replicate_succ, List.cons_append, List.head?_cons, alphabetAt_zero]
  · rw [base58_encode_length]
    omega

/-- The address `public_key_to_address` returns for the variant `P2PKH` is the Base58
encoding of 25 bytes that start with `0x00`. -/
theorem p2pkh_address_form (RMD160Data : List Byte → List Byte)
    (hrmd : ∀ x, (RMD160Data x).length = 20)
    (segwit_addr_encode : List Char → Nat → List Byte → Option (List Char))
    (public_key_hex addr : List Char)
    (h : public_key_to_address RMD160Data segwit_addr_encode public_key_hex "P2PKH".toList =
        some addr) :
    ∃ b : List Byte, b.length = 25 ∧ b.head? = some 0x00 ∧ addr = base58_encode b := by
  cases hb : hex2bin public_key_hex (public_key_hex.length / 2) with
  | none =>
    simp only [public_key_to_address, hb] at h
    cases h
  | some pub_bin =>
    simp only [public_key_to_address, hb, hash160] at h
    rw [if_pos trivial, base58check_encode_eq _ _ (hrmd _),
      spec_base58_encode_eq_base58_encode] at h
    refine ⟨_, ?_, ?_, (Option.some.inj h).symm⟩
    · rw [with_checksum_length, List.length_cons, hrmd]
    · rfl

/-- C32: every address that `public_key_to_address` returns for the variant `P2PKH` (on a
key text of at most 200 characters, so that the decoded key fits the 100-byte buffer
`pub_bin`) starts with the character `1` and has at most 34 characters; and for every
25-byte string whose first byte is `0x00`, the Base58 encoding (`base58_encode`, which
`b58enc` is taken to agree with) begins with `1` and has at most 34 characters.
`RMD160Data` is any function with 20-byte digests, `segwit_addr_encode` any function. -/
theorem C32_p2pkh_starts_with_1 (RMD160Data : List Byte → List Byte)
    (hrmd : ∀ x, (RMD160Data x).length = 20)
    (segwit_addr_encode : List Char → Nat → List Byte → Option (List Char)) :
    (∀ public_key_hex addr : List Char, public_key_hex.length ≤ 200 →
      public_key_to_address RMD160Data segwit_addr_encode public_key_hex "P2PKH".toList =
          some addr →
      addr.head? = some '1' ∧ addr.length ≤ 34) ∧
    ∀ b : List Byte, b.length = 25 → b.head? = some 0x00 →
      (base58_encode b).head? = some '1' ∧ (base58_encode b).length ≤ 34 := by
  refine ⟨?_, base58_encode_25_of_00⟩
  intro public_key_hex addr _ h
  obtain ⟨b, hl, hh, rfl⟩ :=
    p2pkh_address_form RMD160Data hrmd segwit_addr_encode public_key_hex addr h
  exact base58_encode_25_of_00 b hl hh

/-- Witness of C32: with the stand-in `zeroHash20` for RIPEMD-160, the `P2PKH` address of
the compressed secp256k1 generator key is returned, starts with `1` and has at most 34
characters; so does the encoding of 25 zero bytes. -/
theorem C32_p2pkh_starts_with_1_witness :
    (∀ x, (zeroHash20 x).length = 20) ∧
      (generate_strpublickey secp256k1_G true).length ≤ 200 ∧
      (∃ addr, public_key_to_address zeroHash20 (fun _ _ _ => none)
          (generate_strpublickey secp256k1_G true) "P2PKH".toList = some addr ∧
        addr.head? = some '1' ∧ addr.length ≤ 34) ∧
      (base58_encode (List.replicate 25 0)).head? = some '1' ∧
      (base58_encode (List.replicate 25 0)).length ≤ 34 := by
  have hb := hex2bin_eq (generate_strpublickey secp256k1_G true)
    ((generate_strpublickey secp256k1_G true).length / 2) (by decide) (by decide)
  obtain ⟨addr, ha⟩ : ∃ addr, public_key_to_address zeroHash20 (fun _ _ _ => none)
      (generate_strpublickey secp256k1_G true) "P2PKH".toList = some addr := by
    simp only [public_key_to_address, hb, hash160]
    rw [if_pos trivial]
    exact ⟨_, base58check_encode_eq _ _ rfl⟩
  exact ⟨fun _ => rfl, by decide,
    ⟨addr, ha, (C32_p2pkh_starts_with_1 zeroHash20 (fun _ => rfl) (fun _ _ _ => none)).1
      _ addr (by decide) ha⟩,
    (C32_p2pkh_starts_with_1 zeroHash20 (fun _ => rfl) (fun _ _ _ => none)).2
      (List.replicate 25 0) rfl rfl⟩


/-! ## The inverses taken in ecc.c -/

/-- The value `point_doubling_invert_operand` gives is the one `point_doubling` inverts: the
result is computed from `mpz_invert v v p`, and without a call the result is the point at
infinity. -/
theorem point_doubling_invert_call (EC : EllipticCurve) (P : Point) :
    (point_doubling_invert_operand P = none → point_doubling EC P = point_set_infinity) ∧
      ∀ v, point_doubling_invert_operand P = some v →
        point_doubling EC P =
          (let slope := mpz_mod ((P.x * P.x * 3 + EC.a) * (mpz_invert v v EC.p).1) EC.p
           let Rx := mpz_mod (slope * slope - P.x * 2) EC.p
           { x := Rx, y := mpz_mod (slope * (P.x - Rx) - P.y) EC.p, infinity := false }) := by
  unfold point_doubling_invert_operand point_doubling
  refine ⟨?_, ?_⟩
  · intro h
    split_ifs at h ⊢ <;> rfl
  · intro v h
    split_ifs at h ⊢
    cases h
    rfl

/-- The value `point_addition_invert_operand` gives is the one `point_addition` inverts,
itself or through `point_doubling`. -/
theorem point_addition_invert_call (EC : EllipticCurve) (P Q : Point) (v : Int)
    (h : point_addition_invert_operand EC P Q = some v) :
    (P.x = Q.x → point_addition EC P Q = point_doubling EC P ∧
        point_doubling_invert_operand P = some v) ∧
      (P.x ≠ Q.x → point_addition EC P Q =
        (let slope := mpz_mod ((Q.y - P.y) * (mpz_invert v v EC.p).1) EC.p
         let Rx := mpz_mod (slope * slope - P.x - Q.x) EC.p
         { x := Rx, y := mpz_mod (slope * (P.x - Rx) - P.y) EC.p, infinity := false })) := by
  unfold point_addition_invert_operand at h
  unfold point_addition
  simp only at h ⊢
  refine ⟨?_, ?_⟩
  · intro hx
    split_ifs at h ⊢
    exact ⟨rfl, h⟩
  · intro hx
    split_ifs at h ⊢
    cases h
    rfl

theorem not_modEq_zero_of_cast_ne_zero {p : Nat} {v : Int} (h : (v : ZMod p) ≠ 0) :
    ¬ v ≡ 0 [ZMOD p] := by
  intro hm
  apply h
  have := (ZMod.intCast_eq_intCast_iff v 0 p).mpr hm
  simpa using this

/-- For an odd prime modulus, a value in `[0, p)` other than 0 doubled is invertible. -/
theorem invert_double_ok {p : Nat} (hp : p.Prime) (hodd : Odd p) {y : Int} (h0 : 0 ≤ y)
    (h1 : y < p) (hy : y ≠ 0) :
    ¬ y * 2 ≡ 0 [ZMOD p] ∧ (mpz_invert (y * 2) (y * 2) p).2 = true ∧
      y * 2 * (mpz_invert (y * 2) (y * 2) p).1 ≡ 1 [ZMOD p] := by
  haveI : Fact p.Prime := ⟨hp⟩
  have hp2 : p ≠ 2 := by
    rintro rfl
    exact absurd hodd (by decide)
  have hne : ((y * 2 : Int) : ZMod p) ≠ 0 := by
    push_cast
    exact mul_ne_zero (cast_ne_zero_of_range h0 h1 hy) (two_ne_zero_zmod hp2)
  obtain ⟨h2, _, _, h3⟩ :=
    mpz_invert_of_coprime (y * 2) (y * 2) p hp.pos (gcd_eq_one_of_cast_ne_zero hp hne)
  exact ⟨not_modEq_zero_of_cast_ne_zero hne, h2, h3⟩

/-- For a prime modulus, the difference of two distinct values of `[0, p)` is
invertible. -/
theorem invert_sub_ok {p : Nat} (hp : p.Prime) {x1 x2 : Int} (h10 : 0 ≤ x1) (h11 : x1 < p)
    (h20 : 0 ≤ x2) (h21 : x2 < p) (hx : x1 ≠ x2) :
    ¬ x2 - x1 ≡ 0 [ZMOD p] ∧ (mpz_invert (x2 - x1) (x2 - x1) p).2 = true ∧
      (x2 - x1) * (mpz_invert (x2 - x1) (x2 - x1) p).1 ≡ 1 [ZMOD p] := by
  have hne : ((x2 - x1 : Int) : ZMod p) ≠ 0 := by
    intro h
    push_cast at h
    exact hx (eq_of_cast_eq_of_range h10 h11 h20 h21 (sub_eq_zero.mp h).symm)
  obtain ⟨h2, _, _, h3⟩ :=
    mpz_invert_of_coprime (x2 - x1) (x2 - x1) p hp.pos (gcd_eq_one_of_cast_ne_zero hp hne)
  exact ⟨not_modEq_zero_of_cast_ne_zero hne, h2, h3⟩

/-- C35: for every odd prime `p` and operands `P`, `Q` whose coordinates lie in `[0, p)`,
every value `v` that `point_doubling` and `point_addition` pass to `mpz_invert` (`2·y` with
`y ≠ 0` in doubling; `x_Q − x_P` with `x_P ≠ x_Q` in addition, or the `2·y` of the doubling
it calls) is non-zero modulo `p`, and `mpz_invert` succeeds on it with an inverse of `v`
modulo `p`: the non-invertible case is not reached. -/
theorem C35_invert_operand_nonzero (p : Nat) (hp : p.Prime) (hodd : Odd p) (a b n : Int)
    (P Q : Point) (hP : InField ⟨p, a, b, n⟩ P) (hQ : InField ⟨p, a, b, n⟩ Q) :
    (∀ v, point_doubling_invert_operand P = some v →
      v = P.y * 2 ∧ P.y ≠ 0 ∧ ¬ v ≡ 0 [ZMOD p] ∧ (mpz_invert v v p).2 = true ∧
        v * (mpz_invert v v p).1 ≡ 1 [ZMOD p]) ∧
    (∀ v, point_addition_invert_operand ⟨p, a, b, n⟩ P Q = some v →
      ((v = Q.x - P.x ∧ P.x ≠ Q.x) ∨ (v = P.y * 2 ∧ P.y ≠ 0 ∧ P.x = Q.x)) ∧
        ¬ v ≡ 0 [ZMOD p] ∧ (mpz_invert v v p).2 = true ∧
        v * (mpz_invert v v p).1 ≡ 1 [ZMOD p]) := by
  obtain ⟨hPx0, hPx1, hPy0, hPy1⟩ := hP
  obtain ⟨hQx0, hQx1, _, _⟩ := hQ
  dsimp only at hPx0 hPx1 hPy0 hPy1 hQx0 hQx1
  have hdbl : ∀ v, point_doubling_invert_operand P = some v →
      v = P.y * 2 ∧ P.y ≠ 0 ∧ ¬ v ≡ 0 [ZMOD p] ∧ (mpz_invert v v p).2 = true ∧
        v * (mpz_invert v v p).1 ≡ 1 [ZMOD p] := by
    intro v hv
    unfold point_doubling_invert_operand at hv
    split_ifs at hv with h1 h2
    cases hv
    exact ⟨rfl, h2, invert_double_ok hp hodd hPy0 hPy1 h2⟩
  refine ⟨hdbl, ?_⟩
  intro v hv
  unfold point_addition_invert_operand at hv
  simp only at hv
  split_ifs at hv with h1 h2 h3 h4
  · obtain ⟨e, hy, r⟩ := hdbl v hv
    exact ⟨Or.inr ⟨e, hy, h3⟩, r⟩
  · cases hv
    exact ⟨Or.inl ⟨rfl, h3⟩, invert_sub_ok hp hPx0 hPx1 hQx0 hQx1 h3⟩

/-- Witness of C35: on the curve over the field of 17 elements, doubling `(5, 1)` inverts 2
and adding `(5, 1)` and `(6, 3)` inverts 1. -/
theorem C35_invert_operand_nonzero_witness :
    Nat.Prime 17 ∧ Odd 17 ∧ InField toyCurve toyP ∧ InField toyCurve toyQ ∧
      point_doubling_invert_operand toyP = some 2 ∧
      point_addition_invert_operand toyCurve toyP toyQ = some 1 ∧
      (mpz_invert 2 2 17).2 = true ∧ (mpz_invert 1 1 17).2 = true :=
  ⟨by norm_num, by decide, by decide, by decide, by decide, by decide,
    ((C35_invert_operand_nonzero 17 (by norm_num) (by decide) 2 2 19 toyP toyQ
      (by decide) (by decide)).1 2 (by decide)).2.2.2.1,
    ((C35_invert_operand_nonzero 17 (by norm_num) (by decide) 2 2 19 toyP toyQ
      (by decide) (by decide)).2 1 (by decide)).2.2.1⟩


/-! ## The compression flag in `wif_to_private_key` -/

/-- What `wif_to_private_key` returns on the encoding of a 34-byte payload that starts with
`0x80`, followed by its checksum. -/
theorem wif_to_private_key_encode (payload : List Byte) (hlen : payload.length = 34)
    (hhead : payload.head? = some 0x80) (hex_len : Nat) :
    wif_to_private_key (spec_base58_encode (with_checksum payload)) hex_len =
      if hex_len < 65 then none
      else some (((payload.drop 1).take 32).flatMap sprintf_02x, true) := by
  have hd := spec_base58_decode_encode (with_checksum payload)
  have hl : (with_checksum payload).length = 38 := by rw [with_checksum_length, hlen]
  rw [wif_to_private_key_of_decode _ _ hex_len hd (by omega), hl]
  have htake : (with_checksum payload).take (38 - 4) = payload := by
    unfold with_checksum
    exact List.take_left' hlen
  have hdrop : (with_checksum payload).drop (38 - 4) = (sha256 (sha256 payload)).take 4 := by
    unfold with_checksum
    exact List.drop_left' hlen
  have hget : (with_checksum payload).getD 0 0 = 0x80 := by
    cases payload with
    | nil => cases hhead
    | cons x xs =>
      simp only [List.head?_cons, Option.some.injEq] at hhead
      subst hhead
      rfl
  have hkey : ((with_checksum payload).drop 1).take 32 = (payload.drop 1).take 32 := by
    unfold with_checksum
    rw [List.drop_append_of_le_length (by omega),
      List.take_append_of_le_length (by rw [List.length_drop]; omega)]
  rw [if_neg (by decide), if_neg (by rw [hget]; decide), htake, hdrop, if_neg (by simp), hkey]
  rfl

/-- C36: `wif_to_private_key` does not inspect the compression-flag byte: for every
34-byte payload that starts with `0x80`, whatever its last byte, decoding the Base58
encoding of `payload ‖ SHA256(SHA256(payload))[0:4]` with `hex_len ≥ 65` succeeds with
`compressed = true` and returns payload bytes 1..32 as the private key (64 hexadecimal
digits); replacing the last byte by any byte `z` gives the same result. The Base58 codec
is the one of section 4.5 of the specification, which `b58tobin` is modelled from. -/
theorem C36_flag_byte_not_inspected (payload : List Byte) (hlen : payload.length = 34)
    (hhead : payload.head? = some 0x80) (hex_len : Nat) (hhl : 65 ≤ hex_len) :
    wif_to_private_key (spec_base58_encode (with_checksum payload)) hex_len =
        some (((payload.drop 1).take 32).flatMap sprintf_02x, true) ∧
      ∀ z : Byte,
        wif_to_private_key (spec_base58_encode (with_checksum (payload.take 33 ++ [z])))
            hex_len =
          some (((payload.drop 1).take 32).flatMap sprintf_02x, true) := by
  refine ⟨?_, ?_⟩
  · rw [wif_to_private_key_encode payload hlen hhead, if_neg (by omega)]
  · intro z
    have hl : (payload.take 33 ++ [z]).length = 34 := by
      rw [List.length_append, List.length_take, hlen]
      rfl
    have hh : (payload.take 33 ++ [z]).head? = some 0x80 := by
      cases payload with
      | nil => cases hhead
      | cons x xs => exact hhead
    have hk : ((payload.take 33 ++ [z]).drop 1).take 32 = (payload.drop 1).take 32 := by
      rw [List.drop_append_of_le_length (by rw [List.length_take, hlen]; decide),
        List.take_append_of_le_length (by rw [List.length_drop, List.length_take, hlen]; decide),
        List.drop_take]
      simp
    rw [wif_to_private_key_encode _ hl hh, if_neg (by omega), hk]

/-- Witness of C36: the payload `0x80`, 32 zero bytes and the flag byte `0x02`,
with a 65-byte output buffer. -/
theorem C36_flag_byte_not_inspected_witness :
    ((0x80 : Byte) :: List.replicate 32 0 ++ [0x02]).length = 34 ∧
      ((0x80 : Byte) :: List.replicate 32 0 ++ [0x02]).head? = some 0x80 ∧ 65 ≤ 65 ∧
      wif_to_private_key
          (spec_base58_encode (with_checksum ((0x80 : Byte) :: List.replicate 32 0 ++ [0x02])))
          65 =
        some (List.replicate 64 '0', true) :=
  ⟨rfl, rfl, le_refl _,
    (C36_flag_byte_not_inspected ((0x80 : Byte) :: List.replicate 32 0 ++ [0x02])
      (by decide) (by decide) 65 (le_refl _)).1.trans (by decide)⟩

end BrainWallet
